import Mathlib

/-!
# SpeedCrunch main window: session persistence and option settings

A shallow embedding of the session load/save code of `src/gui/mainwindow.cpp`
(`MainWindow::loadSession`, `MainWindow::saveSession`, `MainWindow::clearHistory`,
`MainWindow::deleteAllVariables`), of `MainWindow::Private::saveSettings` and of
the option setters (`setFormat`, `setPrecision`, `setRadixChar`, `radian`,
`degree`), together with the properties proved about them.

Conventions of the embedding:

* a `QString` that may be null is an `Option String` (`none` is the null string);
* a `QTextStream` opened on a file is the list of the lines of the file that have
  not been read yet; `readLine` returns the null string at the end of the input;
* `int` values are `Int`; `QString::toInt` only succeeds inside the 32-bit range;
* the arbitrary-precision number library (`HNumber`, `HMath`) is a parameter of
  the development: a value type `V` with a parser and formatters;
* the widgets and the evaluator are represented by the data they hold;
* a function that emits signals returns the list of the signals it emitted.
-/

set_option autoImplicit false

namespace SpeedCrunch

/-! ## Qt text primitives -/

/-- Whitespace characters skipped by the number conversions of `QString`. -/
def isSpace (c : Char) : Bool :=
  c == ' ' || c == '\t' || c == '\n' || c == '\r' || c.toNat == 11 || c.toNat == 12

/-- Value of a non-empty string of decimal digits, most significant digit first;
`acc` is the value of the digits already consumed. -/
def digitsValue : Nat → List Char → Option Nat
  | _, [] => none
  | acc, [c] => if c.isDigit then some (acc * 10 + (c.toNat - 48)) else none
  | acc, c :: d :: cs =>
    if c.isDigit then digitsValue (acc * 10 + (c.toNat - 48)) (d :: cs) else none

/-- Surrounding whitespace removed from a list of characters. -/
def trimSpaces (cs : List Char) : List Char :=
  ((cs.dropWhile isSpace).reverse.dropWhile isSpace).reverse

/-- The signed decimal integer denoted by a trimmed text, if any. -/
def signedValue : List Char → Option Int
  | '-' :: cs => (digitsValue 0 cs).map (fun n => - (n : Int))
  | '+' :: cs => (digitsValue 0 cs).map (fun n => (n : Int))
  | cs => (digitsValue 0 cs).map (fun n => (n : Int))

/-- `QString::toInt( &ok )` in base ten: `none` stands for `ok == false`. The
conversion fails on the null string, on text that is not an optionally signed
decimal integer, and on values outside the range of `int`. -/
def toInt : Option String → Option Int
  | none => none
  | some s =>
    match signedValue (trimSpaces s.data) with
    | none => none
    | some n => if -2147483648 ≤ n ∧ n ≤ 2147483647 then some n else none

/-- Lines of a text as `QTextStream::readLine` returns them one after the other:
a line ends at a line feed, a carriage return right before the line feed belongs
to the line end, and text after the last line feed is a last line. `cur` holds
the characters of the current line read so far. -/
def linesFrom : List Char → List Char → List String
  | [], [] => []
  | cur, [] => [String.mk cur]
  | cur, c :: cs =>
    if c = '\n' then
      String.mk (if cur.getLast? = some '\r' then cur.dropLast else cur) :: linesFrom [] cs
    else linesFrom (cur ++ [c]) cs

/-- The lines of a file, in reading order. -/
def textLines (text : String) : List String :=
  linesFrom [] text.data

/-- `QTextStream::readLine()`: the next line and the stream after it, or the null
string when the input is exhausted. -/
def readLine : List String → Option String × List String
  | [] => (none, [])
  | l :: ls => (some l, ls)

/-- `QString::toAscii` followed by the conversion back to a `QString`, as Qt 4
does both when no codec for C strings is set (this source sets none): the
conversions are those of `toLatin1` and `fromLatin1`, so a character up to
U+00FF is kept and every other character becomes a question mark. -/
def toAscii (text : String) : String :=
  String.mk (text.data.map (fun c => if c.toNat < 256 then c else '?'))

/-- The parts of `QString::split` with a separator of one character and empty
parts kept. `cur` holds the characters of the current part read so far. -/
def splitFrom (sep : Char) : List Char → List Char → List String
  | cur, [] => [String.mk cur]
  | cur, c :: cs =>
    if c = sep then String.mk cur :: splitFrom sep [] cs else splitFrom sep (cur ++ [c]) cs

/-- `QString::split( "=" )`. -/
def splitEq (text : String) : List String :=
  splitFrom '=' [] text.data

/-- A piece of a format string of `QString::arg`: a plain character, or a place
marker (`%1` to `%99`, also written `%L1`) with its number and its text. -/
inductive ArgToken where
  | lit (c : Char)
  | marker (n : Nat) (text : List Char)
  deriving DecidableEq, Repr

/-- What the scan for place markers has seen so far: nothing pending, a percent
sign, a percent sign and `L`, or a marker with one digit. -/
inductive ArgScan where
  | plain
  | percent
  | percentL
  | digit (n : Nat) (text : List Char)
  deriving DecidableEq, Repr

/-- The scan of a character that follows no pending text. -/
def argPlain (c : Char) : List ArgToken × ArgScan :=
  if c = '%' then ([], ArgScan.percent) else ([ArgToken.lit c], ArgScan.plain)

/-- One step of the scan for place markers (`findArgEscapes` of `QString`):
the pieces completed by the character and the new state. -/
def argStep (st : ArgScan) (c : Char) : List ArgToken × ArgScan :=
  match st with
  | ArgScan.plain => argPlain c
  | ArgScan.percent =>
    if c = 'L' then ([], ArgScan.percentL)
    else if c.isDigit then ([], ArgScan.digit (c.toNat - 48) ['%', c])
    else (ArgToken.lit '%' :: (argPlain c).1, (argPlain c).2)
  | ArgScan.percentL =>
    if c.isDigit then ([], ArgScan.digit (c.toNat - 48) ['%', 'L', c])
    else (ArgToken.lit '%' :: ArgToken.lit 'L' :: (argPlain c).1, (argPlain c).2)
  | ArgScan.digit n text =>
    if c.isDigit then ([ArgToken.marker (10 * n + (c.toNat - 48)) (text ++ [c])], ArgScan.plain)
    else (ArgToken.marker n text :: (argPlain c).1, (argPlain c).2)

/-- The pieces of a format string, scanned from the given state. -/
def argTokens : ArgScan → List Char → List ArgToken
  | ArgScan.plain, [] => []
  | ArgScan.percent, [] => [ArgToken.lit '%']
  | ArgScan.percentL, [] => [ArgToken.lit '%', ArgToken.lit 'L']
  | ArgScan.digit n text, [] => [ArgToken.marker n text]
  | st, c :: cs => (argStep st c).1 ++ argTokens (argStep st c).2 cs

/-- The lowest number of a place marker among the pieces, if there is one. -/
def lowestMarker : List ArgToken → Option Nat
  | [] => none
  | ArgToken.lit _ :: ts => lowestMarker ts
  | ArgToken.marker n _ :: ts =>
    match lowestMarker ts with
    | none => some n
    | some m => some (min n m)

/-- The text of the pieces with every place marker of number `m` replaced by the
argument. -/
def fillMarkers (m : Nat) (a : List Char) : List ArgToken → List Char
  | [] => []
  | ArgToken.lit c :: ts => c :: fillMarkers m a ts
  | ArgToken.marker n text :: ts =>
    (if n = m then a else text) ++ fillMarkers m a ts

/-- `QString::arg( const QString & )`: every occurrence of the place marker with
the lowest number is replaced by the argument; a string without a place marker
is returned as it is. -/
def qArg (format a : String) : String :=
  match lowestMarker (argTokens ArgScan.plain format.data) with
  | none => format
  | some m => String.mk (fillMarkers m a.data (argTokens ArgScan.plain format.data))

/-! ## Data held by the collaborators -/

/-- The numeric engine (`HNumber`, `HMath`) as the main window uses it: building
an `HNumber` from a text the way every call of the main window does,
`HNumber( text.toAscii().data() )` (`none` is the not-a-number value; the
conversion by `toAscii` is part of `parse`), `HMath::format` with
one argument, `HMath::formatScientific` with a precision, the constant
`DECPRECISION` of `math/hmath.hxx`, and the not-a-number value `HNumber::nan()`
as an element of the value type (what a table holds when a not-a-number value is
assigned to a variable). -/
structure HMath (V : Type) where
  parse : String → Option V
  format : V → String
  formatScientific : V → Int → String
  DECPRECISION : Int
  nan : V

/-- The `HNumber` built from a text, the not-a-number value included. -/
def HMath.number {V : Type} (hm : HMath V) (text : String) : V :=
  match hm.parse text with
  | some num => num
  | none => hm.nan

/-- What a line of the result display shows for an expression. -/
inductive Outcome (V : Type) where
  | value (num : V)
  | error (msg : String)
  deriving DecidableEq, Repr

/-- One entry of the result display. -/
structure Calculation (V : Type) where
  expression : String
  outcome : Outcome V
  deriving DecidableEq, Repr

/-- One variable of the evaluator (`Variable` of `base/evaluator.hxx`). -/
structure Variable (V : Type) where
  name : String
  value : V
  deriving DecidableEq, Repr

/-- The settings record `d->settings` (`Settings` of `base/settings.hxx`) with the
fields the main window reads and writes. `storedVariables` is the field
`settings.variables`; the window state blob is a list of bytes and the window
size a pair of width and height. The default values only serve to write states
down; they are not the defaults of the program. -/
structure Settings where
  angleMode : Char := 'r'
  format : Char := 'g'
  precision : Int := -1
  radixChar : Char := 'C'
  autoCalc : Bool := false
  autoComplete : Bool := false
  minimizeToTray : Bool := false
  saveSession : Bool := false
  saveVariables : Bool := false
  showFullScreen : Bool := false
  showKeypad : Bool := false
  showMenuBar : Bool := false
  stayAlwaysOnTop : Bool := false
  history : List String := []
  historyResults : List String := []
  storedVariables : List String := []
  mainWindowState : List Nat := []
  mainWindowSize : Int × Int := (0, 0)
  showHistory : Bool := false
  showFunctions : Bool := false
  showVariables : Bool := false
  showConstants : Bool := false
  historyDockFloating : Bool := false
  historyDockLeft : Int := 0
  historyDockTop : Int := 0
  historyDockWidth : Int := 0
  historyDockHeight : Int := 0
  functionsDockFloating : Bool := false
  functionsDockLeft : Int := 0
  functionsDockTop : Int := 0
  functionsDockWidth : Int := 0
  functionsDockHeight : Int := 0
  variablesDockFloating : Bool := false
  variablesDockLeft : Int := 0
  variablesDockTop : Int := 0
  variablesDockWidth : Int := 0
  variablesDockHeight : Int := 0
  constantsDockFloating : Bool := false
  constantsDockLeft : Int := 0
  constantsDockTop : Int := 0
  constantsDockWidth : Int := 0
  constantsDockHeight : Int := 0
  deriving DecidableEq

/-- The window properties of a dock (`QDockWidget`) that the main window reads
and writes: whether it floats, whether it is shown, its position and its size. -/
structure DockWidget where
  floating : Bool := false
  visible : Bool := false
  x : Int := 0
  y : Int := 0
  width : Int := 0
  height : Int := 0
  deriving DecidableEq

/-- The four docks of the main window (`d->docks`). -/
structure Docks where
  history : DockWidget := {}
  functions : DockWidget := {}
  variables_ : DockWidget := {}
  constants : DockWidget := {}
  deriving DecidableEq

/-- The live state the session code reads and writes: the result display
(`d->widgets.display`), the history kept by the editor (`d->widgets.editor`),
the history dock (`d->docks.history`), the variables of the evaluator
(`d->evaluator->variables()`), the list shown by the variables dock (`d->docks.variables`)
and the settings record (`d->settings`); further the window properties of the
four docks (`docks`), and what `saveState()` and `size()` of the main window
return (`windowState`, `windowSize`). -/
structure State (V : Type) where
  display : List (Calculation V) := []
  editorHistory : List String := []
  editorHistoryResults : List String := []
  historyDock : List String := []
  evaluator : List (Variable V) := []
  variablesDock : List (Variable V) := []
  settings : Settings := {}
  docks : Docks := {}
  windowState : List Nat := []
  windowSize : Int × Int := (0, 0)
  deriving DecidableEq

namespace Display

variable {V : Type}

/-- Modelled from the spec: `Result::clear` of `gui/result.cpp` is not part of
the given sources; the log is emptied. -/
def clear (_d : List (Calculation V)) : List (Calculation V) :=
  []

/-- Modelled from the spec: `Result::append` of `gui/result.cpp` is not part of
the given sources; a calculation with a numeric outcome is appended at the end
of the log. -/
def append (d : List (Calculation V)) (expr : String) (num : V) : List (Calculation V) :=
  d ++ [⟨expr, Outcome.value num⟩]

/-- Modelled from the spec: `Result::appendError` of `gui/result.cpp` is not part
of the given sources; a calculation with an error outcome that carries the given
text is appended at the end of the log. -/
def appendError (d : List (Calculation V)) (expr : String) (msg : String) :
    List (Calculation V) :=
  d ++ [⟨expr, Outcome.error msg⟩]

/-- Modelled from the spec: `Result::count` of `gui/result.cpp` is not part of the
given sources; the number of calculations in the log. -/
def count (d : List (Calculation V)) : Int :=
  (d.length : Int)

/-- Modelled from the spec: the text of an outcome, a number rendered as decimal
text and an error as its text verbatim. -/
def outcomeText (hm : HMath V) : Outcome V → String
  | Outcome.value num => hm.format num
  | Outcome.error msg => msg

/-- Modelled from the spec: `Result::asText` of `gui/result.cpp` is not part of
the given sources; for each calculation in order the expression and the outcome
text, as lines separated by a line feed. -/
def asText (hm : HMath V) (d : List (Calculation V)) : String :=
  "\n".intercalate (d.flatMap (fun c => [c.expression, outcomeText hm c.outcome]))

end Display

namespace Evaluator

variable {V : Type}

/-- The two constants of the evaluator that saveSession leaves out. -/
def isReserved (name : String) : Bool :=
  name == "pi" || name == "phi"

/-- Modelled from the spec: `Evaluator::set` of `base/evaluator.cpp` is not part
of the given sources; bindings are unique by name, and inserting a name that is
already present overwrites its value. -/
def set : List (Variable V) → String → V → List (Variable V)
  | [], name, value => [⟨name, value⟩]
  | x :: xs, name, value =>
    if x.name = name then ⟨name, value⟩ :: xs else x :: set xs name value

/-- Modelled from the spec: `Evaluator::clearVariables` of `base/evaluator.cpp` is
not part of the given sources; every binding is removed except the reserved
constants `pi` and `phi`. -/
def clearVariables (vars : List (Variable V)) : List (Variable V) :=
  vars.filter (fun x => isReserved x.name)

/-- Modelled from the spec: `Evaluator::get` of `base/evaluator.cpp` is not part
of the given sources; the value bound to a name, if any. -/
def get (vars : List (Variable V)) (name : String) : Option V :=
  (vars.find? (fun x => x.name == name)).map (fun x => x.value)

end Evaluator

/-! ## The session code of the main window -/

section Code

variable {V : Type}

/-- `MainWindow::clearHistory`: the display, the editor history, the history dock
and the two stored history lists are emptied. (The deferred `setFocus` of the
editor is a user-interface effect without a counterpart in the state.) -/
def clearHistory (s : State V) : State V :=
  { s with
    display := Display.clear s.display
    editorHistory := []
    editorHistoryResults := []
    historyDock := []
    settings := { s.settings with history := [], historyResults := [] } }

/-- `MainWindow::deleteAllVariables`: the evaluator clears its variables and the
variables dock is refreshed from the evaluator. -/
def deleteAllVariables (s : State V) : State V :=
  { s with
    evaluator := Evaluator.clearVariables s.evaluator
    variablesDock := Evaluator.clearVariables s.evaluator }

/-- The answer to the merge question (`QMessageBox::StandardButton`). -/
inductive StandardButton where
  | Yes
  | No
  | Cancel
  deriving DecidableEq, Repr

/-- The error box a call of loadSession shows, if any. -/
inductive Critical where
  | cantRead
  | invalidSession
  deriving DecidableEq, Repr

/-- What the file dialog and `QFile::open` deliver to loadSession. -/
inductive FileSelection where
  | noFile
  | unreadable
  | opened (lines : List String)
  deriving DecidableEq, Repr

/-- The observable result of a call of loadSession: the state afterwards, the
lines of the stream left unread, whether the merge question was asked, and the
error box shown. -/
structure LoadResult (V : Type) where
  state : State V
  stream : List String
  asked : Bool
  critical : Option Critical
  deriving DecidableEq

/-- The loop `for ( int i = 0; i < noCalcs; i++ )` of loadSession. The first
component tells whether the loop ran to its end (`false`: it left through the
error return). -/
def loadCalculations (hm : HMath V) : Nat → List String → State V → Bool × List String × State V
  | 0, stream, s => (true, stream, s)
  | n + 1, stream, s =>
    let exp := (readLine stream).1
    let res := (readLine (readLine stream).2).1
    let stream2 := (readLine (readLine stream).2).2
    match exp, res with
    | some exp, some res =>
      match hm.parse res with
      | some num =>
        loadCalculations hm n stream2 { s with display := Display.append s.display exp num }
      | none =>
        loadCalculations hm n stream2 { s with display := Display.appendError s.display exp res }
    | _, _ => (false, stream2, s)

/-- The loop `for ( int i = 0; i < noVars; i++ )` of loadSession. -/
def loadVariables (hm : HMath V) : Nat → List String → State V → Bool × List String × State V
  | 0, stream, s => (true, stream, s)
  | n + 1, stream, s =>
    let var := (readLine stream).1
    let val := (readLine (readLine stream).2).1
    let stream2 := (readLine (readLine stream).2).2
    match var, val with
    | some var, some val =>
      match hm.parse val with
      | some num =>
        loadVariables hm n stream2 { s with evaluator := Evaluator.set s.evaluator var num }
      | none => loadVariables hm n stream2 s
    | _, _ => (false, stream2, s)

/-- The part of loadSession after the merge question was answered with Yes or
No: `s1` is the state after the optional clearing. -/
def loadBody (hm : HMath V) (noCalcs : Int) (stream2 : List String) (s1 : State V) :
    LoadResult V :=
  let calcs := loadCalculations hm noCalcs.toNat stream2 s1
  if calcs.1 = false then ⟨calcs.2.2, calcs.2.1, true, some Critical.invalidSession⟩
  else
    let stream4 := (readLine calcs.2.1).2
    match toInt (readLine calcs.2.1).1 with
    | none => ⟨calcs.2.2, stream4, true, some Critical.invalidSession⟩
    | some noVars =>
      if noVars < 0 then ⟨calcs.2.2, stream4, true, some Critical.invalidSession⟩
      else
        let vars := loadVariables hm noVars.toNat stream4 calcs.2.2
        if vars.1 = false then ⟨vars.2.2, vars.2.1, true, some Critical.invalidSession⟩
        else ⟨vars.2.2, vars.2.1, true, none⟩

/-- `MainWindow::loadSession`. `file` is the outcome of the file dialog and of
opening the file, `but` the button the user presses if the merge question is
asked. -/
def loadSession (hm : HMath V) (file : FileSelection) (but : StandardButton) (s : State V) :
    LoadResult V :=
  match file with
  | FileSelection.noFile => ⟨s, [], false, none⟩
  | FileSelection.unreadable => ⟨s, [], false, some Critical.cantRead⟩
  | FileSelection.opened lines =>
    let version := (readLine lines).1
    let stream1 := (readLine lines).2
    if version ≠ some "0.10" then ⟨s, stream1, false, some Critical.invalidSession⟩
    else
      let stream2 := (readLine stream1).2
      match toInt (readLine stream1).1 with
      | none => ⟨s, stream2, false, some Critical.invalidSession⟩
      | some noCalcs =>
        if noCalcs < 0 then ⟨s, stream2, false, some Critical.invalidSession⟩
        else
          match but with
          | StandardButton.Cancel => ⟨s, stream2, true, none⟩
          | StandardButton.No =>
            loadBody hm noCalcs stream2
              (clearHistory (deleteAllVariables { s with display := Display.clear s.display }))
          | StandardButton.Yes => loadBody hm noCalcs stream2 s

/-- `MainWindow::saveSession`: the text written to the file once the file has
been opened for writing. `noVars - 2` is written as the variable count, and the
bindings named `pi` and `phi` are skipped by the loop. -/
def saveSession (hm : HMath V) (s : State V) : String :=
  let noVars : Int := (s.evaluator.length : Int)
  "0.10" ++ "\n"
    ++ toString (Display.count s.display) ++ "\n"
    ++ Display.asText hm s.display ++ "\n"
    ++ toString (noVars - 2) ++ "\n"
    ++ String.join (s.evaluator.map (fun var =>
        if var.name ≠ "pi" ∧ var.name ≠ "phi" then
          var.name ++ "\n" ++ hm.format var.value ++ "\n"
        else ""))

/-- The loop of saveSession over the variables (`for ( int i = 0; i < noVars;
i++ )`): the text it writes, a name line and a value line for every binding not
named `pi` or `phi`. -/
def variableSection (hm : HMath V) (vars : List (Variable V)) : String :=
  String.join (vars.map (fun var =>
    if var.name ≠ "pi" ∧ var.name ≠ "phi" then
      var.name ++ "\n" ++ hm.format var.value ++ "\n"
    else ""))

/-- The text saveSession writes up to and including the line feed after the text
of the display. -/
def savedCalculations (hm : HMath V) (d : List (Calculation V)) : String :=
  "0.10" ++ "\n" ++ toString (Display.count d) ++ "\n" ++ Display.asText hm d ++ "\n"

/-- The text saveSession writes from the variable count on: the count line and
the text of the loop over the variables. -/
def savedVariables (hm : HMath V) (vars : List (Variable V)) : String :=
  toString ((vars.length : Int) - 2) ++ "\n" ++ variableSection hm vars

/-- `MainWindow::Private::saveSettings`: the state of the window, the history of
the editor, the variables of the evaluator (only when `saveVariables` is set)
and the window properties of the four docks are copied into the settings
record. An entry of the stored variables is `QString( "%1=%2" )` filled with the
name and with the value formatted by `HMath::formatScientific`. (Writing the
record to the persistent store, `settings.save()`, is outside the state.) -/
def saveSettings (hm : HMath V) (s : State V) : State V :=
  let st1 : Settings :=
    { s.settings with
      mainWindowState := s.windowState
      mainWindowSize := s.windowSize
      history := s.editorHistory
      historyResults := s.editorHistoryResults }
  let st2 : Settings :=
    if st1.saveVariables then
      { st1 with
        storedVariables := s.evaluator.map (fun var =>
          qArg (qArg "%1=%2" var.name) (hm.formatScientific var.value hm.DECPRECISION)) }
    else st1
  { s with
    settings :=
      { st2 with
        historyDockFloating := s.docks.history.floating
        historyDockLeft := s.docks.history.x
        historyDockTop := s.docks.history.y
        historyDockWidth := s.docks.history.width
        historyDockHeight := s.docks.history.height
        functionsDockFloating := s.docks.functions.floating
        functionsDockLeft := s.docks.functions.x
        functionsDockTop := s.docks.functions.y
        functionsDockWidth := s.docks.functions.width
        functionsDockHeight := s.docks.functions.height
        variablesDockFloating := s.docks.variables_.floating
        variablesDockLeft := s.docks.variables_.x
        variablesDockTop := s.docks.variables_.y
        variablesDockWidth := s.docks.variables_.width
        variablesDockHeight := s.docks.variables_.height
        constantsDockFloating := s.docks.constants.floating
        constantsDockLeft := s.docks.constants.x
        constantsDockTop := s.docks.constants.y
        constantsDockWidth := s.docks.constants.width
        constantsDockHeight := s.docks.constants.height } }

end Code

/-! ## The option setters of the main window -/

/-- The signals of the main window that announce a changed option, with the
value they carry. The slots connected to them belong to other objects (editor,
display, keypad, docks, evaluator, functions) and do not write to the settings
record; an emitted signal is recorded in the order of emission. -/
inductive Signal where
  | angleModeChanged (c : Char)
  | formatChanged (c : Char)
  | precisionChanged (p : Int)
  | radixCharChanged (c : Char)
  deriving DecidableEq, Repr

/-- `MainWindow::setPrecision`. -/
def setPrecision (p : Int) (st : Settings) : Settings × List Signal :=
  if st.precision = p then (st, [])
  else ({ st with precision := p }, [Signal.precisionChanged p])

/-- `MainWindow::setFormat`. -/
def setFormat (c : Char) (st : Settings) : Settings × List Signal :=
  if st.format = c then (st, [])
  else ({ st with format := c }, [Signal.formatChanged c])

/-- `MainWindow::setRadixChar`. -/
def setRadixChar (c : Char) (st : Settings) : Settings × List Signal :=
  if st.radixChar = c then (st, [])
  else ({ st with radixChar := c }, [Signal.radixCharChanged c])

/-- `MainWindow::radian`. -/
def radian (st : Settings) : Settings × List Signal :=
  if st.angleMode = 'r' then (st, [])
  else ({ st with angleMode := 'r' }, [Signal.angleModeChanged 'r'])

/-- `MainWindow::degree`. -/
def degree (st : Settings) : Settings × List Signal :=
  if st.angleMode = 'd' then (st, [])
  else ({ st with angleMode := 'd' }, [Signal.angleModeChanged 'd'])

/-! ## The menu handlers -/

/-- `MainWindow::digits2`. -/
def digits2 (st : Settings) : Settings × List Signal :=
  setPrecision 2 st

/-- `MainWindow::digits3`. -/
def digits3 (st : Settings) : Settings × List Signal :=
  setPrecision 3 st

/-- `MainWindow::digits8`. -/
def digits8 (st : Settings) : Settings × List Signal :=
  setPrecision 8 st

/-- `MainWindow::digits15`. -/
def digits15 (st : Settings) : Settings × List Signal :=
  setPrecision 15 st

/-- `MainWindow::digits50`. -/
def digits50 (st : Settings) : Settings × List Signal :=
  setPrecision 50 st

/-- `MainWindow::digitsAuto`. -/
def digitsAuto (st : Settings) : Settings × List Signal :=
  setPrecision (-1) st

/-- The result of a format handler: the settings and the emitted signals of the
call of setFormat, and whether the action group of the digits
(`d->actionGroups.digits`) is enabled afterwards. -/
structure FormatResult where
  settings : Settings
  signals : List Signal
  digitsEnabled : Bool
  deriving DecidableEq

/-- `MainWindow::formatBinary`. -/
def formatBinary (st : Settings) : FormatResult :=
  ⟨(setFormat 'b' st).1, (setFormat 'b' st).2, false⟩

/-- `MainWindow::formatEngineering`. -/
def formatEngineering (st : Settings) : FormatResult :=
  ⟨(setFormat 'n' st).1, (setFormat 'n' st).2, true⟩

/-- `MainWindow::formatFixed`. -/
def formatFixed (st : Settings) : FormatResult :=
  ⟨(setFormat 'f' st).1, (setFormat 'f' st).2, true⟩

/-- `MainWindow::formatGeneral`. -/
def formatGeneral (st : Settings) : FormatResult :=
  ⟨(setFormat 'g' st).1, (setFormat 'g' st).2, true⟩

/-- `MainWindow::formatHexadec`. -/
def formatHexadec (st : Settings) : FormatResult :=
  ⟨(setFormat 'h' st).1, (setFormat 'h' st).2, false⟩

/-- `MainWindow::formatOctal`. -/
def formatOctal (st : Settings) : FormatResult :=
  ⟨(setFormat 'o' st).1, (setFormat 'o' st).2, false⟩

/-- `MainWindow::formatScientific`. -/
def formatScientific (st : Settings) : FormatResult :=
  ⟨(setFormat 'e' st).1, (setFormat 'e' st).2, true⟩

/-- `MainWindow::radixCharAutoActivated`: the radix character is assigned and the
signal emitted without a test of the stored value. -/
def radixCharAutoActivated (st : Settings) : Settings × List Signal :=
  ({ st with radixChar := 'C' }, [Signal.radixCharChanged 'C'])

/-- `MainWindow::radixCharDotActivated`. -/
def radixCharDotActivated (st : Settings) : Settings × List Signal :=
  ({ st with radixChar := '.' }, [Signal.radixCharChanged '.'])

/-- `MainWindow::radixCharCommaActivated`. -/
def radixCharCommaActivated (st : Settings) : Settings × List Signal :=
  ({ st with radixChar := ',' }, [Signal.radixCharChanged ','])

/-- The angle modes the menus offer. -/
def angleModeOk (c : Char) : Bool :=
  c == 'r' || c == 'd'

/-- The seven format codes the menus offer. -/
def formatOk (c : Char) : Bool :=
  c == 'g' || c == 'f' || c == 'n' || c == 'e' || c == 'b' || c == 'o' || c == 'h'

/-- The six precisions the menus offer. -/
def precisionOk (p : Int) : Bool :=
  p == -1 || p == 2 || p == 3 || p == 8 || p == 15 || p == 50

/-- The three radix characters the menus offer. -/
def radixCharOk (c : Char) : Bool :=
  c == 'C' || c == '.' || c == ','

/-- All four options hold a value the menus offer. -/
def inDomains (st : Settings) : Bool :=
  angleModeOk st.angleMode && formatOk st.format && precisionOk st.precision &&
    radixCharOk st.radixChar

/-! ## Restoring the stored state -/

section Restore

variable {V : Type}

/-- The four docks, as the receivers of a deferred `show()`. -/
inductive DockId where
  | history
  | functions
  | variables_
  | constants
  deriving DecidableEq, Repr

/-- The statements restoreDocks runs on a dock it restores: `hide()`,
`setFloating( true )`, `move( left, top )` and `resize( width, height )`. -/
def floatAt (left top width height : Int) (_dock : DockWidget) : DockWidget :=
  { floating := true, visible := false, x := left, y := top, width := width, height := height }

/-- `MainWindow::Private::restoreDocks`: the state afterwards and the docks for
which a `show()` was scheduled with `QTimer::singleShot( 0, ... )`, in the order
of scheduling. (Signals the docks emit when they are hidden are not followed.) -/
def restoreDocks (s : State V) : State V × List DockId :=
  let st := s.settings
  let r1 : Docks × List DockId :=
    if st.showHistory && st.historyDockFloating && !s.docks.history.floating then
      ({ s.docks with
          history := floatAt st.historyDockLeft st.historyDockTop st.historyDockWidth
            st.historyDockHeight s.docks.history }, [DockId.history])
    else (s.docks, [])
  let r2 : Docks × List DockId :=
    if st.showFunctions && st.functionsDockFloating && !r1.1.functions.floating then
      ({ r1.1 with
          functions := floatAt st.functionsDockLeft st.functionsDockTop st.functionsDockWidth
            st.functionsDockHeight r1.1.functions }, r1.2 ++ [DockId.functions])
    else r1
  let r3 : Docks × List DockId :=
    if st.showVariables && st.variablesDockFloating && !r2.1.variables_.floating then
      ({ r2.1 with
          variables_ := floatAt st.variablesDockLeft st.variablesDockTop st.variablesDockWidth
            st.variablesDockHeight r2.1.variables_ }, r2.2 ++ [DockId.variables_])
    else r2
  let r4 : Docks × List DockId :=
    if st.showConstants && st.constantsDockFloating && !r3.1.constants.floating then
      ({ r3.1 with
          constants := floatAt st.constantsDockLeft st.constantsDockTop st.constantsDockWidth
            st.constantsDockHeight r3.1.constants }, r3.2 ++ [DockId.constants])
    else r3
  ({ s with docks := r4.1 }, r4.2)

/-- What the reads through `resultStr` in restoreHistory find. `resultStr` is
`settings.historyResults[i].toAscii().data()` (line 1669): a pointer into the
byte array that `toAscii()` returns, a temporary that is destroyed at the end
of that declaration. `HNumber result( resultStr )` (line 1670) and
`appendError( ..., resultStr )` (line 1674) read through the pointer after the
array is gone, and C++ gives such a read no meaning (loadSession, line 1106,
passes the conversion to the constructor directly and has no such read). The
embedding takes the most favourable reading of the two statements, in which
each read yields some text; which text is not determined by the program, so it
is a parameter. For pass `i` of the loop and the stored result `text`,
`atNumber i text` is the text whose conversion `HNumber` reads, and
`atError i text` is the text `appendError` receives. -/
structure FreedMemory where
  atNumber : Nat → String → String
  atError : Nat → String → String

/-- The loop of restoreHistory over the stored expressions and results, from
pass `i` on. -/
def restoreEntries (hm : HMath V) (mem : FreedMemory) :
    Nat → List String → List String → List (Calculation V) → List (Calculation V)
  | i, expr :: exprs, res :: ress, d =>
    match hm.parse (mem.atNumber i res) with
    | some result => restoreEntries hm mem (i + 1) exprs ress (Display.append d expr result)
    | none =>
      restoreEntries hm mem (i + 1) exprs ress (Display.appendError d expr (mem.atError i res))
  | _, _, _, d => d

/-- `MainWindow::Private::restoreHistory`. -/
def restoreHistory (hm : HMath V) (mem : FreedMemory) (s : State V) : State V :=
  if s.settings.historyResults.length ≠ s.settings.history.length then clearHistory s
  else
    { s with
      display :=
        restoreEntries hm mem 0 s.settings.history s.settings.historyResults s.display }

/-- The entry pass `i` of the loop of restoreHistory appends to the display for
the stored expression `p.1` and the stored result text `p.2`. -/
def restoredEntry (hm : HMath V) (mem : FreedMemory) (i : Nat) (p : String × String) :
    Calculation V :=
  match hm.parse (mem.atNumber i p.2) with
  | some result => ⟨p.1, Outcome.value result⟩
  | none => ⟨p.1, Outcome.error (mem.atError i p.2)⟩

/-- The entry a pass of the loop of restoreHistory is written to append, which
it does append when both reads find the bytes of the converted result still in
place: a numeric entry when the `HNumber` of the stored result text is a number,
an error entry with the converted text otherwise. -/
def intendedEntry (hm : HMath V) (p : String × String) : Calculation V :=
  match hm.parse p.2 with
  | some result => ⟨p.1, Outcome.value result⟩
  | none => ⟨p.1, Outcome.error (toAscii p.2)⟩

/-- The evaluation of an expression text by the evaluator
(`evaluator->setExpression( text ); evaluator->eval()`), as far as the main
window depends on it: its effect on the variable table. `base/evaluator.cpp` is
not part of the given sources, so the evaluation is a parameter of the
development. -/
structure Evaluation (V : Type) where
  eval : String → List (Variable V) → List (Variable V)

/-- The loop of restoreVariables over the stored entries: the variable table
afterwards, or `none` when an entry has no second part (`list[1]` is read past
the end of the list). -/
def restoreEntriesOfVariables (hm : HMath V) (ev : Evaluation V) :
    List String → List (Variable V) → Option (List (Variable V))
  | [], vars => some vars
  | entry :: entries, vars =>
    match splitEq entry with
    | name :: value :: _ =>
      restoreEntriesOfVariables hm ev entries
        (Evaluator.set (ev.eval entry vars) name (hm.number value))
    | _ => none

/-- `MainWindow::Private::restoreVariables`. -/
def restoreVariables (hm : HMath V) (ev : Evaluation V) (s : State V) : Option (State V) :=
  match restoreEntriesOfVariables hm ev s.settings.storedVariables s.evaluator with
  | some vars => some { s with evaluator := vars, variablesDock := vars }
  | none => none

/-- What the window machinery of Qt leaves behind when applySettings reaches
restoreDocks: the window properties of the docks after `restoreState` and after
the slots of the check marks have shown or hidden them, and the state and size
of the main window. -/
structure WindowState where
  docks : Docks
  windowState : List Nat
  windowSize : Int × Int

/-- `MainWindow::Private::applySettings`, as far as it acts on the data of this
development: the history (`restoreHistory` or `clearHistory`), the variables
(`restoreVariables` when `saveVariables` is set) and the docks (`restoreDocks`).
The other statements resize and restore the window and set check marks of
actions; the slots the check marks trigger write back to the settings record the
values just read from it. Their effect on the window and on the docks is the
parameter `w`. The result is `none` when restoreVariables reads past the end of
a split entry. -/
def applySettings (hm : HMath V) (mem : FreedMemory) (ev : Evaluation V) (w : WindowState)
    (s : State V) : Option (State V × List DockId) :=
  let s1 : State V :=
    if s.settings.saveSession then restoreHistory hm mem s else clearHistory s
  let s2 : Option (State V) :=
    if s1.settings.saveVariables then restoreVariables hm ev s1 else some s1
  match s2 with
  | none => none
  | some s3 =>
    some (restoreDocks
      { s3 with docks := w.docks, windowState := w.windowState, windowSize := w.windowSize })

end Restore

/-! ## A numeric engine for concrete evaluation -/

/-- Decimal text of an integer. -/
def formatInt (n : Int) : String :=
  toString n

/-- An instance of the numeric engine interface on which the embedding can be
evaluated: the numbers are the integers written as optionally signed decimal
literals, every other text is not a number. The integer 0 also stands for the
not-a-number value where a table has to hold one. -/
def intMath : HMath Int where
  parse := fun text => (signedValue text.data)
  format := formatInt
  formatScientific := fun n _ => formatInt n
  DECPRECISION := 50
  nan := 0

/-! ## The decoder of the specification -/

section Spec

variable {V : Type}

/-- A session as the specification describes it: the calculations and the
variable bindings a session file stands for. -/
structure Session (V : Type) where
  calculations : List (Calculation V)
  bindings : List (Variable V)
  deriving DecidableEq, Repr

/-- The first `n` line pairs of the lines and the lines after them; `none` when
a line of one of the `n` pairs is absent. -/
def takePairs : Nat → List String → Option (List (String × String) × List String)
  | 0, ls => some ([], ls)
  | n + 1, a :: b :: ls =>
    match takePairs n ls with
    | some (ps, rest) => some ((a, b) :: ps, rest)
    | none => none
  | _ + 1, _ => none

/-- A count line of the specification: a non-negative integer, followed by the
remaining lines; `none` on an absent line, a parse failure or a negative value. -/
def readCount : List String → Option (Nat × List String)
  | [] => none
  | l :: ls =>
    match toInt (some l) with
    | some n => if n < 0 then none else some (n.toNat, ls)
    | none => none

/-- A count line that loadSession rejects: the line is absent, does not parse as
an integer, or parses to a negative integer. -/
def invalidCount (line : Option String) : Bool :=
  match toInt line with
  | none => true
  | some n => decide (n < 0)

/-- Step 3 of Decode: the outcome text is stored as a numeric outcome when it
parses, and as an error outcome carrying the raw text otherwise. -/
def decodeCalculation (hm : HMath V) (p : String × String) : Calculation V :=
  match hm.parse p.2 with
  | some num => ⟨p.1, Outcome.value num⟩
  | none => ⟨p.1, Outcome.error p.2⟩

/-- Step 5 of Decode: a binding whose value text is not a number is dropped. -/
def decodeBinding (hm : HMath V) (p : String × String) : Option (Variable V) :=
  match hm.parse p.2 with
  | some num => some ⟨p.1, num⟩
  | none => none

/-- Decode of the specification (component SessionCodec, steps 1 to 5), written
from the words of the specification and not from the code: the decoded session
together with the lines that follow the declared bindings, or `none` for a
format error. -/
def decodeLines (hm : HMath V) : List String → Option (Session V × List String)
  | [] => none
  | version :: rest =>
    if version = "0.10" then
      match readCount rest with
      | none => none
      | some (noCalcs, rest1) =>
        match takePairs noCalcs rest1 with
        | none => none
        | some (calcs, rest2) =>
          match readCount rest2 with
          | none => none
          | some (noVars, rest3) =>
            match takePairs noVars rest3 with
            | none => none
            | some (vars, rest4) =>
              some (⟨calcs.map (decodeCalculation hm), vars.filterMap (decodeBinding hm)⟩, rest4)
    else none

/-- The session a file decodes to according to the specification. -/
def decodeSession (hm : HMath V) (lines : List String) : Option (Session V) :=
  (decodeLines hm lines).map Prod.fst

/-- The variable table after the bindings have been assigned in order. -/
def assignAll (vars : List (Variable V)) (bindings : List (Variable V)) : List (Variable V) :=
  bindings.foldl (fun vs b => Evaluator.set vs b.name b.value) vars

/-- The bindings of a table whose name is neither `pi` nor `phi`. -/
def nonReserved (vars : List (Variable V)) : List (Variable V) :=
  vars.filter (fun x => !Evaluator.isReserved x.name)

/-- The value of the last binding of a list that carries the given name. -/
def lastBinding (bindings : List (Variable V)) (name : String) : Option V :=
  (bindings.reverse.find? (fun x => x.name == name)).map (fun x => x.value)

/-- The lines of a list of line pairs. -/
def pairLines (ps : List (String × String)) : List String :=
  ps.flatMap (fun p => [p.1, p.2])

/-- The lines of a session file with the version line `0.10`, a calculation-count
line, the line pairs of the calculations, a variable-count line, the line pairs
of the variables, and the lines that follow. -/
def fileLines (cnt : String) (calcs : List (String × String)) (vcnt : String)
    (vars : List (String × String)) (rest : List String) : List String :=
  "0.10" :: cnt :: (pairLines calcs ++ vcnt :: (pairLines vars ++ rest))

/-- The state in which loadSession starts to read the calculations: the live
state after a merge answer, the cleared state after a replace answer. -/
def startState (but : StandardButton) (s : State V) : State V :=
  match but with
  | StandardButton.No =>
    clearHistory (deleteAllVariables { s with display := Display.clear s.display })
  | _ => s

end Spec

/-! ## The text of a session file as lines -/

section Layout

variable {V : Type}

/-- Text that is read back as one line. -/
def cleanLine (t : String) : Bool :=
  !t.data.contains '\n' && !(t.data.getLast? == some '\r')

/-- The characters of a sequence of lines, each followed by a line feed. -/
def lineChars (ls : List String) : List Char :=
  (ls.map (fun t => t.data ++ ['\n'])).flatten

/-- The decimal digit characters. -/
def isDecimalDigit (c : Char) : Prop := ∃ k, k < 10 ∧ c = Nat.digitChar k

/-- The value of a list of digit characters, as the count parser accumulates it. -/
def digitsFold (acc : Nat) (cs : List Char) : Nat :=
  cs.foldl (fun a c => a * 10 + (c.toNat - 48)) acc

/-- The lines saveSession writes for the calculations. -/
def calculationLines (hm : HMath V) (d : List (Calculation V)) : List String :=
  d.flatMap (fun c => [c.expression, Display.outcomeText hm c.outcome])

/-- The lines saveSession writes for the variables. -/
def variableLines (hm : HMath V) (vars : List (Variable V)) : List String :=
  (nonReserved vars).flatMap (fun v => [v.name, hm.format v.value])

/-- The lines that the text of the display, followed by a line feed, makes in
the file: the lines of the calculations, and one empty line when there is no
calculation. -/
def displayLines (hm : HMath V) : List (Calculation V) → List String
  | [] => [""]
  | c :: cs => calculationLines hm (c :: cs)

end Layout

/-! ## Concrete states for evaluation -/

/-- A live state with one calculation and the variables `pi`, `phi` and `x`. -/
def liveState : State Int :=
  { display := [⟨"1+1", Outcome.value 2⟩]
    evaluator := [⟨"pi", 314⟩, ⟨"phi", 161⟩, ⟨"x", 1⟩]
    variablesDock := [⟨"pi", 314⟩, ⟨"phi", 161⟩, ⟨"x", 1⟩]
    editorHistory := ["1+1"]
    editorHistoryResults := ["2"] }

/-- The state of a session without calculations and without user variables. -/
def emptySession : State Int :=
  { evaluator := [⟨"pi", 314⟩, ⟨"phi", 161⟩]
    variablesDock := [⟨"pi", 314⟩, ⟨"phi", 161⟩] }

/-- The live state with the option to save the variables switched on. -/
def savingState : State Int :=
  { liveState with settings := { saveVariables := true } }

/-- An evaluation that leaves the variable table as it is. -/
def idleEvaluation : Evaluation Int where
  eval := fun _ vars => vars

/-- A state whose settings mark the history dock and the constants dock as shown
and floating, with stored positions and sizes; of the live docks the constants
dock floats already. -/
def dockState : State Int :=
  { settings :=
      { showHistory := true, historyDockFloating := true, historyDockLeft := 10,
        historyDockTop := 20, historyDockWidth := 300, historyDockHeight := 200,
        showConstants := true, constantsDockFloating := true, constantsDockLeft := 5,
        showFunctions := true, functionsDockFloating := false }
    docks :=
      { history := { visible := true, x := 1, y := 2, width := 3, height := 4 }
        constants := { floating := true, visible := true } } }

/-- A state with a stored history of two expressions and two results, and with
saving of the session switched on. -/
def historyState : State Int :=
  { settings :=
      { saveSession := true, history := ["1+1", "1/0"],
        historyResults := ["2", "division by zero"] } }

/-- A state whose stored history holds one expression and no result, with a
calculation in the log and a text in the history of the editor. -/
def brokenHistoryState : State Int :=
  { display := [⟨"7", Outcome.value 7⟩]
    editorHistory := ["7"]
    editorHistoryResults := ["7"]
    historyDock := ["7"]
    settings := { saveSession := true, history := ["1+1"], historyResults := [] } }

/-- A state with saving of the variables switched on and a stored variable entry
without an equals sign. -/
def malformedVariableState : State Int :=
  { settings := { saveVariables := true, storedVariables := ["x"] } }

/-- Reads through the stale pointer that find the bytes of the converted result
still in place. -/
def keptMemory : FreedMemory :=
  { atNumber := fun _ text => text, atError := fun _ text => toAscii text }

/-- Reads through the stale pointer that find the storage reused: both reads
yield the empty text. -/
def reusedMemory : FreedMemory :=
  { atNumber := fun _ _ => "", atError := fun _ _ => "" }

/-- Window properties for concrete runs of applySettings: the docks as Qt
creates them, no stored window state. -/
def plainWindow : WindowState :=
  { docks := {}, windowState := [], windowSize := (0, 0) }

/-- A state with saving of the variables switched on whose variable table holds
a binding with a place marker in its name. -/
def markerNameState : State Int :=
  { evaluator := [⟨"%1f", 5⟩]
    settings := { saveVariables := true } }

/-- A state whose variable table holds `pi`, `phi` and one binding with a line
feed in its name. -/
def splitNameState : State Int :=
  { display := [⟨"1+1", Outcome.value 2⟩]
    evaluator := [⟨"pi", 314⟩, ⟨"phi", 161⟩, ⟨"a\nb", 1⟩] }

/-- A state whose variable table holds `pi`, `phi` and one binding whose name is
`pi` followed by a carriage return. -/
def carriageNameState : State Int :=
  { display := [⟨"1+1", Outcome.value 2⟩]
    evaluator := [⟨"pi", 314⟩, ⟨"phi", 161⟩, ⟨"pi\r", 7⟩] }

/-! ## Auxiliary lemmas -/

section Lemmas

variable {V : Type}

@[simp]
theorem display_clear_eq (d : List (Calculation V)) : Display.clear d = [] := rfl

theorem readLine_cons (l : String) (ls : List String) : readLine (l :: ls) = (some l, ls) := rfl

theorem readLine_nil : readLine [] = (none, []) := rfl

theorem toInt_none : toInt none = none := rfl

theorem takePairs_append_extra (n : Nat) :
    ∀ (ls : List String) (ps : List (String × String)) (rest extra : List String),
      takePairs n ls = some (ps, rest) → takePairs n (ls ++ extra) = some (ps, rest ++ extra) := by
  induction n with
  | zero =>
    intro ls ps rest extra h
    simp only [takePairs, Option.some.injEq, Prod.mk.injEq] at h
    obtain ⟨h1, h2⟩ := h
    subst h1 h2
    rfl
  | succ n ih =>
    intro ls ps rest extra h
    match ls, h with
    | a :: b :: ls, h =>
      simp only [takePairs] at h
      cases hq : takePairs n ls with
      | none => simp [hq] at h
      | some q =>
        obtain ⟨qs, qrest⟩ := q
        simp only [hq, Option.some.injEq, Prod.mk.injEq] at h
        obtain ⟨h1, h2⟩ := h
        subst h1 h2
        simp [takePairs, ih ls qs qrest extra hq]

theorem takePairs_short (n : Nat) :
    ∀ ls : List String, ls.length < 2 * n → takePairs n ls = none := by
  induction n with
  | zero => intro ls h; omega
  | succ n ih =>
    intro ls h
    match ls, h with
    | [], _ => rfl
    | [_], _ => rfl
    | a :: b :: ls, h =>
      have h2 : ls.length < 2 * n := by simp only [List.length_cons] at h; omega
      simp [takePairs, ih ls h2]

theorem takePairs_exact (n : Nat) :
    ∀ (ls tail : List String), ls.length = 2 * n →
      ∃ ps, takePairs n (ls ++ tail) = some (ps, tail) ∧ ps.length = n := by
  induction n with
  | zero =>
    intro ls tail h
    have : ls = [] := List.length_eq_zero.mp (by omega)
    subst this
    exact ⟨[], rfl, rfl⟩
  | succ n ih =>
    intro ls tail h
    match ls, h with
    | [], h => simp at h
    | [_], h => simp at h; omega
    | a :: b :: ls, h =>
      have h2 : ls.length = 2 * n := by simp only [List.length_cons] at h; omega
      obtain ⟨ps, hps, hlen⟩ := ih ls tail h2
      exact ⟨(a, b) :: ps, by simp [takePairs, hps], by simp [hlen]⟩

theorem loadCalculations_of_takePairs (hm : HMath V) (n : Nat) :
    ∀ (ls : List String) (s : State V) (ps : List (String × String)) (rest : List String),
      takePairs n ls = some (ps, rest) →
      loadCalculations hm n ls s
        = (true, rest, { s with display := s.display ++ ps.map (decodeCalculation hm) }) := by
  induction n with
  | zero =>
    intro ls s ps rest h
    simp only [takePairs, Option.some.injEq, Prod.mk.injEq] at h
    obtain ⟨h1, h2⟩ := h
    subst h1 h2
    simp [loadCalculations]
  | succ n ih =>
    intro ls s ps rest h
    match ls, h with
    | a :: b :: ls, h =>
      simp only [takePairs] at h
      cases hq : takePairs n ls with
      | none => simp [hq] at h
      | some q =>
        obtain ⟨qs, qrest⟩ := q
        simp only [hq, Option.some.injEq, Prod.mk.injEq] at h
        obtain ⟨h1, h2⟩ := h
        subst h1 h2
        cases hp : hm.parse b with
        | some num =>
          simp [loadCalculations, readLine, hp, ih ls _ qs qrest hq, decodeCalculation,
            Display.append]
        | none =>
          simp [loadCalculations, readLine, hp, ih ls _ qs qrest hq, decodeCalculation,
            Display.appendError]

theorem loadCalculations_of_takePairs_none (hm : HMath V) (n : Nat) :
    ∀ (ls : List String) (s : State V),
      takePairs n ls = none → (loadCalculations hm n ls s).1 = false := by
  induction n with
  | zero => intro ls s h; simp [takePairs] at h
  | succ n ih =>
    intro ls s h
    match ls, h with
    | [], _ => simp [loadCalculations, readLine]
    | [_], _ => simp [loadCalculations, readLine]
    | a :: b :: ls, h =>
      simp only [takePairs] at h
      cases hq : takePairs n ls with
      | some q => simp [hq] at h
      | none =>
        cases hp : hm.parse b with
        | some num => simp [loadCalculations, readLine, hp, ih ls _ hq]
        | none => simp [loadCalculations, readLine, hp, ih ls _ hq]

theorem loadVariables_of_takePairs (hm : HMath V) (n : Nat) :
    ∀ (ls : List String) (s : State V) (ps : List (String × String)) (rest : List String),
      takePairs n ls = some (ps, rest) →
      loadVariables hm n ls s
        = (true, rest,
            { s with evaluator := assignAll s.evaluator (ps.filterMap (decodeBinding hm)) }) := by
  induction n with
  | zero =>
    intro ls s ps rest h
    simp only [takePairs, Option.some.injEq, Prod.mk.injEq] at h
    obtain ⟨h1, h2⟩ := h
    subst h1 h2
    simp [loadVariables, assignAll]
  | succ n ih =>
    intro ls s ps rest h
    match ls, h with
    | a :: b :: ls, h =>
      simp only [takePairs] at h
      cases hq : takePairs n ls with
      | none => simp [hq] at h
      | some q =>
        obtain ⟨qs, qrest⟩ := q
        simp only [hq, Option.some.injEq, Prod.mk.injEq] at h
        obtain ⟨h1, h2⟩ := h
        subst h1 h2
        cases hp : hm.parse b with
        | some num =>
          simp [loadVariables, readLine, hp, ih ls _ qs qrest hq, decodeBinding, assignAll]
        | none =>
          simp [loadVariables, readLine, hp, ih ls _ qs qrest hq, decodeBinding, assignAll]

theorem loadVariables_of_takePairs_none (hm : HMath V) (n : Nat) :
    ∀ (ls : List String) (s : State V),
      takePairs n ls = none → (loadVariables hm n ls s).1 = false := by
  induction n with
  | zero => intro ls s h; simp [takePairs] at h
  | succ n ih =>
    intro ls s h
    match ls, h with
    | [], _ => simp [loadVariables, readLine]
    | [_], _ => simp [loadVariables, readLine]
    | a :: b :: ls, h =>
      simp only [takePairs] at h
      cases hq : takePairs n ls with
      | some q => simp [hq] at h
      | none =>
        cases hp : hm.parse b with
        | some num => simp [loadVariables, readLine, hp, ih ls _ hq]
        | none => simp [loadVariables, readLine, hp, ih ls _ hq]

/-- The count line read by the code and the count of the decoder agree. -/
theorem readCount_eq (ls : List String) :
    readCount ls =
      match toInt (readLine ls).1 with
      | some n => if n < 0 then none else some (n.toNat, (readLine ls).2)
      | none => none := by
  cases ls with
  | nil => simp [readCount, readLine, toInt]
  | cons l ls => simp [readCount, readLine]

/-- The decoder of the specification, unfolded on a file with a valid version
line. -/
theorem decodeLines_version (hm : HMath V) (rest : List String) :
    decodeLines hm ("0.10" :: rest) =
      match readCount rest with
      | none => none
      | some (noCalcs, rest1) =>
        match takePairs noCalcs rest1 with
        | none => none
        | some (calcs, rest2) =>
          match readCount rest2 with
          | none => none
          | some (noVars, rest3) =>
            match takePairs noVars rest3 with
            | none => none
            | some (vars, rest4) =>
              some (⟨calcs.map (decodeCalculation hm), vars.filterMap (decodeBinding hm)⟩,
                rest4) := by
  simp [decodeLines]

/-- The body of loadSession in terms of the line pairs it consumes. -/
theorem loadBody_eq (hm : HMath V) (noCalcs : Nat) (stream2 : List String) (s1 : State V) :
    (loadBody hm (noCalcs : Int) stream2 s1).asked = true ∧
    match takePairs noCalcs stream2 with
    | none => (loadBody hm (noCalcs : Int) stream2 s1).critical = some Critical.invalidSession
    | some (calcs, rest2) =>
      match readCount rest2 with
      | none => (loadBody hm (noCalcs : Int) stream2 s1).critical = some Critical.invalidSession
      | some (noVars, rest3) =>
        match takePairs noVars rest3 with
        | none =>
          (loadBody hm (noCalcs : Int) stream2 s1).critical = some Critical.invalidSession
        | some (vars, rest4) =>
          loadBody hm (noCalcs : Int) stream2 s1 =
            ⟨{ s1 with
                display := s1.display ++ calcs.map (decodeCalculation hm)
                evaluator := assignAll s1.evaluator (vars.filterMap (decodeBinding hm)) },
              rest4, true, none⟩ := by
  cases hc : takePairs noCalcs stream2 with
  | none =>
    have h1 := loadCalculations_of_takePairs_none hm noCalcs stream2 s1 hc
    simp [loadBody, h1]
  | some q =>
    obtain ⟨calcs, rest2⟩ := q
    have h1 := loadCalculations_of_takePairs hm noCalcs stream2 s1 calcs rest2 hc
    dsimp only
    rw [readCount_eq]
    cases hn : toInt (readLine rest2).1 with
    | none => simp [loadBody, h1, hn]
    | some noVars =>
      by_cases hneg : noVars < 0
      · simp [loadBody, h1, hn, hneg]
      · cases hv : takePairs noVars.toNat (readLine rest2).2 with
        | none =>
          have h2 := loadVariables_of_takePairs_none hm noVars.toNat (readLine rest2).2
            { s1 with display := s1.display ++ calcs.map (decodeCalculation hm) } hv
          simp [loadBody, h1, hn, hneg, hv, h2]
        | some q2 =>
          obtain ⟨vars, rest4⟩ := q2
          have h2 := loadVariables_of_takePairs hm noVars.toNat (readLine rest2).2
            { s1 with display := s1.display ++ calcs.map (decodeCalculation hm) } vars rest4 hv
          simp [loadBody, h1, hn, hneg, hv, h2]

/-- The state a replace starts from: display, variables and history cleared. -/
theorem cleared_eq (s : State V) :
    clearHistory (deleteAllVariables { s with display := [] }) =
      { s with
        display := []
        editorHistory := []
        editorHistoryResults := []
        historyDock := []
        evaluator := Evaluator.clearVariables s.evaluator
        variablesDock := Evaluator.clearVariables s.evaluator
        settings := { s.settings with history := [], historyResults := [] } } := by
  simp [clearHistory, deleteAllVariables]

/-- The result of loadSession on a file with a valid version line and a valid
calculation count. -/
theorem loadSession_header (hm : HMath V) (rest : List String) (n : Nat)
    (but : StandardButton) (s : State V) (hn : toInt (readLine rest).1 = some (n : Int)) :
    loadSession hm (FileSelection.opened ("0.10" :: rest)) but s =
      match but with
      | StandardButton.Cancel => ⟨s, (readLine rest).2, true, none⟩
      | StandardButton.No =>
        loadBody hm (n : Int) (readLine rest).2
          (clearHistory (deleteAllVariables { s with display := [] }))
      | StandardButton.Yes => loadBody hm (n : Int) (readLine rest).2 s := by
  cases but <;> simp [loadSession, readLine_cons, hn]

/-- A file the decoder of the specification accepts is loaded without an error,
and the resulting state is the decoded session merged into, or put in place of,
the live state. -/
theorem loadSession_of_decode (hm : HMath V) (lines : List String) (s : State V)
    (sess : Session V) (rest : List String) (h : decodeLines hm lines = some (sess, rest)) :
    loadSession hm (FileSelection.opened lines) StandardButton.Yes s =
        ⟨{ s with
            display := s.display ++ sess.calculations
            evaluator := assignAll s.evaluator sess.bindings }, rest, true, none⟩ ∧
    loadSession hm (FileSelection.opened lines) StandardButton.No s =
        ⟨{ clearHistory (deleteAllVariables { s with display := [] }) with
            display := sess.calculations
            evaluator := assignAll (Evaluator.clearVariables s.evaluator) sess.bindings },
          rest, true, none⟩ := by
  cases lines with
  | nil => simp [decodeLines] at h
  | cons version tl =>
    by_cases hv : version = "0.10"
    · subst hv
      rw [decodeLines_version, readCount_eq] at h
      cases hn : toInt (readLine tl).1 with
      | none => simp [hn] at h
      | some noCalcs =>
        by_cases hneg : noCalcs < 0
        · simp [hn, hneg] at h
        · have hcast : ((noCalcs.toNat : Nat) : Int) = noCalcs := Int.toNat_of_nonneg (by omega)
          have hn2 : toInt (readLine tl).1 = some ((noCalcs.toNat : Nat) : Int) := by
            rw [hcast]; exact hn
          simp only [hn, hneg, if_false] at h
          have hY := loadBody_eq hm noCalcs.toNat (readLine tl).2 s
          have hN := loadBody_eq hm noCalcs.toNat (readLine tl).2
            (clearHistory (deleteAllVariables { s with display := [] }))
          rw [loadSession_header hm tl noCalcs.toNat StandardButton.Yes s hn2,
            loadSession_header hm tl noCalcs.toNat StandardButton.No s hn2]
          cases hc : takePairs noCalcs.toNat (readLine tl).2 with
          | none => simp [hc] at h
          | some q =>
            obtain ⟨calcs, rest2⟩ := q
            simp only [hc] at h hY hN
            cases hr : readCount rest2 with
            | none => simp [hr] at h
            | some q2 =>
              obtain ⟨noVars, rest3⟩ := q2
              simp only [hr] at h hY hN
              cases hp : takePairs noVars rest3 with
              | none => simp [hp] at h
              | some q3 =>
                obtain ⟨vars, rest4⟩ := q3
                simp only [hp, Option.some.injEq, Prod.mk.injEq] at h hY hN
                obtain ⟨h1, h2⟩ := h
                subst h1 h2
                refine ⟨hY.2, ?_⟩
                rw [hN.2]
                simp [clearHistory, deleteAllVariables]
    · simp [decodeLines, hv] at h

/-- A file the decoder of the specification rejects is rejected by loadSession
with the invalid-session error, unless the user cancels at the merge question. -/
theorem loadSession_of_decode_none (hm : HMath V) (lines : List String) (s : State V)
    (but : StandardButton) (hb : but ≠ StandardButton.Cancel)
    (h : decodeLines hm lines = none) :
    (loadSession hm (FileSelection.opened lines) but s).critical
      = some Critical.invalidSession := by
  cases lines with
  | nil => simp [loadSession, readLine]
  | cons version tl =>
    by_cases hv : version = "0.10"
    · subst hv
      rw [decodeLines_version, readCount_eq] at h
      cases hn : toInt (readLine tl).1 with
      | none => simp [loadSession, readLine_cons, hn]
      | some noCalcs =>
        by_cases hneg : noCalcs < 0
        · simp [loadSession, readLine_cons, hn, hneg]
        · have hcast : ((noCalcs.toNat : Nat) : Int) = noCalcs := Int.toNat_of_nonneg (by omega)
          have hn2 : toInt (readLine tl).1 = some ((noCalcs.toNat : Nat) : Int) := by
            rw [hcast]; exact hn
          simp only [hn, hneg, if_false] at h
          have hY := loadBody_eq hm noCalcs.toNat (readLine tl).2 s
          have hN := loadBody_eq hm noCalcs.toNat (readLine tl).2
            (clearHistory (deleteAllVariables { s with display := [] }))
          rw [loadSession_header hm tl noCalcs.toNat but s hn2]
          cases hc : takePairs noCalcs.toNat (readLine tl).2 with
          | none =>
            simp only [hc] at hY hN
            cases but with
            | Cancel => exact absurd rfl hb
            | Yes => exact hY.2
            | No => exact hN.2
          | some q =>
            obtain ⟨calcs, rest2⟩ := q
            simp only [hc] at h hY hN
            cases hr : readCount rest2 with
            | none =>
              simp only [hr] at hY hN
              cases but with
              | Cancel => exact absurd rfl hb
              | Yes => exact hY.2
              | No => exact hN.2
            | some q2 =>
              obtain ⟨noVars, rest3⟩ := q2
              simp only [hr] at h hY hN
              cases hp : takePairs noVars rest3 with
              | none =>
                simp only [hp] at hY hN
                cases but with
                | Cancel => exact absurd rfl hb
                | Yes => exact hY.2
                | No => exact hN.2
              | some q3 =>
                obtain ⟨vars, rest4⟩ := q3
                simp [hp] at h
    · simp [loadSession, readLine, hv]

/-- When loadSession reports no error after the merge question was answered with
Yes or No, the decoder of the specification accepts the file. -/
theorem decode_of_loadSession (hm : HMath V) (lines : List String) (s : State V)
    (but : StandardButton) (hb : but ≠ StandardButton.Cancel)
    (h : (loadSession hm (FileSelection.opened lines) but s).critical = none) :
    ∃ sess rest, decodeLines hm lines = some (sess, rest) := by
  cases hd : decodeLines hm lines with
  | none =>
    rw [loadSession_of_decode_none hm lines s but hb hd] at h
    cases h
  | some q => exact ⟨q.1, q.2, rfl⟩

/-! ### The variable table -/

theorem get_nil (m : String) : Evaluator.get ([] : List (Variable V)) m = none := rfl

theorem get_cons (x : Variable V) (xs : List (Variable V)) (m : String) :
    Evaluator.get (x :: xs) m = if x.name = m then some x.value else Evaluator.get xs m := by
  by_cases h : x.name = m
  · have hb : (x.name == m) = true := by simpa using h
    simp [Evaluator.get, List.find?_cons, h, hb]
  · have hb : (x.name == m) = false := by simpa using h
    simp [Evaluator.get, List.find?_cons, h, hb]

theorem get_set (vars : List (Variable V)) (name : String) (value : V) (m : String) :
    Evaluator.get (Evaluator.set vars name value) m =
      if name = m then some value else Evaluator.get vars m := by
  induction vars with
  | nil =>
    by_cases h : name = m <;> simp [Evaluator.set, get_cons, get_nil, h]
  | cons x xs ih =>
    by_cases hx : x.name = name
    · by_cases h : name = m
      · simp [Evaluator.set, get_cons, hx, h]
      · have h2 : ¬ x.name = m := by rw [hx]; exact h
        simp [Evaluator.set, get_cons, hx, h, h2]
    · by_cases hm : x.name = m
      · have h : ¬ name = m := by rw [← hm]; exact fun e => hx e.symm
        have h2 : ¬ m = name := fun e => h e.symm
        simp [Evaluator.set, get_cons, hm, h, h2]
      · simp [Evaluator.set, get_cons, hx, hm, ih]

theorem assignAll_cons (vars : List (Variable V)) (b : Variable V) (bs : List (Variable V)) :
    assignAll vars (b :: bs) = assignAll (Evaluator.set vars b.name b.value) bs := rfl

theorem lastBinding_cons (b : Variable V) (bs : List (Variable V)) (m : String) :
    lastBinding (b :: bs) m =
      (lastBinding bs m).or (if b.name = m then some b.value else none) := by
  by_cases h : b.name = m
  · have hb : (b.name == m) = true := by simpa using h
    cases hq : List.find? (fun x => x.name == m) bs.reverse <;>
      simp [lastBinding, List.find?_append, List.find?_cons, h, hb, hq]
  · have hb : (b.name == m) = false := by simpa using h
    cases hq : List.find? (fun x => x.name == m) bs.reverse <;>
      simp [lastBinding, List.find?_append, List.find?_cons, h, hb, hq]

/-- After the assignments the value of a name is the one of its last assignment,
and the previous value when the name is not assigned. -/
theorem get_assignAll (bs : List (Variable V)) :
    ∀ (vars : List (Variable V)) (m : String),
      Evaluator.get (assignAll vars bs) m = (lastBinding bs m).or (Evaluator.get vars m) := by
  induction bs with
  | nil => intro vars m; simp [assignAll, lastBinding]
  | cons b bs ih =>
    intro vars m
    rw [assignAll_cons, ih, get_set, lastBinding_cons]
    by_cases h : b.name = m
    · cases lastBinding bs m <;> simp [h]
    · cases lastBinding bs m <;> simp [h]

theorem nonReserved_set (vars : List (Variable V)) (name : String) (value : V) :
    nonReserved (Evaluator.set vars name value) =
      if Evaluator.isReserved name then nonReserved vars
      else Evaluator.set (nonReserved vars) name value := by
  induction vars with
  | nil =>
    by_cases h : Evaluator.isReserved name = true <;>
      simp [Evaluator.set, nonReserved, h]
  | cons x xs ih =>
    simp only [nonReserved] at ih
    by_cases hx : x.name = name
    · by_cases h : Evaluator.isReserved name = true
      · simp [Evaluator.set, nonReserved, hx, h]
      · simp [Evaluator.set, nonReserved, hx, h]
    · by_cases h : Evaluator.isReserved name = true
      · by_cases hr : Evaluator.isReserved x.name = true <;>
          simp [Evaluator.set, nonReserved, hx, h, hr, ih]
      · by_cases hr : Evaluator.isReserved x.name = true <;>
          simp [Evaluator.set, nonReserved, hx, h, hr, ih]

theorem nonReserved_assignAll (bs : List (Variable V)) :
    ∀ vars : List (Variable V),
      nonReserved (assignAll vars bs) = assignAll (nonReserved vars) (nonReserved bs) := by
  induction bs with
  | nil => intro vars; simp [assignAll, nonReserved]
  | cons b bs ih =>
    intro vars
    rw [assignAll_cons, ih, nonReserved_set]
    by_cases h : Evaluator.isReserved b.name = true
    · simp [h, nonReserved]
    · have h2 : nonReserved (b :: bs) = b :: nonReserved bs := by simp [nonReserved, h]
      simp [h, h2, assignAll_cons]

theorem nonReserved_clearVariables (vars : List (Variable V)) :
    nonReserved (Evaluator.clearVariables vars) = [] := by
  simp [nonReserved, Evaluator.clearVariables, List.filter_filter]

theorem get_clearVariables (vars : List (Variable V)) (m : String)
    (hm : Evaluator.isReserved m = true) :
    Evaluator.get (Evaluator.clearVariables vars) m = Evaluator.get vars m := by
  induction vars with
  | nil => rfl
  | cons x xs ih =>
    simp only [Evaluator.clearVariables] at ih
    by_cases hr : Evaluator.isReserved x.name = true
    · simp [Evaluator.clearVariables, List.filter_cons, hr, get_cons, ih]
    · have hx : ¬ x.name = m := fun e => hr (by rw [e]; exact hm)
      simp [Evaluator.clearVariables, List.filter_cons, hr, get_cons, hx, ih]

theorem set_absent (vars : List (Variable V)) (name : String) (value : V)
    (h : ∀ x ∈ vars, x.name ≠ name) :
    Evaluator.set vars name value = vars ++ [⟨name, value⟩] := by
  induction vars with
  | nil => rfl
  | cons x xs ih =>
    have hx : ¬ x.name = name := h x (List.mem_cons_self x xs)
    have ih2 := ih (fun y hy => h y (List.mem_cons_of_mem x hy))
    simp [Evaluator.set, hx, ih2]

/-- Bindings with pairwise distinct names that are not in the table yet are
appended to the table as they are. -/
theorem assignAll_distinct (bs : List (Variable V)) :
    ∀ vars : List (Variable V),
      (bs.map (fun b => b.name)).Nodup →
      (∀ x ∈ vars, ∀ b ∈ bs, x.name ≠ b.name) →
      assignAll vars bs = vars ++ bs := by
  induction bs with
  | nil => intro vars _ _; simp [assignAll]
  | cons b bs ih =>
    intro vars hnd hdis
    rw [assignAll_cons, set_absent vars b.name b.value
      (fun x hx => hdis x hx b (List.mem_cons_self b bs))]
    simp only [List.map_cons, List.nodup_cons, List.mem_map, not_exists, not_and] at hnd
    rw [ih (vars ++ [(⟨b.name, b.value⟩ : Variable V)]) hnd.2]
    · simp
    · intro x hx c hc
      rcases List.mem_append.mp hx with hx | hx
      · exact hdis x hx c (List.mem_cons_of_mem b hc)
      · simp only [List.mem_singleton] at hx
        subst hx
        exact fun e => hnd.1 c hc e.symm

/-! ### Header of the file and the merge question -/

theorem loadSession_cancel_state (hm : HMath V) (file : FileSelection) (s : State V) :
    (loadSession hm file StandardButton.Cancel s).state = s := by
  cases file with
  | noFile => rfl
  | unreadable => rfl
  | opened lines =>
    simp only [loadSession]
    split
    · rfl
    · split
      · rfl
      · split <;> rfl

/-- The result of loadSession on a file with a valid version line when the user
cancels at the merge question. -/
theorem loadSession_cancel_header (hm : HMath V) (cnt : String) (rest : List String)
    (s : State V) :
    loadSession hm (FileSelection.opened ("0.10" :: cnt :: rest)) StandardButton.Cancel s =
      if invalidCount (some cnt) = true then ⟨s, rest, false, some Critical.invalidSession⟩
      else ⟨s, rest, true, none⟩ := by
  cases hn : toInt (some cnt) with
  | none => simp [loadSession, readLine_cons, invalidCount, hn]
  | some n =>
    by_cases hneg : n < 0
    · simp [loadSession, readLine_cons, invalidCount, hn, hneg]
    · simp [loadSession, readLine_cons, invalidCount, hn, hneg]

/-- A file on which loadSession reports no error has a valid version line and a
count line. -/
theorem loadSession_cancel_accepts (hm : HMath V) (lines : List String) (s : State V)
    (h : (loadSession hm (FileSelection.opened lines) StandardButton.Cancel s).critical
      = none) :
    ∃ (cnt : String) (rest : List String), lines = "0.10" :: cnt :: rest ∧
      invalidCount (some cnt) = false := by
  cases lines with
  | nil => simp [loadSession, readLine] at h
  | cons version tl =>
    by_cases hv : version = "0.10"
    · subst hv
      cases tl with
      | nil => simp [loadSession, readLine, toInt] at h
      | cons cnt rest =>
        rw [loadSession_cancel_header] at h
        cases hn : invalidCount (some cnt) with
        | true => simp [hn] at h
        | false => exact ⟨cnt, rest, rfl, hn⟩
    · simp [loadSession, readLine_cons, hv] at h

theorem loadSession_bad_version (hm : HMath V) (lines : List String) (but : StandardButton)
    (s : State V) (h : (readLine lines).1 ≠ some "0.10") :
    loadSession hm (FileSelection.opened lines) but s =
      ⟨s, lines.tail, false, some Critical.invalidSession⟩ := by
  cases lines with
  | nil => simp [loadSession, readLine]
  | cons l ls =>
    simp only [readLine_cons] at h
    simp [loadSession, readLine_cons, h]

theorem loadSession_bad_count (hm : HMath V) (rest : List String) (but : StandardButton)
    (s : State V) (h : invalidCount (readLine rest).1 = true) :
    loadSession hm (FileSelection.opened ("0.10" :: rest)) but s =
      ⟨s, rest.tail, false, some Critical.invalidSession⟩ := by
  have ht : (readLine rest).2 = rest.tail := by cases rest <;> rfl
  cases hn : toInt (readLine rest).1 with
  | none => simp [loadSession, readLine_cons, hn, ht]
  | some n =>
    have hneg : n < 0 := by simpa [invalidCount, hn] using h
    simp [loadSession, readLine_cons, hn, hneg, ht]

theorem readCount_append_extra (ls : List String) (n : Nat) (rest extra : List String)
    (h : readCount ls = some (n, rest)) : readCount (ls ++ extra) = some (n, rest ++ extra) := by
  cases ls with
  | nil => simp [readCount] at h
  | cons l ls =>
    simp only [readCount, List.cons_append] at h ⊢
    cases hn : toInt (some l) with
    | none => simp [hn] at h
    | some k =>
      by_cases hneg : k < 0
      · simp [hn, hneg] at h
      · simp only [hn, hneg, if_false, Option.some.injEq, Prod.mk.injEq] at h ⊢
        exact ⟨h.1, by rw [h.2]⟩

theorem decodeLines_append_extra (hm : HMath V) (lines : List String) (sess : Session V)
    (rest extra : List String) (h : decodeLines hm lines = some (sess, rest)) :
    decodeLines hm (lines ++ extra) = some (sess, rest ++ extra) := by
  cases lines with
  | nil => simp [decodeLines] at h
  | cons version tl =>
    by_cases hv : version = "0.10"
    · subst hv
      rw [List.cons_append, decodeLines_version]
      rw [decodeLines_version] at h
      cases h1 : readCount tl with
      | none => simp [h1] at h
      | some q1 =>
        obtain ⟨noCalcs, rest1⟩ := q1
        simp only [h1] at h
        cases h2 : takePairs noCalcs rest1 with
        | none => simp [h2] at h
        | some q2 =>
          obtain ⟨calcs, rest2⟩ := q2
          simp only [h2] at h
          cases h3 : readCount rest2 with
          | none => simp [h3] at h
          | some q3 =>
            obtain ⟨noVars, rest3⟩ := q3
            simp only [h3] at h
            cases h4 : takePairs noVars rest3 with
            | none => simp [h4] at h
            | some q4 =>
              obtain ⟨vars, rest4⟩ := q4
              simp only [h4, Option.some.injEq, Prod.mk.injEq] at h
              obtain ⟨e1, e2⟩ := h
              subst e1 e2
              simp [readCount_append_extra tl noCalcs rest1 extra h1,
                takePairs_append_extra noCalcs rest1 calcs rest2 extra h2,
                readCount_append_extra rest2 noVars rest3 extra h3,
                takePairs_append_extra noVars rest3 vars rest4 extra h4]
    · simp [decodeLines, hv] at h

theorem lastBinding_absent (bs : List (Variable V)) (m : String)
    (h : ∀ b ∈ bs, b.name ≠ m) : lastBinding bs m = none := by
  induction bs with
  | nil => rfl
  | cons b bs ih =>
    have hb : ¬ b.name = m := h b (List.mem_cons_self b bs)
    rw [lastBinding_cons, ih (fun c hc => h c (List.mem_cons_of_mem b hc))]
    simp [hb]

theorem nonReserved_self (bs : List (Variable V))
    (h : ∀ b ∈ bs, Evaluator.isReserved b.name = false) : nonReserved bs = bs := by
  simp only [nonReserved, List.filter_eq_self]
  intro b hb
  simp [h b hb]

/-! ### The text written by saveSession and its lines -/

theorem linesFrom_cons (cur : List Char) (c : Char) (cs : List Char) :
    linesFrom cur (c :: cs) =
      if c = '\n' then
        String.mk (if cur.getLast? = some '\r' then cur.dropLast else cur) :: linesFrom [] cs
      else linesFrom (cur ++ [c]) cs := by
  cases cur <;> simp [linesFrom]

theorem linesFrom_line (cs : List Char) :
    ∀ (cur rest : List Char), '\n' ∉ cs →
      linesFrom cur (cs ++ '\n' :: rest) =
        String.mk (if (cur ++ cs).getLast? = some '\r' then (cur ++ cs).dropLast else cur ++ cs)
          :: linesFrom [] rest := by
  induction cs with
  | nil => intro cur rest _; simp [linesFrom_cons]
  | cons c cs ih =>
    intro cur rest h
    have hc : ¬ c = '\n' := fun e => h (by simp [e])
    have hcs : '\n' ∉ cs := fun e => h (List.mem_cons_of_mem c e)
    rw [List.cons_append, linesFrom_cons, if_neg hc, ih (cur ++ [c]) rest hcs]
    simp

theorem linesFrom_clean (t : String) (rest : List Char) (h : cleanLine t = true) :
    linesFrom [] (t.data ++ '\n' :: rest) = t :: linesFrom [] rest := by
  simp only [cleanLine, Bool.and_eq_true, Bool.not_eq_true', List.contains_eq_any_beq] at h
  have h1 : '\n' ∉ t.data := by
    intro hm
    have := h.1
    simp [List.any_eq_false] at this
    exact this _ hm rfl
  have h2 : ¬ t.data.getLast? = some '\r' := by
    have := h.2
    simpa using this
  rw [linesFrom_line t.data [] rest h1]
  simp [h2]

theorem linesFrom_lineChars (ls : List String) (rest : List Char)
    (h : ∀ t ∈ ls, cleanLine t = true) :
    linesFrom [] (lineChars ls ++ rest) = ls ++ linesFrom [] rest := by
  induction ls with
  | nil => simp [lineChars]
  | cons t ls ih =>
    have ht := h t (List.mem_cons_self t ls)
    have ih2 := ih (fun u hu => h u (List.mem_cons_of_mem t hu))
    simp only [lineChars, List.map_cons, List.flatten_cons, List.append_assoc,
      List.singleton_append, List.cons_append] at ih2 ⊢
    rw [linesFrom_clean t _ ht, List.nil_append, ih2]

theorem intercalate_go_data (sep : String) (l : List String) :
    ∀ acc : String, (String.intercalate.go acc sep l).data
      = acc.data ++ (l.map (fun a => sep.data ++ a.data)).flatten := by
  induction l with
  | nil => intro acc; simp [String.intercalate.go]
  | cons a l ih => intro acc; simp [String.intercalate.go, ih, String.data_append]

theorem intercalate_lineChars (l : List String) (h : l ≠ []) :
    ("\n".intercalate l).data ++ ['\n'] = lineChars l := by
  cases l with
  | nil => exact absurd rfl h
  | cons a l =>
    simp only [String.intercalate, intercalate_go_data, lineChars, List.map_cons,
      List.flatten_cons, List.append_assoc]
    congr 1
    clear h
    induction l with
    | nil => rfl
    | cons b l ih =>
      simp only [List.map_cons, List.flatten_cons, List.append_assoc] at ih ⊢
      rw [ih]

theorem digitChar_facts : ∀ k, k < 10 →
    (Nat.digitChar k).isDigit = true ∧ (Nat.digitChar k).toNat - 48 = k ∧
    isSpace (Nat.digitChar k) = false ∧ Nat.digitChar k ≠ '\n' ∧ Nat.digitChar k ≠ '\r' ∧
    Nat.digitChar k ≠ '-' ∧ Nat.digitChar k ≠ '+' := by
  decide

theorem toDigitsCore_acc (fuel : Nat) :
    ∀ (n : Nat) (ds : List Char),
      Nat.toDigitsCore 10 fuel n ds = Nat.toDigitsCore 10 fuel n [] ++ ds := by
  induction fuel with
  | zero => intro n ds; simp [Nat.toDigitsCore]
  | succ fuel ih =>
    intro n ds
    simp only [Nat.toDigitsCore]
    by_cases h : n / 10 = 0
    · simp [h]
    · simp only [h, if_false]
      rw [ih (n / 10) (Nat.digitChar (n % 10) :: ds), ih (n / 10) [Nat.digitChar (n % 10)]]
      simp

theorem toDigitsCore_spec (fuel : Nat) :
    ∀ n : Nat, n < fuel →
      Nat.toDigitsCore 10 fuel n [] ≠ [] ∧
      (∀ c ∈ Nat.toDigitsCore 10 fuel n [], isDecimalDigit c) ∧
      digitsFold 0 (Nat.toDigitsCore 10 fuel n []) = n := by
  induction fuel with
  | zero => intro n h; omega
  | succ fuel ih =>
    intro n hn
    simp only [Nat.toDigitsCore]
    by_cases h : n / 10 = 0
    · have hlt : n % 10 < 10 := Nat.mod_lt n (by decide)
      have hf := digitChar_facts (n % 10) hlt
      simp only [h, if_true]
      refine ⟨by simp, ?_, ?_⟩
      · intro c hc
        simp only [List.mem_singleton] at hc
        exact ⟨n % 10, hlt, hc⟩
      · simp only [digitsFold, List.foldl_cons, List.foldl_nil, hf.2.1]
        omega
    · have hlt : n % 10 < 10 := Nat.mod_lt n (by decide)
      have hf := digitChar_facts (n % 10) hlt
      have hn2 : n / 10 < fuel := by omega
      obtain ⟨h1, h2, h3⟩ := ih (n / 10) hn2
      simp only [h, if_false]
      rw [toDigitsCore_acc]
      refine ⟨by simp, ?_, ?_⟩
      · intro c hc
        rcases List.mem_append.mp hc with hc | hc
        · exact h2 c hc
        · simp only [List.mem_singleton] at hc
          exact ⟨n % 10, hlt, hc⟩
      · simp only [digitsFold, List.foldl_append, List.foldl_cons, List.foldl_nil, hf.2.1]
        simp only [digitsFold] at h3
        rw [h3]
        omega

theorem digitsValue_digits (cs : List Char) :
    ∀ acc : Nat, cs ≠ [] → (∀ c ∈ cs, isDecimalDigit c) →
      digitsValue acc cs = some (digitsFold acc cs) := by
  induction cs with
  | nil => intro acc h; exact absurd rfl h
  | cons c cs ih =>
    intro acc _ hall
    obtain ⟨k, hk, hc⟩ := hall c (List.mem_cons_self c cs)
    have hf := digitChar_facts k hk
    have hd : c.isDigit = true := by rw [hc]; exact hf.1
    cases cs with
    | nil => simp [digitsValue, digitsFold, hd]
    | cons d ds =>
      have := ih (acc * 10 + (c.toNat - 48)) (by simp)
        (fun x hx => hall x (List.mem_cons_of_mem c hx))
      simp [digitsValue, hd, this, digitsFold]

theorem trimSpaces_digits (cs : List Char) (hall : ∀ c ∈ cs, isDecimalDigit c) :
    trimSpaces cs = cs := by
  have hns : ∀ c ∈ cs, isSpace c = false := by
    intro c hc
    obtain ⟨k, hk, e⟩ := hall c hc
    rw [e]
    exact (digitChar_facts k hk).2.2.1
  have h1 : cs.dropWhile isSpace = cs := by
    rw [List.dropWhile_eq_self_iff]
    intro hpos
    rw [Bool.not_eq_true]
    exact hns _ (List.getElem_mem _)
  have h2 : cs.reverse.dropWhile isSpace = cs.reverse := by
    rw [List.dropWhile_eq_self_iff]
    intro hpos
    rw [Bool.not_eq_true]
    exact hns _ (List.mem_reverse.mp (List.getElem_mem _))
  simp [trimSpaces, h1, h2]

theorem signedValue_digits (cs : List Char) (hne : cs ≠ [])
    (hall : ∀ c ∈ cs, isDecimalDigit c) :
    signedValue cs = some ((digitsFold 0 cs : Nat) : Int) := by
  cases cs with
  | nil => exact absurd rfl hne
  | cons c cs =>
    obtain ⟨k, hk, hc⟩ := hall c (List.mem_cons_self c cs)
    have hf := digitChar_facts k hk
    have hminus : c ≠ '-' := by rw [hc]; exact hf.2.2.2.2.2.1
    have hplus : c ≠ '+' := by rw [hc]; exact hf.2.2.2.2.2.2
    have hv := digitsValue_digits (c :: cs) 0 hne hall
    unfold signedValue
    split
    · rename_i heq; simp at heq; exact absurd heq.1 hminus
    · rename_i heq; simp at heq; exact absurd heq.1 hplus
    · simp [hv]

theorem toString_nat_data (n : Nat) : (toString ((n : Nat) : Int)).data = Nat.toDigits 10 n := rfl

theorem toInt_toString (n : Nat) (h : n ≤ 2147483647) :
    toInt (some (toString ((n : Nat) : Int))) = some (n : Int) := by
  obtain ⟨h1, h2, h3⟩ := toDigitsCore_spec (n + 1) n (Nat.lt_succ_self n)
  have hd : (toString ((n : Nat) : Int)).data = Nat.toDigitsCore 10 (n + 1) n [] := rfl
  simp only [toInt, hd, trimSpaces_digits _ h2, signedValue_digits _ h1 h2, h3]
  have : (-2147483648 : Int) ≤ (n : Int) ∧ (n : Int) ≤ 2147483647 := by omega
  simp [this]

theorem cleanLine_toString (n : Nat) : cleanLine (toString ((n : Nat) : Int)) = true := by
  obtain ⟨h1, h2, _⟩ := toDigitsCore_spec (n + 1) n (Nat.lt_succ_self n)
  have hd : (toString ((n : Nat) : Int)).data = Nat.toDigitsCore 10 (n + 1) n [] := rfl
  simp only [cleanLine, hd, Bool.and_eq_true, Bool.not_eq_true', List.contains_eq_any_beq]
  constructor
  · rw [List.any_eq_false]
    intro c hc
    obtain ⟨k, hk, e⟩ := h2 c hc
    have := (digitChar_facts k hk).2.2.2.1
    rw [e]
    intro hb
    exact this (beq_iff_eq.mp hb).symm
  · have hl := List.getLast?_eq_getLast _ h1
    rw [hl]
    obtain ⟨k, hk, e⟩ := h2 _ (List.getLast_mem h1)
    have := (digitChar_facts k hk).2.2.2.2.1
    simp [e, this]

theorem lineChars_append (a b : List String) : lineChars (a ++ b) = lineChars a ++ lineChars b := by
  simp [lineChars]

theorem lineChars_cons (t : String) (l : List String) :
    lineChars (t :: l) = t.data ++ '\n' :: lineChars l := by
  simp [lineChars]

theorem isReserved_iff (name : String) :
    Evaluator.isReserved name = true ↔ (name = "pi" ∨ name = "phi") := by
  simp [Evaluator.isReserved]

theorem variables_data (hm : HMath V) (vars : List (Variable V)) :
    (String.join (vars.map (fun var =>
        if var.name ≠ "pi" ∧ var.name ≠ "phi" then
          var.name ++ "\n" ++ hm.format var.value ++ "\n"
        else ""))).data = lineChars (variableLines hm vars) := by
  induction vars with
  | nil => rfl
  | cons v vs ih =>
    simp only [String.data_join, List.map_cons, List.flatten_cons, List.map_map] at ih ⊢
    by_cases hr : Evaluator.isReserved v.name = true
    · have h2 : ¬ (v.name ≠ "pi" ∧ v.name ≠ "phi") := by
        rcases (isReserved_iff v.name).mp hr with e | e <;> simp [e]
      have hv : variableLines hm (v :: vs) = variableLines hm vs := by
        simp [variableLines, nonReserved, hr]
      rw [hv, ← ih]
      simp [h2]
    · have h2 : v.name ≠ "pi" ∧ v.name ≠ "phi" := by
        constructor
        · intro e; exact hr ((isReserved_iff v.name).mpr (Or.inl e))
        · intro e; exact hr ((isReserved_iff v.name).mpr (Or.inr e))
      have hv : variableLines hm (v :: vs)
          = v.name :: hm.format v.value :: variableLines hm vs := by
        simp [variableLines, nonReserved, hr]
      rw [hv, lineChars_cons, lineChars_cons, ← ih]
      simp [h2, String.data_append]

theorem asText_data (hm : HMath V) (d : List (Calculation V)) :
    (Display.asText hm d).data ++ ['\n'] = lineChars (displayLines hm d) := by
  cases d with
  | nil => rfl
  | cons c cs =>
    have hne : calculationLines hm (c :: cs) ≠ [] := by simp [calculationLines]
    exact intercalate_lineChars _ hne

/-- The layout of the text saveSession writes, as a sequence of lines. -/
theorem saveSession_data (hm : HMath V) (s : State V) :
    (saveSession hm s).data =
      lineChars (["0.10", toString (Display.count s.display)]
        ++ displayLines hm s.display
        ++ [toString ((s.evaluator.length : Int) - 2)]
        ++ variableLines hm s.evaluator) := by
  have h1 := asText_data hm s.display
  have h2 := variables_data hm s.evaluator
  simp only [saveSession, String.data_append, lineChars_append, lineChars_cons, ← h1, ← h2]
  simp [lineChars]

theorem takePairs_flatMap {α : Type} (f g : α → String) (xs : List α) (rest : List String) :
    takePairs xs.length (xs.flatMap (fun x => [f x, g x]) ++ rest)
      = some (xs.map (fun x => (f x, g x)), rest) := by
  induction xs with
  | nil => rfl
  | cons x xs ih =>
    have h : (x :: xs).flatMap (fun x => [f x, g x]) ++ rest
        = f x :: g x :: (xs.flatMap (fun x => [f x, g x]) ++ rest) := by
      simp [List.flatMap_cons]
    rw [h]
    simp only [List.length_cons, takePairs, ih, List.map_cons]

theorem length_split (vars : List (Variable V)) :
    vars.length = (nonReserved vars).length + (Evaluator.clearVariables vars).length := by
  induction vars with
  | nil => rfl
  | cons v vs ih =>
    by_cases hr : Evaluator.isReserved v.name = true
    · simp only [nonReserved, Evaluator.clearVariables] at ih
      simp [nonReserved, Evaluator.clearVariables, List.filter_cons, hr, ih]
      omega
    · simp only [nonReserved, Evaluator.clearVariables] at ih
      simp [nonReserved, Evaluator.clearVariables, List.filter_cons, hr, ih]
      omega

theorem cleanLine_toString_int (n : Int) : cleanLine (toString n) = true := by
  cases n with
  | ofNat m => exact cleanLine_toString m
  | negSucc m =>
    obtain ⟨h1, h2, _⟩ := toDigitsCore_spec (m + 1 + 1) (m + 1) (Nat.lt_succ_self (m + 1))
    have hd : (toString (Int.negSucc m)).data = '-' :: Nat.toDigitsCore 10 (m + 1 + 1) (m + 1) [] :=
      rfl
    simp only [cleanLine, hd, Bool.and_eq_true, Bool.not_eq_true', List.contains_eq_any_beq]
    constructor
    · rw [List.any_eq_false]
      intro c hc
      rcases List.mem_cons.mp hc with e | hc
      · rw [e]; decide
      · obtain ⟨k, hk, e⟩ := h2 c hc
        have := (digitChar_facts k hk).2.2.2.1
        rw [e]
        intro hb
        exact this (beq_iff_eq.mp hb).symm
    · have hl : ('-' :: Nat.toDigitsCore 10 (m + 1 + 1) (m + 1) []).getLast?
          = some ((Nat.toDigitsCore 10 (m + 1 + 1) (m + 1) []).getLast h1) := by
        rw [List.getLast?_eq_getLast _ (by simp), List.getLast_cons h1]
      rw [hl]
      obtain ⟨k, hk, e⟩ := h2 _ (List.getLast_mem h1)
      have := (digitChar_facts k hk).2.2.2.2.1
      simp [e, this]

/-- The lines QTextStream reads back from the text saveSession writes. -/
theorem saveSession_textLines (hm : HMath V) (s : State V)
    (hclean : ∀ t ∈ calculationLines hm s.display ++ variableLines hm s.evaluator,
      cleanLine t = true) :
    textLines (saveSession hm s) =
      ["0.10", toString (Display.count s.display)]
        ++ displayLines hm s.display
        ++ [toString ((s.evaluator.length : Int) - 2)]
        ++ variableLines hm s.evaluator := by
  have hall : ∀ t ∈ ["0.10", toString (Display.count s.display)]
        ++ displayLines hm s.display
        ++ [toString ((s.evaluator.length : Int) - 2)]
        ++ variableLines hm s.evaluator, cleanLine t = true := by
    intro t ht
    simp only [List.mem_append, List.mem_cons, List.mem_singleton, List.not_mem_nil,
      or_false] at ht
    rcases ht with ((ht | ht) | ht) | ht
    · rcases ht with ht | ht
      · rw [ht]; decide
      · rw [ht]; exact cleanLine_toString_int _
    · cases hd : s.display with
      | nil =>
        rw [hd] at ht
        simp only [displayLines, List.mem_singleton] at ht
        rw [ht]; decide
      | cons c cs =>
        rw [hd] at ht
        simp only [displayLines] at ht
        exact hclean t (List.mem_append_left _ (by rw [hd]; exact ht))
    · rw [ht]; exact cleanLine_toString_int _
    · exact hclean t (List.mem_append_right _ ht)
  have := linesFrom_lineChars _ [] hall
  rw [List.append_nil] at this
  rw [textLines, saveSession_data, this]
  simp [linesFrom]

theorem readCount_toString (n : Nat) (h : n ≤ 2147483647) (rest : List String) :
    readCount (toString ((n : Nat) : Int) :: rest) = some (n, rest) := by
  simp [readCount, toInt_toString n h]

theorem map_decodeCalculation (hm : HMath V) (d : List (Calculation V))
    (h : ∀ c ∈ d,
      decodeCalculation hm (c.expression, Display.outcomeText hm c.outcome) = c) :
    (d.map (fun c => (c.expression, Display.outcomeText hm c.outcome))).map
      (decodeCalculation hm) = d := by
  induction d with
  | nil => rfl
  | cons c cs ih =>
    simp only [List.map_cons, h c (List.mem_cons_self c cs),
      ih (fun x hx => h x (List.mem_cons_of_mem c hx))]

theorem filterMap_decodeBinding (hm : HMath V) (bs : List (Variable V))
    (h : ∀ v ∈ bs, decodeBinding hm (v.name, hm.format v.value) = some v) :
    (bs.map (fun v => (v.name, hm.format v.value))).filterMap (decodeBinding hm) = bs := by
  induction bs with
  | nil => rfl
  | cons b bs ih =>
    simp only [List.map_cons, List.filterMap_cons, h b (List.mem_cons_self b bs),
      ih (fun x hx => h x (List.mem_cons_of_mem b hx))]

/-- The text saveSession writes for a session with at least one calculation
decodes, according to the specification, to the session it was written from. -/
theorem saveSession_decodeLines (hm : HMath V) (s : State V)
    (hne : s.display ≠ [])
    (hclean : ∀ t ∈ calculationLines hm s.display ++ variableLines hm s.evaluator,
      cleanLine t = true)
    (hcalc : ∀ c ∈ s.display,
      decodeCalculation hm (c.expression, Display.outcomeText hm c.outcome) = c)
    (hvar : ∀ v ∈ nonReserved s.evaluator,
      decodeBinding hm (v.name, hm.format v.value) = some v)
    (hres : (Evaluator.clearVariables s.evaluator).length = 2)
    (hsize : s.display.length ≤ 2147483647 ∧ s.evaluator.length ≤ 2147483647) :
    decodeLines hm (textLines (saveSession hm s))
      = some (⟨s.display, nonReserved s.evaluator⟩, []) := by
  rw [saveSession_textLines hm s hclean]
  have hd : displayLines hm s.display = calculationLines hm s.display := by
    cases h : s.display with
    | nil => exact absurd h hne
    | cons c cs => rfl
  have hlen := length_split s.evaluator
  have hcnt : (s.evaluator.length : Int) - 2 = (((nonReserved s.evaluator).length : Nat) : Int) := by
    omega
  rw [hd, hcnt]
  simp only [List.cons_append, List.nil_append, List.append_assoc, List.singleton_append]
  rw [decodeLines_version]
  have h1 : Display.count s.display = ((s.display.length : Nat) : Int) := rfl
  rw [h1, readCount_toString _ hsize.1]
  simp only [calculationLines, variableLines]
  rw [takePairs_flatMap]
  simp only
  rw [readCount_toString _ (by omega)]
  simp only
  have h2 := takePairs_flatMap (fun v : Variable V => v.name) (fun v => hm.format v.value)
    (nonReserved s.evaluator) []
  rw [List.append_nil] at h2
  rw [h2]
  simp only
  rw [map_decodeCalculation hm s.display hcalc,
    filterMap_decodeBinding hm (nonReserved s.evaluator) hvar]

/-- Round trip for sessions with at least one calculation: loadSession with the
answer replace, applied to the text saveSession writes for a session whose texts
are single lines and whose numbers are read back from their text, reports no
error, and afterwards the calculation log is the saved log and the bindings other
than `pi` and `phi` are the saved ones. -/
theorem saveSession_loadSession_roundtrip (hm : HMath V) (s live : State V)
    (hne : s.display ≠ [])
    (hclean : ∀ t ∈ calculationLines hm s.display ++ variableLines hm s.evaluator,
      cleanLine t = true)
    (hcalc : ∀ c ∈ s.display,
      decodeCalculation hm (c.expression, Display.outcomeText hm c.outcome) = c)
    (hvar : ∀ v ∈ nonReserved s.evaluator,
      decodeBinding hm (v.name, hm.format v.value) = some v)
    (hres : (Evaluator.clearVariables s.evaluator).length = 2)
    (hnames : ((nonReserved s.evaluator).map (fun v => v.name)).Nodup)
    (hsize : s.display.length ≤ 2147483647 ∧ s.evaluator.length ≤ 2147483647) :
    (loadSession hm (FileSelection.opened (textLines (saveSession hm s))) StandardButton.No
        live).critical = none ∧
    (loadSession hm (FileSelection.opened (textLines (saveSession hm s))) StandardButton.No
        live).state.display = s.display ∧
    nonReserved (loadSession hm (FileSelection.opened (textLines (saveSession hm s)))
        StandardButton.No live).state.evaluator = nonReserved s.evaluator := by
  have hd := saveSession_decodeLines hm s hne hclean hcalc hvar hres hsize
  have h1 := (loadSession_of_decode hm _ live _ _ hd).2
  rw [h1]
  refine ⟨rfl, rfl, ?_⟩
  show nonReserved (assignAll (Evaluator.clearVariables live.evaluator)
    (nonReserved s.evaluator)) = _
  have hnr : ∀ b ∈ nonReserved s.evaluator, Evaluator.isReserved b.name = false := by
    intro b hb
    have := (List.mem_filter.mp hb).2
    simpa using this
  rw [nonReserved_assignAll, nonReserved_clearVariables,
    nonReserved_self (nonReserved s.evaluator) hnr,
    assignAll_distinct (nonReserved s.evaluator) [] hnames (by intro x hx; cases hx)]
  rfl

theorem saveSession_loadSession_roundtrip_liveState :
    (loadSession intMath (FileSelection.opened (textLines (saveSession intMath liveState)))
        StandardButton.No emptySession).critical = none ∧
    (loadSession intMath (FileSelection.opened (textLines (saveSession intMath liveState)))
        StandardButton.No emptySession).state.display = liveState.display ∧
    nonReserved (loadSession intMath
        (FileSelection.opened (textLines (saveSession intMath liveState)))
        StandardButton.No emptySession).state.evaluator = nonReserved liveState.evaluator :=
  saveSession_loadSession_roundtrip intMath liveState emptySession (by decide) (by decide)
    (by decide) (by decide) (by decide) (by decide) (by decide)

/-! ### saveSession in two parts, saveSettings and the setters -/

theorem saveSession_eq (hm : HMath V) (s : State V) :
    saveSession hm s = savedCalculations hm s.display ++ savedVariables hm s.evaluator := by
  simp only [saveSession, savedCalculations, savedVariables, variableSection,
    String.append_assoc]

theorem variableSection_data (hm : HMath V) (vars : List (Variable V)) :
    (variableSection hm vars).data = lineChars (variableLines hm vars) :=
  variables_data hm vars

theorem nonReserved_eq_filter (vars : List (Variable V)) :
    nonReserved vars = vars.filter (fun v => decide (v.name ≠ "pi" ∧ v.name ≠ "phi")) := by
  simp only [nonReserved]
  congr 1
  funext v
  by_cases hr : Evaluator.isReserved v.name = true
  · rcases (isReserved_iff v.name).mp hr with e | e
    · rw [e]; decide
    · rw [e]; decide
  · have h1 : ¬ v.name = "pi" := fun e => hr ((isReserved_iff v.name).mpr (Or.inl e))
    have h2 : ¬ v.name = "phi" := fun e => hr ((isReserved_iff v.name).mpr (Or.inr e))
    simp [hr, h1, h2]

theorem variableLines_length (hm : HMath V) (vars : List (Variable V)) :
    (variableLines hm vars).length = 2 * (nonReserved vars).length := by
  simp only [variableLines]
  induction nonReserved vars with
  | nil => rfl
  | cons v vs ih =>
    simp only [List.flatMap_cons, List.length_append, List.length_cons, List.length_nil, ih]
    omega

theorem argTokens_plain_lits (l : List Char) (h : '%' ∉ l) (rest : List Char) :
    argTokens ArgScan.plain (l ++ rest) = l.map ArgToken.lit ++ argTokens ArgScan.plain rest := by
  induction l with
  | nil => rfl
  | cons c cs ih =>
    have hc : ¬ c = '%' := fun e => h (by simp [e])
    have hcs : '%' ∉ cs := fun e => h (List.mem_cons_of_mem c e)
    simp [argTokens, argStep, argPlain, hc, ih hcs]

theorem lowestMarker_lits (l : List Char) (rest : List ArgToken) :
    lowestMarker (l.map ArgToken.lit ++ rest) = lowestMarker rest := by
  induction l with
  | nil => rfl
  | cons c cs ih => simpa [lowestMarker] using ih

theorem fillMarkers_lits (m : Nat) (a l : List Char) (rest : List ArgToken) :
    fillMarkers m a (l.map ArgToken.lit ++ rest) = l ++ fillMarkers m a rest := by
  induction l with
  | nil => rfl
  | cons c cs ih => simpa [fillMarkers] using ih

/-- The first `arg` of `QString( "%1=%2" )`: the marker `%1` is replaced. -/
theorem qArg_first (name : String) : qArg "%1=%2" name = name ++ "=%2" := by
  have ht : argTokens ArgScan.plain ("%1=%2" : String).data
      = [ArgToken.marker 1 ['%', '1'], ArgToken.lit '=', ArgToken.marker 2 ['%', '2']] := by
    decide
  apply String.ext
  simp [qArg, ht, lowestMarker, fillMarkers, String.data_append]

/-- The second `arg` after a name without a percent sign: the marker `%2` is
replaced, and the entry is the name, an equals sign and the value. -/
theorem qArg_entry (name value : String) (h : '%' ∉ name.data) :
    qArg (qArg "%1=%2" name) value = name ++ "=" ++ value := by
  have htail : argTokens ArgScan.plain ['=', '%', '2']
      = [ArgToken.lit '=', ArgToken.marker 2 ['%', '2']] := by decide
  have hd : (name ++ "=%2").data = name.data ++ ['=', '%', '2'] := by
    simp [String.data_append]
  rw [qArg_first]
  apply String.ext
  simp only [qArg, hd, argTokens_plain_lits name.data h, htail, lowestMarker_lits,
    fillMarkers_lits, lowestMarker, fillMarkers, String.data_append]
  simp

theorem saveSettings_storedVariables (hm : HMath V) (s : State V)
    (h : s.settings.saveVariables = true) :
    (saveSettings hm s).settings.storedVariables =
      s.evaluator.map (fun var =>
        qArg (qArg "%1=%2" var.name) (hm.formatScientific var.value hm.DECPRECISION)) := by
  simp [saveSettings, h]

/-! ### Files given by their line pairs -/

theorem takePairs_pairLines (ps : List (String × String)) (rest : List String) :
    takePairs ps.length (pairLines ps ++ rest) = some (ps, rest) := by
  have h := takePairs_flatMap (fun p : String × String => p.1) (fun p => p.2) ps rest
  simpa [pairLines] using h

theorem readCount_of_toInt (l : String) (ls : List String) (n : Nat)
    (h : toInt (some l) = some ((n : Nat) : Int)) : readCount (l :: ls) = some (n, ls) := by
  have hnn : ¬ ((n : Int) < 0) := by omega
  simp [readCount, h, hnn]

theorem decodeLines_fileLines (hm : HMath V) (cnt vcnt : String)
    (calcs vars : List (String × String)) (rest : List String)
    (hc : toInt (some cnt) = some ((calcs.length : Nat) : Int))
    (hv : toInt (some vcnt) = some ((vars.length : Nat) : Int)) :
    decodeLines hm (fileLines cnt calcs vcnt vars rest) =
      some (⟨calcs.map (decodeCalculation hm), vars.filterMap (decodeBinding hm)⟩, rest) := by
  rw [fileLines, decodeLines_version, readCount_of_toInt cnt _ calcs.length hc]
  simp only [takePairs_pairLines, readCount_of_toInt vcnt _ vars.length hv]

theorem startState_display (but : StandardButton) (s : State V) :
    (startState but s).display =
      match but with
      | StandardButton.No => []
      | _ => s.display := by
  cases but <;> simp [startState, clearHistory, deleteAllVariables]

theorem startState_evaluator (but : StandardButton) (s : State V) :
    (startState but s).evaluator =
      match but with
      | StandardButton.No => Evaluator.clearVariables s.evaluator
      | _ => s.evaluator := by
  cases but <;> simp [startState, clearHistory, deleteAllVariables]

/-- The result of loadSession, after a merge or replace answer, on a file the
decoder of the specification accepts, in terms of the state the reading starts
from. -/
theorem loadSession_of_decode_start (hm : HMath V) (lines : List String) (s : State V)
    (but : StandardButton) (hb : but ≠ StandardButton.Cancel)
    (sess : Session V) (rest : List String) (h : decodeLines hm lines = some (sess, rest)) :
    loadSession hm (FileSelection.opened lines) but s =
      ⟨{ startState but s with
          display := (startState but s).display ++ sess.calculations
          evaluator := assignAll (startState but s).evaluator sess.bindings },
        rest, true, none⟩ := by
  have h1 := loadSession_of_decode hm lines s sess rest h
  cases but with
  | Cancel => exact absurd rfl hb
  | Yes => rw [h1.1]; rfl
  | No => rw [h1.2]; simp [startState, clearHistory, deleteAllVariables]

theorem setPrecision_settings (p : Int) (st : Settings) :
    (setPrecision p st).1 = { st with precision := p } := by
  by_cases h : st.precision = p
  · subst h; simp [setPrecision]
  · simp [setPrecision, h]

theorem setFormat_settings (c : Char) (st : Settings) :
    (setFormat c st).1 = { st with format := c } := by
  by_cases h : st.format = c
  · subst h; simp [setFormat]
  · simp [setFormat, h]

theorem setRadixChar_settings (c : Char) (st : Settings) :
    (setRadixChar c st).1 = { st with radixChar := c } := by
  by_cases h : st.radixChar = c
  · subst h; simp [setRadixChar]
  · simp [setRadixChar, h]

theorem radian_settings (st : Settings) : (radian st).1 = { st with angleMode := 'r' } := by
  by_cases h : st.angleMode = 'r'
  · simp only [radian, h, if_true]; rw [← h]
  · simp [radian, h]

theorem degree_settings (st : Settings) : (degree st).1 = { st with angleMode := 'd' } := by
  by_cases h : st.angleMode = 'd'
  · simp only [degree, h, if_true]; rw [← h]
  · simp [degree, h]

theorem inDomains_precision (st : Settings) (p : Int) (h : inDomains st = true)
    (hp : precisionOk p = true) : inDomains { st with precision := p } = true := by
  simp only [inDomains, Bool.and_eq_true] at h ⊢
  exact ⟨⟨⟨h.1.1.1, h.1.1.2⟩, hp⟩, h.2⟩

theorem inDomains_format (st : Settings) (c : Char) (h : inDomains st = true)
    (hc : formatOk c = true) : inDomains { st with format := c } = true := by
  simp only [inDomains, Bool.and_eq_true] at h ⊢
  exact ⟨⟨⟨h.1.1.1, hc⟩, h.1.2⟩, h.2⟩

theorem inDomains_radixChar (st : Settings) (c : Char) (h : inDomains st = true)
    (hc : radixCharOk c = true) : inDomains { st with radixChar := c } = true := by
  simp only [inDomains, Bool.and_eq_true] at h ⊢
  exact ⟨⟨⟨h.1.1.1, h.1.1.2⟩, h.1.2⟩, hc⟩

theorem inDomains_angleMode (st : Settings) (c : Char) (h : inDomains st = true)
    (hc : angleModeOk c = true) : inDomains { st with angleMode := c } = true := by
  simp only [inDomains, Bool.and_eq_true] at h ⊢
  exact ⟨⟨⟨hc, h.1.1.2⟩, h.1.2⟩, h.2⟩

/-! ### The docks -/

/-- The result of restoreDocks, dock by dock. -/
theorem restoreDocks_eq (s : State V) :
    restoreDocks s =
      ({ s with
          docks :=
            { history :=
                if s.settings.showHistory && s.settings.historyDockFloating
                    && !s.docks.history.floating then
                  floatAt s.settings.historyDockLeft s.settings.historyDockTop
                    s.settings.historyDockWidth s.settings.historyDockHeight s.docks.history
                else s.docks.history
              functions :=
                if s.settings.showFunctions && s.settings.functionsDockFloating
                    && !s.docks.functions.floating then
                  floatAt s.settings.functionsDockLeft s.settings.functionsDockTop
                    s.settings.functionsDockWidth s.settings.functionsDockHeight
                    s.docks.functions
                else s.docks.functions
              variables_ :=
                if s.settings.showVariables && s.settings.variablesDockFloating
                    && !s.docks.variables_.floating then
                  floatAt s.settings.variablesDockLeft s.settings.variablesDockTop
                    s.settings.variablesDockWidth s.settings.variablesDockHeight
                    s.docks.variables_
                else s.docks.variables_
              constants :=
                if s.settings.showConstants && s.settings.constantsDockFloating
                    && !s.docks.constants.floating then
                  floatAt s.settings.constantsDockLeft s.settings.constantsDockTop
                    s.settings.constantsDockWidth s.settings.constantsDockHeight
                    s.docks.constants
                else s.docks.constants } },
        (if s.settings.showHistory && s.settings.historyDockFloating
            && !s.docks.history.floating then [DockId.history] else [])
          ++ (if s.settings.showFunctions && s.settings.functionsDockFloating
            && !s.docks.functions.floating then [DockId.functions] else [])
          ++ (if s.settings.showVariables && s.settings.variablesDockFloating
            && !s.docks.variables_.floating then [DockId.variables_] else [])
          ++ (if s.settings.showConstants && s.settings.constantsDockFloating
            && !s.docks.constants.floating then [DockId.constants] else [])) := by
  simp only [restoreDocks]
  by_cases h1 : (s.settings.showHistory && s.settings.historyDockFloating
      && !s.docks.history.floating) = true <;>
  by_cases h2 : (s.settings.showFunctions && s.settings.functionsDockFloating
      && !s.docks.functions.floating) = true <;>
  by_cases h3 : (s.settings.showVariables && s.settings.variablesDockFloating
      && !s.docks.variables_.floating) = true <;>
  by_cases h4 : (s.settings.showConstants && s.settings.constantsDockFloating
      && !s.docks.constants.floating) = true <;>
  simp [h1, h2, h3, h4]

theorem floatAt_floating (l t w h : Int) (d : DockWidget) : (floatAt l t w h d).floating = true :=
  rfl

/-- A second run of restoreDocks finds every dock it could restore floating. -/
theorem restoreDocks_twice (s : State V) :
    restoreDocks (restoreDocks s).1 = ((restoreDocks s).1, []) := by
  rw [restoreDocks_eq (restoreDocks s).1, restoreDocks_eq s]
  by_cases h1 : (s.settings.showHistory && s.settings.historyDockFloating
      && !s.docks.history.floating) = true <;>
  by_cases h2 : (s.settings.showFunctions && s.settings.functionsDockFloating
      && !s.docks.functions.floating) = true <;>
  by_cases h3 : (s.settings.showVariables && s.settings.variablesDockFloating
      && !s.docks.variables_.floating) = true <;>
  by_cases h4 : (s.settings.showConstants && s.settings.constantsDockFloating
      && !s.docks.constants.floating) = true <;>
  simp [h1, h2, h3, h4, floatAt_floating]

/-! ### The stored history -/

theorem restoreEntries_eq (hm : HMath V) (mem : FreedMemory) (exprs ress : List String) :
    ∀ (i : Nat) (d : List (Calculation V)),
      restoreEntries hm mem i exprs ress d =
        d ++ ((List.zip exprs ress).enumFrom i).map
          (fun ip => restoredEntry hm mem ip.1 ip.2) := by
  induction exprs generalizing ress with
  | nil => intro i d; simp [restoreEntries]
  | cons e es ih =>
    intro i d
    cases ress with
    | nil => simp [restoreEntries]
    | cons r rs =>
      cases hp : hm.parse (mem.atNumber i r) with
      | some num =>
        have he : restoredEntry hm mem i (e, r) = ⟨e, Outcome.value num⟩ := by
          simp [restoredEntry, hp]
        simp [restoreEntries, hp, ih, he, Display.append]
      | none =>
        have he : restoredEntry hm mem i (e, r) = ⟨e, Outcome.error (mem.atError i r)⟩ := by
          simp [restoredEntry, hp]
        simp [restoreEntries, hp, ih, he, Display.appendError]

/-- The expressions of the entries restoreHistory appends are the stored
expressions, in stored order, whatever the reads through the stale pointer
find. -/
theorem restoreEntries_expressions (hm : HMath V) (mem : FreedMemory)
    (exprs ress : List String) (h : ress.length = exprs.length) :
    ∀ (i : Nat) (d : List (Calculation V)),
      (restoreEntries hm mem i exprs ress d).map (fun c => c.expression) =
        d.map (fun c => c.expression) ++ exprs := by
  induction exprs generalizing ress with
  | nil => intro i d; simp [restoreEntries]
  | cons e es ih =>
    intro i d
    cases ress with
    | nil => simp at h
    | cons r rs =>
      have hl : rs.length = es.length := by simpa using h
      simp only [restoreEntries]
      cases hp : hm.parse (mem.atNumber i r) with
      | some num => simp [ih rs hl, Display.append]
      | none => simp [ih rs hl, Display.appendError]

/-- With the bytes of the converted result still in place at both reads, a pass
appends the entry it is written to append. -/
theorem restoredEntry_kept (hm : HMath V) (mem : FreedMemory)
    (hk : ∀ i text, mem.atNumber i text = text ∧ mem.atError i text = toAscii text)
    (i : Nat) (p : String × String) :
    restoredEntry hm mem i p = intendedEntry hm p := by
  simp only [restoredEntry, intendedEntry, (hk i p.2).1, (hk i p.2).2]

theorem enumFrom_map_snd {α β : Type} (f : α → β) (l : List α) :
    ∀ i : Nat, (l.enumFrom i).map (fun ip => f ip.2) = l.map f := by
  induction l with
  | nil => intro i; rfl
  | cons x xs ih => intro i; simp [List.enumFrom_cons, ih]

theorem restoreHistory_mismatch (hm : HMath V) (mem : FreedMemory) (s : State V)
    (h : s.settings.historyResults.length ≠ s.settings.history.length) :
    restoreHistory hm mem s = clearHistory s := by
  simp [restoreHistory, h]

theorem restoreHistory_match (hm : HMath V) (mem : FreedMemory) (s : State V)
    (h : s.settings.historyResults.length = s.settings.history.length) :
    restoreHistory hm mem s =
      { s with
        display := s.display
          ++ ((List.zip s.settings.history s.settings.historyResults).enumFrom 0).map
            (fun ip => restoredEntry hm mem ip.1 ip.2) } := by
  simp [restoreHistory, h, restoreEntries_eq]

theorem restoreHistory_expressions (hm : HMath V) (mem : FreedMemory) (s : State V)
    (h : s.settings.historyResults.length = s.settings.history.length) :
    (restoreHistory hm mem s).display.map (fun c => c.expression) =
      s.display.map (fun c => c.expression) ++ s.settings.history := by
  simp [restoreHistory, h, restoreEntries_expressions hm mem _ _ h]

/-- Neither restoreHistory nor clearHistory touches the stored variables or the
switch that guards their restoration. -/
theorem history_step_variables (hm : HMath V) (mem : FreedMemory) (s : State V) :
    (if s.settings.saveSession = true then restoreHistory hm mem s
      else clearHistory s).settings.saveVariables = s.settings.saveVariables ∧
    (if s.settings.saveSession = true then restoreHistory hm mem s
      else clearHistory s).settings.storedVariables = s.settings.storedVariables := by
  by_cases hs : s.settings.saveSession = true
  · by_cases hl : s.settings.historyResults.length = s.settings.history.length
    · simp [hs, restoreHistory_match hm mem s hl]
    · simp [hs, restoreHistory_mismatch hm mem s hl, clearHistory]
  · simp [hs, clearHistory]

/-! ### The stored variables -/

theorem restoreEntriesOfVariables_some (hm : HMath V) (ev : Evaluation V)
    (entries : List String) (h : ∀ e ∈ entries, 2 ≤ (splitEq e).length) :
    ∀ vars : List (Variable V), ∃ vars2,
      restoreEntriesOfVariables hm ev entries vars = some vars2 := by
  induction entries with
  | nil => intro vars; exact ⟨vars, rfl⟩
  | cons e es ih =>
    intro vars
    have he := h e (List.mem_cons_self _ _)
    have hes : ∀ x ∈ es, 2 ≤ (splitEq x).length := fun x hx => h x (List.mem_cons_of_mem _ hx)
    cases hsp : splitEq e with
    | nil => rw [hsp] at he; simp at he
    | cons name rest =>
      cases rest with
      | nil => rw [hsp] at he; simp at he
      | cons value rest2 =>
        simp only [restoreEntriesOfVariables, hsp]
        exact ih hes _

theorem restoreVariables_frame (hm : HMath V) (ev : Evaluation V) (s t : State V)
    (h : restoreVariables hm ev s = some t) :
    t.display = s.display ∧ t.settings = s.settings := by
  unfold restoreVariables at h
  cases hr : restoreEntriesOfVariables hm ev s.settings.storedVariables s.evaluator with
  | none => rw [hr] at h; simp at h
  | some vars =>
    rw [hr] at h
    simp only [Option.some.injEq] at h
    rw [← h]
    exact ⟨rfl, rfl⟩

theorem restoreVariables_some (hm : HMath V) (ev : Evaluation V) (s : State V)
    (h : ∀ e ∈ s.settings.storedVariables, 2 ≤ (splitEq e).length) :
    ∃ t, restoreVariables hm ev s = some t := by
  obtain ⟨vars, hv⟩ := restoreEntriesOfVariables_some hm ev s.settings.storedVariables h s.evaluator
  exact ⟨{ s with evaluator := vars, variablesDock := vars }, by simp only [restoreVariables, hv]⟩

theorem restoreDocks_display (s : State V) :
    (restoreDocks s).1.display = s.display ∧ (restoreDocks s).1.settings = s.settings := by
  rw [restoreDocks_eq s]
  exact ⟨rfl, rfl⟩

theorem restoreEntriesOfVariables_none (hm : HMath V) (ev : Evaluation V)
    (entries : List String) :
    ∀ vars : List (Variable V),
      restoreEntriesOfVariables hm ev entries vars = none ↔
        ∃ e ∈ entries, (splitEq e).length < 2 := by
  induction entries with
  | nil => intro vars; simp [restoreEntriesOfVariables]
  | cons e es ih =>
    intro vars
    cases hsp : splitEq e with
    | nil =>
      simp only [restoreEntriesOfVariables, hsp, true_iff]
      exact ⟨e, List.mem_cons_self _ _, by rw [hsp]; simp⟩
    | cons name rest =>
      cases rest with
      | nil =>
        simp only [restoreEntriesOfVariables, hsp, true_iff]
        exact ⟨e, List.mem_cons_self _ _, by rw [hsp]; simp⟩
      | cons value rest2 =>
        simp only [restoreEntriesOfVariables, hsp]
        rw [ih]
        constructor
        · rintro ⟨x, hx, hlt⟩
          exact ⟨x, List.mem_cons_of_mem _ hx, hlt⟩
        · rintro ⟨x, hx, hlt⟩
          rcases List.mem_cons.mp hx with h1 | h1
          · rw [h1, hsp] at hlt
            simp only [List.length_cons] at hlt
            omega
          · exact ⟨x, h1, hlt⟩

theorem restoreVariables_none (hm : HMath V) (ev : Evaluation V) (s : State V) :
    restoreVariables hm ev s = none ↔
      ∃ e ∈ s.settings.storedVariables, (splitEq e).length < 2 := by
  rw [← restoreEntriesOfVariables_none hm ev s.settings.storedVariables s.evaluator]
  unfold restoreVariables
  cases restoreEntriesOfVariables hm ev s.settings.storedVariables s.evaluator <;> simp

/-- The run of applySettings breaks off exactly when the variables are restored
and a stored entry has no second part. -/
theorem applySettings_none (hm : HMath V) (mem : FreedMemory) (ev : Evaluation V)
    (w : WindowState) (s : State V) :
    applySettings hm mem ev w s = none ↔
      (s.settings.saveVariables = true ∧
        ∃ e ∈ s.settings.storedVariables, (splitEq e).length < 2) := by
  obtain ⟨hsv, hst⟩ := history_step_variables hm mem s
  generalize hs1 : (if s.settings.saveSession = true then restoreHistory hm mem s
      else clearHistory s) = s1 at hsv hst
  have happ : applySettings hm mem ev w s =
      match (if s1.settings.saveVariables = true then restoreVariables hm ev s1 else some s1) with
      | none => none
      | some s3 =>
        some (restoreDocks
          { s3 with docks := w.docks, windowState := w.windowState,
                    windowSize := w.windowSize }) := by
    simp only [applySettings, hs1]
  rw [happ, ← hsv, ← hst, ← restoreVariables_none hm ev s1]
  by_cases hv : s1.settings.saveVariables = true
  · rw [if_pos hv]
    cases restoreVariables hm ev s1 <;> simp [hv]
  · rw [if_neg hv]
    simp [hv]

/-- Whenever applySettings runs to its end, the display is the display after its
history step. -/
theorem applySettings_some_display (hm : HMath V) (mem : FreedMemory) (ev : Evaluation V)
    (w : WindowState) (s : State V) (r : State V × List DockId)
    (h : applySettings hm mem ev w s = some r) :
    r.1.display =
      (if s.settings.saveSession = true then restoreHistory hm mem s
        else clearHistory s).display := by
  generalize hs1 : (if s.settings.saveSession = true then restoreHistory hm mem s
      else clearHistory s) = s1
  have happ : applySettings hm mem ev w s =
      match (if s1.settings.saveVariables = true then restoreVariables hm ev s1 else some s1) with
      | none => none
      | some s3 =>
        some (restoreDocks
          { s3 with docks := w.docks, windowState := w.windowState,
                    windowSize := w.windowSize }) := by
    simp only [applySettings, hs1]
  rw [happ] at h
  by_cases hv : s1.settings.saveVariables = true
  · simp only [hv, if_true] at h
    cases ht : restoreVariables hm ev s1 with
    | none => rw [ht] at h; simp at h
    | some t =>
      rw [ht] at h
      simp only [Option.some.injEq] at h
      rw [← h, (restoreDocks_display _).1]
      exact (restoreVariables_frame hm ev s1 t ht).1
  · rw [if_neg hv] at h
    simp only [Option.some.injEq] at h
    rw [← h, (restoreDocks_display _).1]

/-! ### Stored variable entries and their parts -/

theorem splitFrom_length_pos (sep : Char) (cs : List Char) :
    ∀ cur, 1 ≤ (splitFrom sep cur cs).length := by
  induction cs with
  | nil => intro cur; simp [splitFrom]
  | cons c cs ih =>
    intro cur
    by_cases hc : c = sep
    · simp [splitFrom, hc]
    · simp only [splitFrom, hc, if_false]
      exact ih _

theorem splitFrom_mem (sep : Char) (cs : List Char) (h : sep ∈ cs) :
    ∀ cur, 2 ≤ (splitFrom sep cur cs).length := by
  induction cs with
  | nil => simp at h
  | cons c cs ih =>
    intro cur
    by_cases hc : c = sep
    · simp only [splitFrom, hc, if_true, List.length_cons]
      have := splitFrom_length_pos sep cs []
      omega
    · simp only [splitFrom, hc, if_false]
      have hmem : sep ∈ cs := by
        rcases List.mem_cons.mp h with h1 | h1
        · exact absurd h1.symm hc
        · exact h1
      exact ih hmem _

theorem splitFrom_none (sep : Char) (cs : List Char) (h : sep ∉ cs) :
    ∀ cur, splitFrom sep cur cs = [String.mk (cur ++ cs)] := by
  induction cs with
  | nil => intro cur; simp [splitFrom]
  | cons c cs ih =>
    intro cur
    have hc : ¬ c = sep := fun e => h (by simp [e])
    have hcs : sep ∉ cs := fun e => h (List.mem_cons_of_mem c e)
    simp [splitFrom, hc, ih hcs]

theorem splitFrom_first (sep : Char) (pre rest : List Char) (h : sep ∉ pre) :
    ∀ cur, splitFrom sep cur (pre ++ sep :: rest)
      = String.mk (cur ++ pre) :: splitFrom sep [] rest := by
  induction pre with
  | nil => intro cur; simp [splitFrom]
  | cons c cs ih =>
    intro cur
    have hc : ¬ c = sep := fun e => h (by simp [e])
    have hcs : sep ∉ cs := fun e => h (List.mem_cons_of_mem c e)
    simp [splitFrom, hc, ih hcs]

/-- An entry made of a name and a value without an equals sign splits into the
name and the value. -/
theorem splitEq_entry (name value : String) (hn : '=' ∉ name.data) (hv : '=' ∉ value.data) :
    splitEq (name ++ "=" ++ value) = [name, value] := by
  have hd : (name ++ "=" ++ value).data = name.data ++ '=' :: value.data := by
    simp [String.data_append]
  rw [splitEq, hd, splitFrom_first '=' name.data value.data hn, splitFrom_none '=' value.data hv]
  simp

theorem argStep_eq_lit (st : ArgScan) : ArgToken.lit '=' ∈ (argStep st '=').1 := by
  have h1 : ¬ ('=' : Char) = '%' := by decide
  have h2 : ¬ ('=' : Char) = 'L' := by decide
  have h3 : ('=' : Char).isDigit = false := by decide
  cases st <;> simp [argStep, argPlain, h1, h2, h3]

theorem argTokens_eq_lit (cs : List Char) (h : '=' ∈ cs) :
    ∀ st, ArgToken.lit '=' ∈ argTokens st cs := by
  induction cs with
  | nil => simp at h
  | cons c cs ih =>
    intro st
    have hstep : argTokens st (c :: cs) = (argStep st c).1 ++ argTokens (argStep st c).2 cs := by
      cases st <;> rfl
    rw [hstep]
    rcases List.mem_cons.mp h with h1 | h1
    · rw [← h1]
      exact List.mem_append_left _ (argStep_eq_lit st)
    · exact List.mem_append_right _ (ih h1 _)

theorem fillMarkers_lit (m : Nat) (a : List Char) (c : Char) (ts : List ArgToken)
    (h : ArgToken.lit c ∈ ts) : c ∈ fillMarkers m a ts := by
  induction ts with
  | nil => simp at h
  | cons t ts ih =>
    cases t with
    | lit d =>
      rcases List.mem_cons.mp h with h1 | h1
      · simp only [ArgToken.lit.injEq] at h1
        simp [fillMarkers, h1]
      · simp [fillMarkers, ih h1]
    | marker n text =>
      rcases List.mem_cons.mp h with h1 | h1
      · simp at h1
      · simp [fillMarkers, ih h1]

/-- An equals sign of the format string is never part of a place marker: the
result of `arg` contains one as well. -/
theorem qArg_keeps_eq (format a : String) (h : '=' ∈ format.data) :
    '=' ∈ (qArg format a).data := by
  unfold qArg
  cases hl : lowestMarker (argTokens ArgScan.plain format.data) with
  | none => exact h
  | some m => exact fillMarkers_lit m a.data '=' _ (argTokens_eq_lit _ h _)

/-- Every entry saveSettings makes has a second part, whatever the name and the
value are. -/
theorem stored_entry_parts (name value : String) :
    2 ≤ (splitEq (qArg (qArg "%1=%2" name) value)).length := by
  apply splitFrom_mem
  apply qArg_keeps_eq
  rw [qArg_first]
  simp [String.data_append]

/-- The loop of restoreVariables over entries that split into a name and a
rendered value. -/
theorem restoreEntriesOfVariables_fold (hm : HMath V) (ev : Evaluation V)
    (entry rendered : Variable V → String) (l : List (Variable V))
    (h : ∀ v ∈ l, splitEq (entry v) = [v.name, rendered v]) :
    ∀ tbl : List (Variable V),
      restoreEntriesOfVariables hm ev (l.map entry) tbl =
        some (l.foldl (fun t v =>
          Evaluator.set (ev.eval (entry v) t) v.name (hm.number (rendered v))) tbl) := by
  induction l with
  | nil => intro tbl; rfl
  | cons v vs ih =>
    intro tbl
    have hv := h v (List.mem_cons_self _ _)
    have hvs : ∀ x ∈ vs, splitEq (entry x) = [x.name, rendered x] :=
      fun x hx => h x (List.mem_cons_of_mem _ hx)
    simp only [List.map_cons, restoreEntriesOfVariables, hv, List.foldl_cons]
    exact ih hvs _

/-- The stored entries of a table whose names hold no percent sign. -/
theorem saveSettings_storedVariables_plain (hm : HMath V) (s : State V)
    (h : s.settings.saveVariables = true) (hp : ∀ v ∈ s.evaluator, '%' ∉ v.name.data) :
    (saveSettings hm s).settings.storedVariables =
      s.evaluator.map (fun v =>
        v.name ++ "=" ++ hm.formatScientific v.value hm.DECPRECISION) := by
  rw [saveSettings_storedVariables hm s h]
  apply List.map_congr_left
  intro v hv
  exact qArg_entry v.name _ (hp v hv)

theorem restoreVariables_of_entries (hm : HMath V) (ev : Evaluation V) (t : State V)
    (vars : List (Variable V))
    (h : restoreEntriesOfVariables hm ev t.settings.storedVariables t.evaluator = some vars) :
    restoreVariables hm ev t = some { t with evaluator := vars, variablesDock := vars } := by
  simp only [restoreVariables, h]

/-! ### The variable section under the table invariant -/

theorem filter_length_cons {α : Type} (p : α → Bool) (v : α) (vs : List α) :
    ((v :: vs).filter p).length = (if p v = true then 1 else 0) + (vs.filter p).length := by
  by_cases h : p v = true
  · simp [List.filter_cons, h]; omega
  · simp [List.filter_cons, h]

theorem clearVariables_length (vars : List (Variable V)) :
    (Evaluator.clearVariables vars).length =
      (vars.filter (fun v => decide (v.name = "pi"))).length
        + (vars.filter (fun v => decide (v.name = "phi"))).length := by
  induction vars with
  | nil => rfl
  | cons v vs ih =>
    simp only [Evaluator.clearVariables] at ih
    simp only [Evaluator.clearVariables, filter_length_cons, ih]
    by_cases h1 : v.name = "pi"
    · have h2 : ¬ v.name = "phi" := by rw [h1]; decide
      have hr : Evaluator.isReserved v.name = true := by simp [Evaluator.isReserved, h1]
      rw [if_pos hr, if_pos (decide_eq_true h1), if_neg (by simpa using h2)]
      omega
    · by_cases h2 : v.name = "phi"
      · have hr : Evaluator.isReserved v.name = true := by simp [Evaluator.isReserved, h2]
        rw [if_pos hr, if_neg (by simpa using h1), if_pos (decide_eq_true h2)]
        omega
      · have hr : ¬ Evaluator.isReserved v.name = true := by
          simp [Evaluator.isReserved, h1, h2]
        rw [if_neg hr, if_neg (by simpa using h1), if_neg (by simpa using h2)]
        omega

theorem variableLines_pairs (hm : HMath V) (vars : List (Variable V)) :
    variableLines hm vars
      = pairLines ((nonReserved vars).map (fun v => (v.name, hm.format v.value))) := by
  simp only [variableLines, pairLines]
  induction nonReserved vars with
  | nil => rfl
  | cons v vs ih => simp [List.flatMap_cons, ih]

theorem savedVariables_textLines (hm : HMath V) (vars : List (Variable V))
    (hclean : ∀ t ∈ variableLines hm vars, cleanLine t = true) :
    textLines (savedVariables hm vars)
      = toString ((vars.length : Int) - 2) :: variableLines hm vars := by
  have hd : (savedVariables hm vars).data
      = lineChars (toString ((vars.length : Int) - 2) :: variableLines hm vars) := by
    simp only [savedVariables, String.data_append, variableSection_data, lineChars_cons]
    simp
  have hall : ∀ t ∈ toString ((vars.length : Int) - 2) :: variableLines hm vars,
      cleanLine t = true := by
    intro t ht
    rcases List.mem_cons.mp ht with h1 | h1
    · rw [h1]; exact cleanLine_toString_int _
    · exact hclean t h1
  have := linesFrom_lineChars _ [] hall
  rw [List.append_nil] at this
  rw [textLines, hd, this]
  simp [linesFrom]

/-- Under the table invariant the count saveSession writes is the number of
bindings it writes. -/
theorem count_under_invariant (vars : List (Variable V))
    (hres : (Evaluator.clearVariables vars).length = 2) :
    (vars.length : Int) - 2 = ((nonReserved vars).length : Int) := by
  have := length_split vars
  omega

/-- What loadSession reads from a file whose variable section was written by
saveSession for a table under the invariant. -/
theorem loadSession_savedVariables (hm : HMath V) (vars : List (Variable V)) (cnt : String)
    (calcs : List (String × String)) (live : State V) (but : StandardButton)
    (hb : but ≠ StandardButton.Cancel)
    (hres : (Evaluator.clearVariables vars).length = 2)
    (hclean : ∀ t ∈ variableLines hm vars, cleanLine t = true)
    (hsize : vars.length ≤ 2147483647)
    (hc : toInt (some cnt) = some ((calcs.length : Nat) : Int)) :
    loadSession hm
        (FileSelection.opened
          ("0.10" :: cnt :: (pairLines calcs ++ textLines (savedVariables hm vars))))
        but live =
      ⟨{ startState but live with
          display := (startState but live).display ++ calcs.map (decodeCalculation hm)
          evaluator := assignAll (startState but live).evaluator
            (((nonReserved vars).map (fun v => (v.name, hm.format v.value))).filterMap
              (decodeBinding hm)) },
        [], true, none⟩ := by
  have hn : (nonReserved vars).length ≤ 2147483647 := by
    have := length_split vars
    omega
  have hfile : "0.10" :: cnt :: (pairLines calcs ++ textLines (savedVariables hm vars))
      = fileLines cnt calcs (toString (((nonReserved vars).length : Nat) : Int))
          ((nonReserved vars).map (fun v => (v.name, hm.format v.value))) [] := by
    rw [savedVariables_textLines hm vars hclean, count_under_invariant vars hres,
      variableLines_pairs]
    simp [fileLines]
  have hdec := decodeLines_fileLines hm cnt (toString (((nonReserved vars).length : Nat) : Int))
    calcs ((nonReserved vars).map (fun v => (v.name, hm.format v.value))) [] hc
    (by rw [List.length_map]; exact toInt_toString _ hn)
  rw [hfile]
  exact loadSession_of_decode_start hm _ live but hb _ [] hdec

/-! ### The lines of the two parts of a session file -/

theorem linesFrom_append_line (xs ys : List Char) :
    ∀ cur, linesFrom cur (xs ++ '\n' :: ys) = linesFrom cur (xs ++ ['\n']) ++ linesFrom [] ys := by
  induction xs with
  | nil =>
    intro cur
    simp [linesFrom_cons, linesFrom]
  | cons c cs ih =>
    intro cur
    by_cases hc : c = '\n'
    · simp only [List.cons_append, linesFrom_cons, hc, if_true, ih [], List.cons_append]
    · simp only [List.cons_append, linesFrom_cons, hc, if_false, ih]

theorem textLines_append (a b : String) (xs : List Char) (h : a.data = xs ++ ['\n']) :
    textLines (a ++ b) = textLines a ++ textLines b := by
  simp only [textLines, String.data_append, h]
  have := linesFrom_append_line xs b.data []
  simpa using this

/-- The lines of a session file are the lines saveSession writes up to the text
of the display, followed by the lines it writes from the variable count on. -/
theorem saveSession_lines (hm : HMath V) (s : State V) :
    textLines (saveSession hm s) =
      textLines (savedCalculations hm s.display) ++ textLines (savedVariables hm s.evaluator) := by
  rw [saveSession_eq]
  apply textLines_append _ _
    (("0.10" ++ "\n" ++ toString (Display.count s.display) ++ "\n"
      ++ Display.asText hm s.display).data)
  simp [savedCalculations, String.data_append]

/-! ### The two constants stay in the table -/

/-- An assignment keeps the number of bindings of a name, unless it inserts that
name into a table without it. -/
theorem set_keeps_count (n name : String) (value : V) (vars : List (Variable V))
    (h : n = name → ∃ x ∈ vars, x.name = name) :
    ((Evaluator.set vars name value).filter (fun v => decide (v.name = n))).length
      = (vars.filter (fun v => decide (v.name = n))).length := by
  induction vars with
  | nil =>
    have hne : ¬ name = n := by
      intro e
      obtain ⟨x, hx, _⟩ := h e.symm
      simp at hx
    simp [Evaluator.set, List.filter_cons, hne]
  | cons x xs ih =>
    by_cases hx : x.name = name
    · simp only [Evaluator.set, hx, if_true, filter_length_cons]
    · have h2 : n = name → ∃ y ∈ xs, y.name = name := by
        intro e
        obtain ⟨y, hy, hyn⟩ := h e
        rcases List.mem_cons.mp hy with h1 | h1
        · rw [h1] at hyn; exact absurd hyn hx
        · exact ⟨y, h1, hyn⟩
      simp only [Evaluator.set, hx, if_false, filter_length_cons, ih h2]

theorem exists_of_count_one (n : String) (vars : List (Variable V))
    (h : (vars.filter (fun v => decide (v.name = n))).length = 1) :
    ∃ x ∈ vars, x.name = n := by
  cases hf : vars.filter (fun v => decide (v.name = n)) with
  | nil => rw [hf] at h; simp at h
  | cons x xs =>
    have hx : x ∈ vars.filter (fun v => decide (v.name = n)) := by
      rw [hf]; exact List.mem_cons_self _ _
    exact ⟨x, (List.mem_filter.mp hx).1, by simpa using (List.mem_filter.mp hx).2⟩

/-- A table with exactly one binding of `pi` and exactly one of `phi` is such a
table after every assignment, and it holds exactly two bindings with one of
these names. -/
theorem constants_kept_by_set (name : String) (value : V) (vars : List (Variable V))
    (hpi : (vars.filter (fun v => decide (v.name = "pi"))).length = 1)
    (hphi : (vars.filter (fun v => decide (v.name = "phi"))).length = 1) :
    ((Evaluator.set vars name value).filter (fun v => decide (v.name = "pi"))).length = 1 ∧
    ((Evaluator.set vars name value).filter (fun v => decide (v.name = "phi"))).length = 1 ∧
    (Evaluator.clearVariables (Evaluator.set vars name value)).length = 2 ∧
    (Evaluator.clearVariables vars).length = 2 := by
  have h1 := set_keeps_count "pi" name value vars
    (fun e => by rw [← e]; exact exists_of_count_one "pi" vars hpi)
  have h2 := set_keeps_count "phi" name value vars
    (fun e => by rw [← e]; exact exists_of_count_one "phi" vars hphi)
  refine ⟨by rw [h1, hpi], by rw [h2, hphi], ?_, ?_⟩
  · rw [clearVariables_length, h1, h2, hpi, hphi]
  · rw [clearVariables_length, hpi, hphi]

end Lemmas

/-! ## The claims -/

section Claims

variable {V : Type}

/-- C1 (failing case): a session without calculations cannot be loaded back.
For every numeric engine, every state whose calculation log is empty, and every
live state and answer merge or replace at load time, loadSession rejects the
text that saveSession writes with the invalid-session error: the line feed that
saveSession writes after the (empty) text of the display makes an empty line,
which loadSession reads as the variable count. -/
theorem saveSession_empty_log_not_loadable (hm : HMath V) (s live : State V)
    (but : StandardButton) (hs : s.display = []) (hb : but ≠ StandardButton.Cancel) :
    (loadSession hm (FileSelection.opened (textLines (saveSession hm s))) but live).critical
      = some Critical.invalidSession := by
  apply loadSession_of_decode_none hm _ live but hb
  have htext : ∀ t : String,
      textLines ("0.10" ++ "\n" ++ toString (Display.count ([] : List (Calculation V))) ++ "\n"
        ++ Display.asText hm [] ++ "\n" ++ t)
      = "0.10" :: "0" :: "" :: textLines t := by
    intro t
    have hz : toString (0 : Int) = "0" := by decide
    have h0 : toString (Display.count ([] : List (Calculation V))) = "0" := hz
    have h1 : Display.asText hm ([] : List (Calculation V)) = "" := by
      simp [Display.asText, String.intercalate]
    rw [h0, h1]
    simp [textLines, String.data_append, linesFrom]
  have hsave : ∃ t : String, saveSession hm s
      = "0.10" ++ "\n" ++ toString (Display.count ([] : List (Calculation V))) ++ "\n"
        ++ Display.asText hm [] ++ "\n" ++ t := by
    refine ⟨toString ((s.evaluator.length : Int) - 2) ++ "\n"
      ++ String.join (s.evaluator.map (fun var =>
          if var.name ≠ "pi" ∧ var.name ≠ "phi" then
            var.name ++ "\n" ++ hm.format var.value ++ "\n"
          else "")), ?_⟩
    simp only [saveSession, hs, String.append_assoc]
  obtain ⟨t, ht⟩ := hsave
  rw [ht, htext, decodeLines_version]
  have hc0 : readCount ("0" :: "" :: textLines t) = some (0, "" :: textLines t) := by
    have : toInt (some "0") = some 0 := by decide
    simp [readCount, this]
  have hc1 : readCount ("" :: textLines t) = none := by
    have : toInt (some "") = none := by decide
    simp [readCount, this]
  simp [hc0, takePairs, hc1]

/-- The session without calculations and without user variables: the text written is
`0.10`, `0`, an empty line, `0`, and loading it is rejected. -/
theorem saveSession_empty_log_not_loadable_witness :
    emptySession.display = [] ∧
    saveSession intMath emptySession = "0.10\n0\n\n0\n" ∧
    textLines (saveSession intMath emptySession) = ["0.10", "0", "", "0"] ∧
    (loadSession intMath (FileSelection.opened (textLines (saveSession intMath emptySession)))
        StandardButton.Yes emptySession).critical = some Critical.invalidSession :=
  ⟨by decide, by decide, by decide,
    saveSession_empty_log_not_loadable intMath emptySession emptySession StandardButton.Yes
      (by decide) (by decide)⟩

/-- C2 (counterexample): an invalid-session error found after the merge question
does not leave the live state as it was. With replace, the file `0.10`, `1` ends
before the declared calculation: the error is reported after the display and the
user variables have been cleared. With merge, the file `0.10`, `2`, `2+2`, `4`
ends before the second calculation: the error is reported after the first one
has been appended to the display. -/
theorem loadSession_error_not_atomic :
    (loadSession intMath (FileSelection.opened ["0.10", "1"]) StandardButton.No
        liveState).critical = some Critical.invalidSession ∧
    (loadSession intMath (FileSelection.opened ["0.10", "1"]) StandardButton.No
        liveState).state.display = [] ∧
    (loadSession intMath (FileSelection.opened ["0.10", "1"]) StandardButton.No
        liveState).state.evaluator = [⟨"pi", 314⟩, ⟨"phi", 161⟩] ∧
    liveState.display = [⟨"1+1", Outcome.value 2⟩] ∧
    liveState.evaluator = [⟨"pi", 314⟩, ⟨"phi", 161⟩, ⟨"x", 1⟩] ∧
    (loadSession intMath (FileSelection.opened ["0.10", "2", "2+2", "4"]) StandardButton.Yes
        liveState).critical = some Critical.invalidSession ∧
    (loadSession intMath (FileSelection.opened ["0.10", "2", "2+2", "4"]) StandardButton.Yes
        liveState).state.display = [⟨"1+1", Outcome.value 2⟩, ⟨"2+2", Outcome.value 4⟩] := by
  decide

/-- C2 (amended): for every input on which loadSession finds the error before the
merge question (the version line is not `0.10`, or the calculation-count line is
absent, does not parse or is negative) and for every user choice, the
invalid-session error is reported, the question is not asked, and the whole live
state (calculation log, histories, variable table) is the one before the call. -/
theorem loadSession_error_before_question (hm : HMath V) (lines : List String)
    (but : StandardButton) (s : State V)
    (h : (readLine lines).1 ≠ some "0.10" ∨
      invalidCount (readLine (readLine lines).2).1 = true) :
    (loadSession hm (FileSelection.opened lines) but s).critical
        = some Critical.invalidSession ∧
    (loadSession hm (FileSelection.opened lines) but s).asked = false ∧
    (loadSession hm (FileSelection.opened lines) but s).state = s := by
  by_cases hv : (readLine lines).1 = some "0.10"
  · have hc : invalidCount (readLine (readLine lines).2).1 = true := by
      rcases h with h | h
      · exact absurd hv h
      · exact h
    cases lines with
    | nil => simp [readLine] at hv
    | cons l rest =>
      simp only [readLine_cons, Option.some.injEq] at hv hc
      subst hv
      rw [loadSession_bad_count hm rest but s hc]
      exact ⟨rfl, rfl, rfl⟩
  · rw [loadSession_bad_version hm lines but s hv]
    exact ⟨rfl, rfl, rfl⟩

/-- A file whose calculation count is negative, loaded with the answer replace into
a live state that holds a calculation and a user variable. -/
theorem loadSession_error_before_question_witness :
    invalidCount (readLine (readLine ["0.10", "-1", "1+1", "2"]).2).1 = true ∧
    (loadSession intMath (FileSelection.opened ["0.10", "-1", "1+1", "2"]) StandardButton.No
        liveState).critical = some Critical.invalidSession ∧
    (loadSession intMath (FileSelection.opened ["0.10", "-1", "1+1", "2"]) StandardButton.No
        liveState).asked = false ∧
    (loadSession intMath (FileSelection.opened ["0.10", "-1", "1+1", "2"]) StandardButton.No
        liveState).state = liveState :=
  ⟨by decide,
    loadSession_error_before_question intMath ["0.10", "-1", "1+1", "2"] StandardButton.No
      liveState (Or.inr (by decide))⟩

/-- C4: for every input whose first line is not exactly `0.10` (the empty input
included) and every user choice, loadSession reports the invalid-session error,
has read the first line only (the unread lines are all the lines after it), has
not asked the merge question, and leaves the live state as it was. -/
theorem loadSession_version_check (hm : HMath V) (lines : List String)
    (but : StandardButton) (s : State V) (h : (readLine lines).1 ≠ some "0.10") :
    (loadSession hm (FileSelection.opened lines) but s).critical
        = some Critical.invalidSession ∧
    (loadSession hm (FileSelection.opened lines) but s).stream = lines.tail ∧
    (loadSession hm (FileSelection.opened lines) but s).asked = false ∧
    (loadSession hm (FileSelection.opened lines) but s).state = s := by
  rw [loadSession_bad_version hm lines but s h]
  exact ⟨rfl, rfl, rfl, rfl⟩

/-- A file with the version line `0.9`, and the empty input. -/
theorem loadSession_version_check_witness :
    ((readLine ["0.9", "1", "1+1", "2", "0"]).1 ≠ some "0.10" ∧
      (loadSession intMath (FileSelection.opened ["0.9", "1", "1+1", "2", "0"])
          StandardButton.No liveState).critical = some Critical.invalidSession ∧
      (loadSession intMath (FileSelection.opened ["0.9", "1", "1+1", "2", "0"])
          StandardButton.No liveState).stream = ["1", "1+1", "2", "0"] ∧
      (loadSession intMath (FileSelection.opened ["0.9", "1", "1+1", "2", "0"])
          StandardButton.No liveState).asked = false ∧
      (loadSession intMath (FileSelection.opened ["0.9", "1", "1+1", "2", "0"])
          StandardButton.No liveState).state = liveState) ∧
    ((readLine []).1 ≠ some "0.10" ∧
      (loadSession intMath (FileSelection.opened []) StandardButton.Yes liveState).critical
        = some Critical.invalidSession) :=
  ⟨⟨by decide,
      loadSession_version_check intMath ["0.9", "1", "1+1", "2", "0"] StandardButton.No
        liveState (by decide)⟩,
    ⟨by decide,
      (loadSession_version_check intMath [] StandardButton.Yes liveState (by decide)).1⟩⟩

/-- C5: on a file with a valid version line, loadSession reports the
invalid-session error when the calculation-count line is absent, does not parse
as an integer or is negative (whatever the user would choose); and, once the
merge question has been answered with merge or replace and the declared
calculations have been read, also when the variable-count line is absent, does
not parse or is negative. -/
theorem loadSession_count_lines (hm : HMath V) (rest : List String) (but : StandardButton)
    (s : State V) :
    (invalidCount (readLine rest).1 = true →
      (loadSession hm (FileSelection.opened ("0.10" :: rest)) but s).critical
        = some Critical.invalidSession) ∧
    (∀ (n : Int) (calcLines tail : List String),
      but ≠ StandardButton.Cancel →
      toInt (readLine rest).1 = some n → 0 ≤ n →
      (readLine rest).2 = calcLines ++ tail → calcLines.length = 2 * n.toNat →
      invalidCount (readLine tail).1 = true →
      (loadSession hm (FileSelection.opened ("0.10" :: rest)) but s).critical
        = some Critical.invalidSession) := by
  constructor
  · intro h
    rw [loadSession_bad_count hm rest but s h]
  · intro n calcLines tail hb hn hn0 hsplit hlen hbad
    apply loadSession_of_decode_none hm _ s but hb
    rw [decodeLines_version, readCount_eq, hn]
    have hneg : ¬ n < 0 := by omega
    simp only [hneg, if_false]
    obtain ⟨ps, hps, _⟩ := takePairs_exact n.toNat calcLines tail hlen
    rw [hsplit, hps]
    simp only
    rw [readCount_eq]
    cases hm2 : toInt (readLine tail).1 with
    | none => rfl
    | some m =>
      have hmneg : m < 0 := by simpa [invalidCount, hm2] using hbad
      simp [hmneg]

/-- A file whose calculation-count line is not a number, and a file whose
variable-count line, read after one declared calculation, is negative. -/
theorem loadSession_count_lines_witness :
    (invalidCount (readLine ["many", "1+1", "2", "0"]).1 = true ∧
      (loadSession intMath (FileSelection.opened ("0.10" :: ["many", "1+1", "2", "0"]))
          StandardButton.Cancel liveState).critical = some Critical.invalidSession) ∧
    (invalidCount (readLine ["-3"]).1 = true ∧
      (loadSession intMath (FileSelection.opened ("0.10" :: ["1", "1+1", "2", "-3"]))
          StandardButton.Yes liveState).critical = some Critical.invalidSession) :=
  ⟨⟨by decide,
      (loadSession_count_lines intMath ["many", "1+1", "2", "0"] StandardButton.Cancel
        liveState).1 (by decide)⟩,
    ⟨by decide,
      (loadSession_count_lines intMath ["1", "1+1", "2", "-3"] StandardButton.Yes
        liveState).2 1 ["1+1", "2"] ["-3"] (by decide) (by decide) (by decide) (by decide)
        (by decide) (by decide)⟩⟩

/-- C9: for every live state and every input, when the user chooses cancel at
the merge question, the state after loadSession (calculation log, editor history,
history dock, stored history lists, variable table) is the state before it. -/
theorem loadSession_cancel (hm : HMath V) (file : FileSelection) (s : State V) :
    (loadSession hm file StandardButton.Cancel s).state = s :=
  loadSession_cancel_state hm file s

/-- C3: for every input whose version line is `0.10` and whose declared
calculation count exceeds the number of line pairs after the count line, or whose
declared variable count (read after the declared calculations) exceeds the
number of line pairs after it, loadSession, with the user choosing merge or
replace, reports the invalid-session error. -/
theorem loadSession_truncated (hm : HMath V) (cnt : String) (rest : List String) (n : Int)
    (but : StandardButton) (s : State V) (hb : but ≠ StandardButton.Cancel)
    (hn : toInt (some cnt) = some n)
    (h : ((rest.length / 2 : Nat) : Int) < n ∨
      ∃ (calcLines : List String) (vcnt : String) (vrest : List String) (m : Int),
        rest = calcLines ++ vcnt :: vrest ∧ (calcLines.length : Int) = 2 * n ∧
        toInt (some vcnt) = some m ∧ ((vrest.length / 2 : Nat) : Int) < m) :
    (loadSession hm (FileSelection.opened ("0.10" :: cnt :: rest)) but s).critical
      = some Critical.invalidSession := by
  apply loadSession_of_decode_none hm _ s but hb
  rw [decodeLines_version]
  rcases h with h | ⟨calcLines, vcnt, vrest, m, hsplit, hlen, hm2, hshort⟩
  · have hneg : ¬ n < 0 := by omega
    have hlt : rest.length < 2 * n.toNat := by omega
    simp [readCount, hn, hneg, takePairs_short n.toNat rest hlt]
  · have hneg : ¬ n < 0 := by omega
    have hlen2 : calcLines.length = 2 * n.toNat := by omega
    obtain ⟨ps, hps, _⟩ := takePairs_exact n.toNat calcLines (vcnt :: vrest) hlen2
    have hmneg : ¬ m < 0 := by omega
    have hlt : vrest.length < 2 * m.toNat := by omega
    simp [readCount, hn, hneg, hsplit, hps, hm2, hmneg, takePairs_short m.toNat vrest hlt]

/-- A file that declares two calculations and holds three lines for them, and a file
that declares two variables and holds three lines for them. -/
theorem loadSession_truncated_witness :
    (toInt (some "2") = some 2 ∧
      (((["1+1", "2", "2+2"] : List String).length / 2 : Nat) : Int) < 2 ∧
      (loadSession intMath (FileSelection.opened ("0.10" :: "2" :: ["1+1", "2", "2+2"]))
          StandardButton.Yes liveState).critical = some Critical.invalidSession) ∧
    (toInt (some "1") = some 1 ∧ toInt (some "2") = some 2 ∧
      (((["y", "7", "z"] : List String).length / 2 : Nat) : Int) < 2 ∧
      (loadSession intMath
          (FileSelection.opened ("0.10" :: "1" :: ["1+1", "2", "2", "y", "7", "z"]))
          StandardButton.No liveState).critical = some Critical.invalidSession) :=
  ⟨⟨by decide, by decide,
      loadSession_truncated intMath "2" ["1+1", "2", "2+2"] 2 StandardButton.Yes liveState
        (by decide) (by decide) (Or.inl (by decide))⟩,
    ⟨by decide, by decide, by decide,
      loadSession_truncated intMath "1" ["1+1", "2", "2", "y", "7", "z"] 1 StandardButton.No
        liveState (by decide) (by decide)
        (Or.inr ⟨["1+1", "2"], "2", ["y", "7", "z"], 2, by decide, by decide, by decide,
          by decide⟩)⟩⟩

/-- C6 (counterexample): the file `0.10`, `1`, `2+3`, `5`, `1`, `y`, `7`,
`surplus`, `lines` holds two lines more than its counts declare. loadSession
(merge) reports no error, appends the calculation, assigns `y` and leaves the
two lines unread. -/
theorem loadSession_surplus_lines_accepted :
    (loadSession intMath
        (FileSelection.opened ["0.10", "1", "2+3", "5", "1", "y", "7", "surplus", "lines"])
        StandardButton.Yes liveState).critical = none ∧
    (loadSession intMath
        (FileSelection.opened ["0.10", "1", "2+3", "5", "1", "y", "7", "surplus", "lines"])
        StandardButton.Yes liveState).stream = ["surplus", "lines"] ∧
    (loadSession intMath
        (FileSelection.opened ["0.10", "1", "2+3", "5", "1", "y", "7", "surplus", "lines"])
        StandardButton.Yes liveState).state.display
      = [⟨"1+1", Outcome.value 2⟩, ⟨"2+3", Outcome.value 5⟩] ∧
    (loadSession intMath
        (FileSelection.opened ["0.10", "1", "2+3", "5", "1", "y", "7", "surplus", "lines"])
        StandardButton.Yes liveState).state.evaluator
      = [⟨"pi", 314⟩, ⟨"phi", 161⟩, ⟨"x", 1⟩, ⟨"y", 7⟩] := by
  decide

/-- C6 (amended): lines that follow the declared variable bindings are never
read and do not invalidate the file: for every input that loadSession loads
without an error, every user choice and every list of further lines put after
the input, loadSession loads the longer input without an error as well, ends in
the same state, and leaves the further lines unread. -/
theorem loadSession_surplus_lines_ignored (hm : HMath V) (lines extra : List String)
    (but : StandardButton) (s : State V)
    (h : (loadSession hm (FileSelection.opened lines) but s).critical = none) :
    (loadSession hm (FileSelection.opened (lines ++ extra)) but s).critical = none ∧
    (loadSession hm (FileSelection.opened (lines ++ extra)) but s).state
      = (loadSession hm (FileSelection.opened lines) but s).state ∧
    (loadSession hm (FileSelection.opened (lines ++ extra)) but s).stream
      = (loadSession hm (FileSelection.opened lines) but s).stream ++ extra := by
  by_cases hb : but = StandardButton.Cancel
  · subst hb
    have hc := loadSession_cancel_accepts hm lines s h
    obtain ⟨cnt, rest, hl, hres⟩ := hc
    have hres2 := loadSession_cancel_header hm cnt (rest ++ extra) s
    have hres1 := loadSession_cancel_header hm cnt rest s
    rw [hl] at h ⊢
    rw [hres1] at h
    simp only [List.cons_append]
    rw [hres1, hres2]
    cases hn : invalidCount (some cnt) with
    | true => simp [hn] at h
    | false => simp
  · obtain ⟨sess, rest, hd⟩ := decode_of_loadSession hm lines s but hb h
    have hd2 := decodeLines_append_extra hm lines sess rest extra hd
    have h1 := loadSession_of_decode hm lines s sess rest hd
    have h2 := loadSession_of_decode hm (lines ++ extra) s sess (rest ++ extra) hd2
    cases but with
    | Cancel => exact absurd rfl hb
    | Yes => rw [h1.1, h2.1]; exact ⟨rfl, rfl, rfl⟩
    | No => rw [h1.2, h2.2]; exact ⟨rfl, rfl, rfl⟩

/-- A file with one calculation and one variable, with and without one further line
after the declared bindings. -/
theorem loadSession_surplus_lines_ignored_witness :
    (loadSession intMath (FileSelection.opened ["0.10", "1", "2+3", "5", "1", "y", "7"])
        StandardButton.No liveState).critical = none ∧
    (loadSession intMath
        (FileSelection.opened (["0.10", "1", "2+3", "5", "1", "y", "7"] ++ ["surplus"]))
        StandardButton.No liveState).critical = none ∧
    (loadSession intMath
        (FileSelection.opened (["0.10", "1", "2+3", "5", "1", "y", "7"] ++ ["surplus"]))
        StandardButton.No liveState).state
      = (loadSession intMath (FileSelection.opened ["0.10", "1", "2+3", "5", "1", "y", "7"])
          StandardButton.No liveState).state ∧
    (loadSession intMath
        (FileSelection.opened (["0.10", "1", "2+3", "5", "1", "y", "7"] ++ ["surplus"]))
        StandardButton.No liveState).stream
      = (loadSession intMath (FileSelection.opened ["0.10", "1", "2+3", "5", "1", "y", "7"])
          StandardButton.No liveState).stream ++ ["surplus"] :=
  ⟨by decide,
    loadSession_surplus_lines_ignored intMath ["0.10", "1", "2+3", "5", "1", "y", "7"]
      ["surplus"] StandardButton.No liveState (by decide)⟩

/-- C7: for every live state and every input that loadSession loads without an
error when the user chooses merge, the input decodes (in the sense of the
specification) to a session such that the state afterwards is the previous state
with the decoded calculations appended to the log in file order and the decoded
numeric bindings assigned to the variable table in file order; so the value of
every name afterwards is the value of its last decoded binding, and its previous
value when no decoded binding has that name. -/
theorem loadSession_merge (hm : HMath V) (lines : List String) (s : State V)
    (h : (loadSession hm (FileSelection.opened lines) StandardButton.Yes s).critical = none) :
    ∃ sess : Session V, decodeSession hm lines = some sess ∧
      (loadSession hm (FileSelection.opened lines) StandardButton.Yes s).state
        = { s with
            display := s.display ++ sess.calculations
            evaluator := assignAll s.evaluator sess.bindings } ∧
      ∀ name : String,
        Evaluator.get
            (loadSession hm (FileSelection.opened lines) StandardButton.Yes s).state.evaluator
            name
          = (lastBinding sess.bindings name).or (Evaluator.get s.evaluator name) := by
  obtain ⟨sess, rest, hd⟩ :=
    decode_of_loadSession hm lines s StandardButton.Yes (by decide) h
  have h1 := (loadSession_of_decode hm lines s sess rest hd).1
  refine ⟨sess, by simp [decodeSession, hd], by rw [h1], ?_⟩
  intro name
  rw [h1]
  exact get_assignAll sess.bindings s.evaluator name

/-- A file with one failed calculation and the bindings `x` and `y`, merged into a
live state; and the table with `x` bound to 1 merged with the decoded bindings of
`x` to 2 and `y` to 3. -/
theorem loadSession_merge_witness :
    (loadSession intMath (FileSelection.opened ["0.10", "1", "1/0", "division by zero",
        "2", "x", "2", "y", "3"]) StandardButton.Yes liveState).critical = none ∧
    (∃ sess : Session Int,
      decodeSession intMath ["0.10", "1", "1/0", "division by zero", "2", "x", "2", "y", "3"]
        = some sess ∧
      (loadSession intMath (FileSelection.opened ["0.10", "1", "1/0", "division by zero",
          "2", "x", "2", "y", "3"]) StandardButton.Yes liveState).state
        = { liveState with
            display := liveState.display ++ sess.calculations
            evaluator := assignAll liveState.evaluator sess.bindings } ∧
      ∀ name : String,
        Evaluator.get
            (loadSession intMath (FileSelection.opened ["0.10", "1", "1/0",
              "division by zero", "2", "x", "2", "y", "3"]) StandardButton.Yes
              liveState).state.evaluator name
          = (lastBinding sess.bindings name).or (Evaluator.get liveState.evaluator name)) ∧
    (loadSession intMath (FileSelection.opened ["0.10", "0", "2", "x", "2", "y", "3"])
        StandardButton.Yes { evaluator := [⟨"x", 1⟩] }).state.evaluator
      = [⟨"x", 2⟩, ⟨"y", 3⟩] :=
  ⟨by decide,
    loadSession_merge intMath
      ["0.10", "1", "1/0", "division by zero", "2", "x", "2", "y", "3"] liveState (by decide),
    by decide⟩

/-- C8: for every live state and every input that loadSession loads without an
error when the user chooses replace, the input decodes (in the sense of the
specification) to a session such that the calculation log afterwards is exactly
the decoded calculations in file order, and the bindings afterwards other than
`pi` and `phi` are exactly those of the table built from the decoded numeric
bindings alone: nothing of the previous log or of the previous bindings is left.
When the decoded bindings have pairwise distinct names other than `pi` and `phi`,
the bindings afterwards other than `pi` and `phi` are the decoded list itself. -/
theorem loadSession_replace (hm : HMath V) (lines : List String) (s : State V)
    (h : (loadSession hm (FileSelection.opened lines) StandardButton.No s).critical = none) :
    ∃ sess : Session V, decodeSession hm lines = some sess ∧
      (loadSession hm (FileSelection.opened lines) StandardButton.No s).state.display
        = sess.calculations ∧
      nonReserved (loadSession hm (FileSelection.opened lines) StandardButton.No s).state.evaluator
        = nonReserved (assignAll [] sess.bindings) ∧
      ((sess.bindings.map (fun b => b.name)).Nodup →
        (∀ b ∈ sess.bindings, Evaluator.isReserved b.name = false) →
        nonReserved
            (loadSession hm (FileSelection.opened lines) StandardButton.No s).state.evaluator
          = sess.bindings) := by
  obtain ⟨sess, rest, hd⟩ :=
    decode_of_loadSession hm lines s StandardButton.No (by decide) h
  have h1 := (loadSession_of_decode hm lines s sess rest hd).2
  have hvars : nonReserved
      (loadSession hm (FileSelection.opened lines) StandardButton.No s).state.evaluator
        = nonReserved (assignAll [] sess.bindings) := by
    rw [h1]
    show nonReserved (assignAll (Evaluator.clearVariables s.evaluator) sess.bindings) = _
    rw [nonReserved_assignAll, nonReserved_clearVariables, nonReserved_assignAll]
    rfl
  refine ⟨sess, by simp [decodeSession, hd], by rw [h1], hvars, ?_⟩
  intro hnd hres
  rw [hvars, nonReserved_assignAll, nonReserved_self sess.bindings hres]
  have := assignAll_distinct sess.bindings (nonReserved ([] : List (Variable V))) hnd
    (by intro x hx; cases hx)
  rw [this]
  rfl

/-- The scenario of the specification: two calculations (`1+1` with outcome 2, `1/0`
with the error text `division by zero`) and the variable `k` bound to 5, loaded with
the answer replace. -/
theorem loadSession_replace_witness :
    (loadSession intMath (FileSelection.opened ["0.10", "2", "1+1", "2", "1/0",
        "division by zero", "1", "k", "5"]) StandardButton.No liveState).critical = none ∧
    (∃ sess : Session Int,
      decodeSession intMath
          ["0.10", "2", "1+1", "2", "1/0", "division by zero", "1", "k", "5"] = some sess ∧
      (loadSession intMath (FileSelection.opened ["0.10", "2", "1+1", "2", "1/0",
          "division by zero", "1", "k", "5"]) StandardButton.No liveState).state.display
        = sess.calculations ∧
      nonReserved (loadSession intMath (FileSelection.opened ["0.10", "2", "1+1", "2", "1/0",
          "division by zero", "1", "k", "5"]) StandardButton.No liveState).state.evaluator
        = nonReserved (assignAll [] sess.bindings) ∧
      ((sess.bindings.map (fun b => b.name)).Nodup →
        (∀ b ∈ sess.bindings, Evaluator.isReserved b.name = false) →
        nonReserved (loadSession intMath (FileSelection.opened ["0.10", "2", "1+1", "2",
            "1/0", "division by zero", "1", "k", "5"]) StandardButton.No
            liveState).state.evaluator
          = sess.bindings)) ∧
    (loadSession intMath (FileSelection.opened ["0.10", "2", "1+1", "2", "1/0",
        "division by zero", "1", "k", "5"]) StandardButton.No liveState).state.display
      = [⟨"1+1", Outcome.value 2⟩, ⟨"1/0", Outcome.error "division by zero"⟩] ∧
    (loadSession intMath (FileSelection.opened ["0.10", "2", "1+1", "2", "1/0",
        "division by zero", "1", "k", "5"]) StandardButton.No liveState).state.evaluator
      = [⟨"pi", 314⟩, ⟨"phi", 161⟩, ⟨"k", 5⟩] :=
  ⟨by decide,
    loadSession_replace intMath
      ["0.10", "2", "1+1", "2", "1/0", "division by zero", "1", "k", "5"] liveState
      (by decide),
    by decide, by decide⟩

/-- C10 (counterexample): the file `0.10`, `0`, `1`, `pi`, `3` declares a binding
named `pi`. loadSession (merge as well as replace) loads it without an error and
assigns it like any other binding: `pi`, bound to 314 before the load, is bound
to 3 afterwards. -/
theorem loadSession_overwrites_reserved :
    Evaluator.get liveState.evaluator "pi" = some 314 ∧
    (loadSession intMath (FileSelection.opened ["0.10", "0", "1", "pi", "3"])
        StandardButton.Yes liveState).critical = none ∧
    Evaluator.get (loadSession intMath (FileSelection.opened ["0.10", "0", "1", "pi", "3"])
        StandardButton.Yes liveState).state.evaluator "pi" = some 3 ∧
    (loadSession intMath (FileSelection.opened ["0.10", "0", "1", "pi", "3"])
        StandardButton.No liveState).critical = none ∧
    Evaluator.get (loadSession intMath (FileSelection.opened ["0.10", "0", "1", "pi", "3"])
        StandardButton.No liveState).state.evaluator "pi" = some 3 := by
  decide

/-- C10 (amended): for every live state and every input that decodes to a
session none of whose numeric bindings is named `pi` or `phi`, loadSession loads
the input without an error, and under merge and under replace (and under cancel)
the values bound to `pi` and to `phi` after the load are those bound to them
before the load. -/
theorem loadSession_reserved_kept (hm : HMath V) (lines : List String)
    (but : StandardButton) (s : State V) (sess : Session V)
    (hd : decodeSession hm lines = some sess)
    (hr : ∀ b ∈ sess.bindings, Evaluator.isReserved b.name = false) :
    (loadSession hm (FileSelection.opened lines) but s).critical = none ∧
    Evaluator.get (loadSession hm (FileSelection.opened lines) but s).state.evaluator "pi"
      = Evaluator.get s.evaluator "pi" ∧
    Evaluator.get (loadSession hm (FileSelection.opened lines) but s).state.evaluator "phi"
      = Evaluator.get s.evaluator "phi" := by
  have hpi : lastBinding sess.bindings "pi" = none :=
    lastBinding_absent sess.bindings "pi" (fun b hb e => by
      have := hr b hb
      rw [e] at this
      exact absurd this (by decide))
  have hphi : lastBinding sess.bindings "phi" = none :=
    lastBinding_absent sess.bindings "phi" (fun b hb e => by
      have := hr b hb
      rw [e] at this
      exact absurd this (by decide))
  cases hq : decodeLines hm lines with
  | none => simp [decodeSession, hq] at hd
  | some q =>
    obtain ⟨sess2, rest⟩ := q
    have he : sess2 = sess := by simpa [decodeSession, hq] using hd
    subst he
    have h1 := loadSession_of_decode hm lines s sess2 rest hq
    cases but with
    | Yes =>
      rw [h1.1]
      refine ⟨rfl, ?_, ?_⟩
      · show Evaluator.get (assignAll s.evaluator sess2.bindings) "pi" = _
        rw [get_assignAll, hpi]; rfl
      · show Evaluator.get (assignAll s.evaluator sess2.bindings) "phi" = _
        rw [get_assignAll, hphi]; rfl
    | No =>
      rw [h1.2]
      refine ⟨rfl, ?_, ?_⟩
      · show Evaluator.get
          (assignAll (Evaluator.clearVariables s.evaluator) sess2.bindings) "pi" = _
        rw [get_assignAll, hpi, get_clearVariables s.evaluator "pi" (by decide)]; rfl
      · show Evaluator.get
          (assignAll (Evaluator.clearVariables s.evaluator) sess2.bindings) "phi" = _
        rw [get_assignAll, hphi, get_clearVariables s.evaluator "phi" (by decide)]; rfl
    | Cancel =>
      rw [loadSession_cancel_state]
      refine ⟨?_, rfl, rfl⟩
      cases lines with
      | nil => simp [decodeLines] at hq
      | cons version tl =>
        by_cases hv : version = "0.10"
        · subst hv
          rw [decodeLines_version, readCount_eq] at hq
          cases hn : toInt (readLine tl).1 with
          | none => simp [hn] at hq
          | some noCalcs =>
            by_cases hneg : noCalcs < 0
            · simp [hn, hneg] at hq
            · simp [loadSession, readLine_cons, hn, hneg]
        · simp [decodeLines, hv] at hq

/-- A file with one calculation and the binding of `k`, loaded with the answer
replace into a live state. -/
theorem loadSession_reserved_kept_witness :
    decodeSession intMath ["0.10", "1", "1+1", "2", "1", "k", "5"]
      = some ⟨[⟨"1+1", Outcome.value 2⟩], [⟨"k", 5⟩]⟩ ∧
    (loadSession intMath (FileSelection.opened ["0.10", "1", "1+1", "2", "1", "k", "5"])
        StandardButton.No liveState).critical = none ∧
    Evaluator.get (loadSession intMath
        (FileSelection.opened ["0.10", "1", "1+1", "2", "1", "k", "5"])
        StandardButton.No liveState).state.evaluator "pi"
      = Evaluator.get liveState.evaluator "pi" ∧
    Evaluator.get (loadSession intMath
        (FileSelection.opened ["0.10", "1", "1+1", "2", "1", "k", "5"])
        StandardButton.No liveState).state.evaluator "phi"
      = Evaluator.get liveState.evaluator "phi" :=
  ⟨by decide,
    loadSession_reserved_kept intMath ["0.10", "1", "1+1", "2", "1", "k", "5"]
      StandardButton.No liveState ⟨[⟨"1+1", Outcome.value 2⟩], [⟨"k", 5⟩]⟩ (by decide)
      (by decide)⟩

/-- C11: for every input whose variable section is complete (the declared number
of name/value pairs is present), a pair whose value text is not a number is
skipped without an error: loadSession, after a merge or replace answer, reports
no error, and the variable table afterwards is the table the reading started
from with the numeric pairs before the skipped pair and the numeric pairs after
it assigned in file order, and no assignment for the skipped pair. -/
theorem loadSession_lenient_value (hm : HMath V) (cnt vcnt : String)
    (calcs pre post : List (String × String)) (name val : String) (rest : List String)
    (but : StandardButton) (s : State V) (hb : but ≠ StandardButton.Cancel)
    (hc : toInt (some cnt) = some ((calcs.length : Nat) : Int))
    (hv : toInt (some vcnt) = some (((pre ++ (name, val) :: post).length : Nat) : Int))
    (hnan : hm.parse val = none) :
    (loadSession hm
        (FileSelection.opened (fileLines cnt calcs vcnt (pre ++ (name, val) :: post) rest))
        but s).critical = none ∧
    (loadSession hm
        (FileSelection.opened (fileLines cnt calcs vcnt (pre ++ (name, val) :: post) rest))
        but s).state.evaluator =
      assignAll (startState but s).evaluator
        (pre.filterMap (decodeBinding hm) ++ post.filterMap (decodeBinding hm)) := by
  have hd := decodeLines_fileLines hm cnt vcnt calcs (pre ++ (name, val) :: post) rest hc hv
  rw [loadSession_of_decode_start hm _ s but hb _ rest hd]
  refine ⟨rfl, ?_⟩
  have hskip : decodeBinding hm (name, val) = none := by simp [decodeBinding, hnan]
  simp [List.filterMap_append, List.filterMap_cons, hskip]

/-- A variable section of three pairs whose second value is the text `oops`. -/
theorem loadSession_lenient_value_witness :
    toInt (some "3") = some (((([("a", "1")] : List (String × String))
      ++ ("b", "oops") :: [("c", "3")]).length : Nat) : Int) ∧
    intMath.parse "oops" = none ∧
    (loadSession intMath
        (FileSelection.opened
          (fileLines "0" [] "3" ([("a", "1")] ++ ("b", "oops") :: [("c", "3")]) []))
        StandardButton.Yes liveState).critical = none ∧
    (loadSession intMath
        (FileSelection.opened
          (fileLines "0" [] "3" ([("a", "1")] ++ ("b", "oops") :: [("c", "3")]) []))
        StandardButton.Yes liveState).state.evaluator =
      assignAll (startState StandardButton.Yes liveState).evaluator
        ([("a", "1")].filterMap (decodeBinding intMath)
          ++ [("c", "3")].filterMap (decodeBinding intMath)) ∧
    (loadSession intMath
        (FileSelection.opened
          (fileLines "0" [] "3" ([("a", "1")] ++ ("b", "oops") :: [("c", "3")]) []))
        StandardButton.Yes liveState).state.evaluator =
      [⟨"pi", 314⟩, ⟨"phi", 161⟩, ⟨"x", 1⟩, ⟨"a", 1⟩, ⟨"c", 3⟩] :=
  ⟨by decide, by decide,
    (loadSession_lenient_value intMath "0" "3" [] [("a", "1")] [("c", "3")] "b" "oops" []
      StandardButton.Yes liveState (by decide) (by decide) (by decide) (by decide)).1,
    (loadSession_lenient_value intMath "0" "3" [] [("a", "1")] [("c", "3")] "b" "oops" []
      StandardButton.Yes liveState (by decide) (by decide) (by decide) (by decide)).2,
    by decide⟩

/-- C13 (failing case): the layout of the text saveSession writes. For a log with
at least one calculation it is the line `0.10`, the calculation count, the
expression and outcome lines of the calculations, the variable count
(`noVars - 2`) and the name and value lines of the bindings not named `pi` or
`phi`, each line followed by a line feed. For a log without calculations an empty
line stands between the count line `0` and the variable-count line. -/
theorem saveSession_layout (hm : HMath V) (s : State V) :
    (s.display = [] →
      (saveSession hm s).data =
        lineChars (["0.10", "0", "", toString ((s.evaluator.length : Int) - 2)]
          ++ variableLines hm s.evaluator)) ∧
    (s.display ≠ [] →
      (saveSession hm s).data =
        lineChars (["0.10", toString (Display.count s.display)]
          ++ calculationLines hm s.display
          ++ [toString ((s.evaluator.length : Int) - 2)]
          ++ variableLines hm s.evaluator)) := by
  constructor
  · intro h
    rw [saveSession_data, h]
    have hz : toString (0 : Int) = "0" := by decide
    have h0 : toString (Display.count ([] : List (Calculation V))) = "0" := hz
    rw [h0]
    rfl
  · intro h
    rw [saveSession_data]
    cases hd : s.display with
    | nil => exact absurd hd h
    | cons c cs => rfl

/-- The session without calculations and without user variables, and the live
state with one calculation and the variable `x`. -/
theorem saveSession_layout_witness :
    (emptySession.display = [] ∧
      (saveSession intMath emptySession).data =
        lineChars (["0.10", "0", "", toString ((emptySession.evaluator.length : Int) - 2)]
          ++ variableLines intMath emptySession.evaluator) ∧
      saveSession intMath emptySession = "0.10\n0\n\n0\n") ∧
    (liveState.display ≠ [] ∧
      (saveSession intMath liveState).data =
        lineChars (["0.10", toString (Display.count liveState.display)]
          ++ calculationLines intMath liveState.display
          ++ [toString ((liveState.evaluator.length : Int) - 2)]
          ++ variableLines intMath liveState.evaluator) ∧
      saveSession intMath liveState = "0.10\n1\n1+1\n2\n1\nx\n1\n") :=
  ⟨⟨by decide, (saveSession_layout intMath emptySession).1 (by decide), by decide⟩,
    ⟨by decide, (saveSession_layout intMath liveState).2 (by decide), by decide⟩⟩

/-- C14: for every variable table of the evaluator, which holds the two constants
`pi` and `phi` (exactly two bindings with one of these names), the variable
count saveSession writes, the table size minus 2, equals the number of bindings
named neither `pi` nor `phi`, and the loop writes a name and a value for each of
them, so that the count is the number of name/value pairs written after it. -/
theorem saveSession_variable_count (hm : HMath V) (s : State V)
    (hres : (Evaluator.clearVariables s.evaluator).length = 2) :
    saveSession hm s =
      savedCalculations hm s.display
        ++ (toString (((nonReserved s.evaluator).length : Nat) : Int) ++ "\n"
          ++ variableSection hm s.evaluator) ∧
    (variableSection hm s.evaluator).data = lineChars (variableLines hm s.evaluator) ∧
    (variableLines hm s.evaluator).length = 2 * (nonReserved s.evaluator).length := by
  have hlen := length_split s.evaluator
  have hcnt : (s.evaluator.length : Int) - 2
      = (((nonReserved s.evaluator).length : Nat) : Int) := by omega
  refine ⟨?_, variableSection_data hm s.evaluator, variableLines_length hm s.evaluator⟩
  rw [saveSession_eq, savedVariables, hcnt]

/-- The live state with the variables `pi`, `phi` and `x`: the count written is 1. -/
theorem saveSession_variable_count_witness :
    (Evaluator.clearVariables liveState.evaluator).length = 2 ∧
    (saveSession intMath liveState =
        savedCalculations intMath liveState.display
          ++ (toString (((nonReserved liveState.evaluator).length : Nat) : Int) ++ "\n"
            ++ variableSection intMath liveState.evaluator) ∧
      (variableSection intMath liveState.evaluator).data
        = lineChars (variableLines intMath liveState.evaluator) ∧
      (variableLines intMath liveState.evaluator).length
        = 2 * (nonReserved liveState.evaluator).length) ∧
    savedVariables intMath liveState.evaluator = "1\nx\n1\n" :=
  ⟨by decide, saveSession_variable_count intMath liveState (by decide), by decide⟩

/-- C15 (as stated, refuted): loadSession, reading a file whose variable section
has the name line `pi` followed by two carriage returns, binds the name `pi`
with one carriage return behind it, next to the constants `pi` and `phi`. For
that table saveSession writes the name as it is, and the file it writes has the
name line `pi` in its variable section: loading the file binds `pi` to 7. -/
theorem saveSession_writes_reserved_line :
    (loadSession intMath
        (FileSelection.opened (textLines "0.10\n1\n1+1\n2\n1\npi\r\r\n7\n"))
        StandardButton.No liveState).state.evaluator = carriageNameState.evaluator ∧
    carriageNameState.evaluator = [⟨"pi", 314⟩, ⟨"phi", 161⟩, ⟨"pi\r", 7⟩] ∧
    saveSession intMath carriageNameState = "0.10\n1\n1+1\n2\n1\npi\r\n7\n" ∧
    textLines (saveSession intMath carriageNameState)
      = ["0.10", "1", "1+1", "2", "1", "pi", "7"] ∧
    textLines (savedVariables intMath carriageNameState.evaluator) = ["1", "pi", "7"] ∧
    (loadSession intMath
        (FileSelection.opened (textLines (saveSession intMath carriageNameState)))
        StandardButton.No carriageNameState).state.evaluator
      = [⟨"pi", 7⟩, ⟨"phi", 161⟩] := by
  decide

/-- C15 (amended): for every variable table, the text the loop of saveSession
writes after the variable count consists of a name and a value for each binding
of the table whose name is neither `pi` nor `phi`, in table order and nothing
else. If every name and every rendered value written is a single line (no line
feed in it, no carriage return at its end), the lines of the file from the
variable count on are the count line followed by a name line and a value line
for each of these bindings, in table order: no name line is `pi` or `phi`, and
every binding with another name is written exactly once. -/
theorem saveSession_skips_reserved (hm : HMath V) (s : State V)
    (hclean : ∀ t ∈ variableLines hm s.evaluator, cleanLine t = true) :
    saveSession hm s =
      "0.10" ++ "\n" ++ toString (Display.count s.display) ++ "\n"
        ++ Display.asText hm s.display ++ "\n"
        ++ (toString ((s.evaluator.length : Int) - 2) ++ "\n"
          ++ variableSection hm s.evaluator) ∧
    (variableSection hm s.evaluator).data =
      lineChars
        ((s.evaluator.filter (fun v => decide (v.name ≠ "pi" ∧ v.name ≠ "phi"))).flatMap
          (fun v => [v.name, hm.format v.value])) ∧
    (∀ v ∈ s.evaluator.filter (fun v => decide (v.name ≠ "pi" ∧ v.name ≠ "phi")),
      v.name ≠ "pi" ∧ v.name ≠ "phi") ∧
    textLines (saveSession hm s) =
      textLines (savedCalculations hm s.display)
        ++ toString ((s.evaluator.length : Int) - 2)
          :: pairLines
            ((s.evaluator.filter (fun v => decide (v.name ≠ "pi" ∧ v.name ≠ "phi"))).map
              (fun v => (v.name, hm.format v.value))) ∧
    (∀ p ∈ (s.evaluator.filter (fun v => decide (v.name ≠ "pi" ∧ v.name ≠ "phi"))).map
        (fun v => (v.name, hm.format v.value)),
      p.1 ≠ "pi" ∧ p.1 ≠ "phi") := by
  have hmem : ∀ v ∈ s.evaluator.filter (fun v => decide (v.name ≠ "pi" ∧ v.name ≠ "phi")),
      v.name ≠ "pi" ∧ v.name ≠ "phi" := by
    intro v hv
    have := (List.mem_filter.mp hv).2
    simpa using this
  refine ⟨?_, ?_, hmem, ?_, ?_⟩
  · rw [saveSession_eq]
    simp only [savedCalculations, savedVariables, String.append_assoc]
  · rw [variableSection_data, variableLines, nonReserved_eq_filter]
  · rw [saveSession_lines, savedVariables_textLines hm s.evaluator hclean, variableLines_pairs,
      nonReserved_eq_filter]
  · intro p hp
    obtain ⟨v, hv, hpv⟩ := List.mem_map.mp hp
    rw [← hpv]
    exact hmem v hv

/-- The live state with the variables `pi`, `phi` and `x`: the variable section
of the file has the count line and the two lines of `x`. -/
theorem saveSession_skips_reserved_witness :
    (∀ t ∈ variableLines intMath liveState.evaluator, cleanLine t = true) ∧
    textLines (saveSession intMath liveState) = ["0.10", "1", "1+1", "2", "1", "x", "1"] ∧
    textLines (saveSession intMath liveState) =
      textLines (savedCalculations intMath liveState.display)
        ++ toString ((liveState.evaluator.length : Int) - 2)
          :: pairLines
            ((liveState.evaluator.filter
                (fun v => decide (v.name ≠ "pi" ∧ v.name ≠ "phi"))).map
              (fun v => (v.name, intMath.format v.value))) :=
  ⟨by decide, by decide, (saveSession_skips_reserved intMath liveState (by decide)).2.2.2.1⟩

/-- C16 (counterexample): with the option to save the variables switched on and
the table `pi`, `phi`, `x`, saveSettings stores an entry for each of the three
bindings, the constants `pi` and `phi` included. -/
theorem saveSettings_stores_reserved :
    savingState.settings.saveVariables = true ∧
    savingState.evaluator = [⟨"pi", 314⟩, ⟨"phi", 161⟩, ⟨"x", 1⟩] ∧
    (saveSettings intMath savingState).settings.storedVariables
      = ["pi=314", "phi=161", "x=1"] := by
  decide

/-- C16 (amended): for every state in which the option to save the variables is
switched on, after saveSettings the stored variables list holds exactly one entry
for each current binding, in table order, the bindings named `pi` and `phi`
included. The entry is `QString( "%1=%2" )` filled with the name and with the
value rendered by `HMath::formatScientific` with the precision `DECPRECISION`;
for a name without a percent sign it is the text `name=value`. -/
theorem saveSettings_stores_all (hm : HMath V) (s : State V)
    (h : s.settings.saveVariables = true) :
    (saveSettings hm s).settings.storedVariables =
      s.evaluator.map (fun var =>
        qArg (qArg "%1=%2" var.name) (hm.formatScientific var.value hm.DECPRECISION)) ∧
    ∀ var ∈ s.evaluator, '%' ∉ var.name.data →
      qArg (qArg "%1=%2" var.name) (hm.formatScientific var.value hm.DECPRECISION)
        = var.name ++ "=" ++ hm.formatScientific var.value hm.DECPRECISION :=
  ⟨saveSettings_storedVariables hm s h, fun var _ hp => qArg_entry var.name _ hp⟩

/-- The live state with the variables `pi`, `phi` and `x`. -/
theorem saveSettings_stores_all_witness :
    savingState.settings.saveVariables = true ∧
    (saveSettings intMath savingState).settings.storedVariables =
      savingState.evaluator.map (fun var =>
        qArg (qArg "%1=%2" var.name)
          (intMath.formatScientific var.value intMath.DECPRECISION)) ∧
    (saveSettings intMath savingState).settings.storedVariables
      = ["pi=314", "phi=161", "x=1"] :=
  ⟨by decide, (saveSettings_stores_all intMath savingState (by decide)).1, by decide⟩

/-- C17: for every two states with the same variable table, whatever their
format, precision and radix-character settings (and whatever else differs), the
text saveSession writes from the variable count on (the count line and the name
and value lines) is the same. -/
theorem saveSession_variables_ignore_settings (hm : HMath V) (s1 s2 : State V)
    (h : s1.evaluator = s2.evaluator) :
    saveSession hm s1 = savedCalculations hm s1.display ++ savedVariables hm s1.evaluator ∧
    saveSession hm s2 = savedCalculations hm s2.display ++ savedVariables hm s1.evaluator := by
  constructor
  · exact saveSession_eq hm s1
  · rw [h]; exact saveSession_eq hm s2

/-- The live state, once with the default options and once with hexadecimal
format, precision 8 and the comma as radix character. -/
theorem saveSession_variables_ignore_settings_witness :
    liveState.evaluator
      = ({ liveState with
            settings := { format := 'h', precision := 8, radixChar := ',' } } : State Int).evaluator ∧
    saveSession intMath liveState
      = savedCalculations intMath liveState.display ++ savedVariables intMath liveState.evaluator ∧
    saveSession intMath
        { liveState with settings := { format := 'h', precision := 8, radixChar := ',' } }
      = savedCalculations intMath liveState.display
          ++ savedVariables intMath liveState.evaluator ∧
    savedVariables intMath liveState.evaluator = "1\nx\n1\n" :=
  ⟨rfl,
    (saveSession_variables_ignore_settings intMath liveState
      { liveState with settings := { format := 'h', precision := 8, radixChar := ',' } } rfl).1,
    (saveSession_variables_ignore_settings intMath liveState
      { liveState with settings := { format := 'h', precision := 8, radixChar := ',' } } rfl).2,
    by decide⟩

/-- C18 (counterexample): when the stored format already is `g`, two calls of
`setFormat( 'g' )` in a row emit no notification at all, not one. -/
theorem setFormat_twice_no_notification :
    ({} : Settings).format = 'g' ∧
    (setFormat 'g' {}).2 ++ (setFormat 'g' (setFormat 'g' {}).1).2 = [] := by
  decide

/-- C18 (amended): for every state and every format code `f`, the second of two
calls of `setFormat( f )` in a row is a no-op (same settings, no notification),
and the two calls together emit exactly one `formatChanged( f )` when the stored
format differed from `f` before the first call, and none when it was `f`
already. -/
theorem setFormat_twice (f : Char) (st : Settings) :
    setFormat f (setFormat f st).1 = ((setFormat f st).1, []) ∧
    (setFormat f st).2 ++ (setFormat f (setFormat f st).1).2 =
      (if st.format = f then [] else [Signal.formatChanged f]) := by
  by_cases h : st.format = f
  · simp [setFormat, h]
  · simp [setFormat, h]

/-- C19: for each of setFormat, setPrecision, setRadixChar, radian and degree, and
for every state in which the stored option already equals the requested value,
the call returns the settings record as it was and emits no notification. -/
theorem setters_noop_on_equal (st : Settings) :
    (∀ c : Char, st.format = c → setFormat c st = (st, [])) ∧
    (∀ p : Int, st.precision = p → setPrecision p st = (st, [])) ∧
    (∀ c : Char, st.radixChar = c → setRadixChar c st = (st, [])) ∧
    (st.angleMode = 'r' → radian st = (st, [])) ∧
    (st.angleMode = 'd' → degree st = (st, [])) := by
  refine ⟨?_, ?_, ?_, ?_, ?_⟩
  · intro c h; simp [setFormat, h]
  · intro p h; simp [setPrecision, h]
  · intro c h; simp [setRadixChar, h]
  · intro h; simp [radian, h]
  · intro h; simp [degree, h]

/-- The default options (format `g`, precision -1, radix character `C`, angle mode
`r`), and the same with the angle mode `d`. -/
theorem setters_noop_on_equal_witness :
    setFormat 'g' {} = ({}, []) ∧
    setPrecision (-1) {} = ({}, []) ∧
    setRadixChar 'C' {} = ({}, []) ∧
    radian {} = ({}, []) ∧
    degree { angleMode := 'd' } = ({ angleMode := 'd' }, []) :=
  ⟨(setters_noop_on_equal {}).1 'g' (by decide),
    (setters_noop_on_equal {}).2.1 (-1) (by decide),
    (setters_noop_on_equal {}).2.2.1 'C' (by decide),
    (setters_noop_on_equal {}).2.2.2.1 (by decide),
    (setters_noop_on_equal { angleMode := 'd' }).2.2.2.2 (by decide)⟩

/-- C20: for each of setFormat, setPrecision, setRadixChar, radian and degree, and
for every state in which the stored option differs from the requested value `v`,
the call stores `v` in that option, leaves the other fields of the settings
record as they were, and emits exactly one notification, of the kind of the
option and carrying `v`. -/
theorem setters_notify_once (st : Settings) :
    (∀ c : Char, st.format ≠ c →
      setFormat c st = ({ st with format := c }, [Signal.formatChanged c])) ∧
    (∀ p : Int, st.precision ≠ p →
      setPrecision p st = ({ st with precision := p }, [Signal.precisionChanged p])) ∧
    (∀ c : Char, st.radixChar ≠ c →
      setRadixChar c st = ({ st with radixChar := c }, [Signal.radixCharChanged c])) ∧
    (st.angleMode ≠ 'r' →
      radian st = ({ st with angleMode := 'r' }, [Signal.angleModeChanged 'r'])) ∧
    (st.angleMode ≠ 'd' →
      degree st = ({ st with angleMode := 'd' }, [Signal.angleModeChanged 'd'])) := by
  refine ⟨?_, ?_, ?_, ?_, ?_⟩
  · intro c h; simp [setFormat, h]
  · intro p h; simp [setPrecision, h]
  · intro c h; simp [setRadixChar, h]
  · intro h; simp [radian, h]
  · intro h; simp [degree, h]

/-- The default options (format `g`, precision -1, radix character `C`, angle mode
`r`) changed to hexadecimal format, precision 15, the comma and degrees; and
radians requested in the angle mode `d`. -/
theorem setters_notify_once_witness :
    setFormat 'h' {} = ({ format := 'h' }, [Signal.formatChanged 'h']) ∧
    setPrecision 15 {} = ({ precision := 15 }, [Signal.precisionChanged 15]) ∧
    setRadixChar ',' {} = ({ radixChar := ',' }, [Signal.radixCharChanged ',']) ∧
    degree {} = ({ angleMode := 'd' }, [Signal.angleModeChanged 'd']) ∧
    radian { angleMode := 'd' } = ({ angleMode := 'r' }, [Signal.angleModeChanged 'r']) :=
  ⟨(setters_notify_once {}).1 'h' (by decide),
    (setters_notify_once {}).2.1 15 (by decide),
    (setters_notify_once {}).2.2.1 ',' (by decide),
    (setters_notify_once {}).2.2.2.2 (by decide),
    (setters_notify_once { angleMode := 'd' }).2.2.2.1 (by decide)⟩

/-- C21 (failing case): each menu handler of the radix character leaves the
settings that `setRadixChar` of the same character leaves, but it emits
`radixCharChanged` on every call; when the character is already the stored one,
`setRadixChar` emits nothing and the handler still emits one notification. -/
theorem radixChar_handlers_always_emit (st : Settings) :
    ((radixCharAutoActivated st).1 = (setRadixChar 'C' st).1 ∧
      (radixCharAutoActivated st).2 = [Signal.radixCharChanged 'C'] ∧
      (st.radixChar = 'C' → (setRadixChar 'C' st).2 = [])) ∧
    ((radixCharDotActivated st).1 = (setRadixChar '.' st).1 ∧
      (radixCharDotActivated st).2 = [Signal.radixCharChanged '.'] ∧
      (st.radixChar = '.' → (setRadixChar '.' st).2 = [])) ∧
    ((radixCharCommaActivated st).1 = (setRadixChar ',' st).1 ∧
      (radixCharCommaActivated st).2 = [Signal.radixCharChanged ','] ∧
      (st.radixChar = ',' → (setRadixChar ',' st).2 = [])) := by
  refine ⟨⟨?_, rfl, ?_⟩, ⟨?_, rfl, ?_⟩, ⟨?_, rfl, ?_⟩⟩
  · rw [setRadixChar_settings]; rfl
  · intro h; simp [setRadixChar, h]
  · rw [setRadixChar_settings]; rfl
  · intro h; simp [setRadixChar, h]
  · rw [setRadixChar_settings]; rfl
  · intro h; simp [setRadixChar, h]

/-- The dot is the stored radix character and the menu entry of the dot is
activated. -/
theorem radixChar_handlers_always_emit_witness :
    ({ radixChar := '.' } : Settings).radixChar = '.' ∧
    (setRadixChar '.' { radixChar := '.' }).2 = [] ∧
    (radixCharDotActivated { radixChar := '.' }).2 = [Signal.radixCharChanged '.'] ∧
    (radixCharDotActivated { radixChar := '.' }).1 = (setRadixChar '.' { radixChar := '.' }).1 :=
  ⟨rfl,
    (radixChar_handlers_always_emit { radixChar := '.' }).2.1.2.2 rfl,
    (radixChar_handlers_always_emit { radixChar := '.' }).2.1.2.1,
    (radixChar_handlers_always_emit { radixChar := '.' }).2.1.1⟩

/-- C22 (counterexample): in the state with the precision -1 and the format `g`,
`setPrecision( 7 )` stores the precision 7 and `setFormat( 'x' )` stores the
format `x`; neither value is one the menus offer. -/
theorem setters_store_out_of_range :
    precisionOk ({} : Settings).precision = true ∧
    formatOk ({} : Settings).format = true ∧
    (setPrecision 7 {}).1.precision = 7 ∧ precisionOk 7 = false ∧
    (setFormat 'x' {}).1.format = 'x' ∧ formatOk 'x' = false := by
  decide

/-- C22 (amended): the setters store the value they are given, whatever it is:
for every state, every integer `p` and every character `c`, after
`setPrecision( p )` the stored precision is `p` and after `setFormat( c )` the
stored format is `c`. So the stored precision is in {-1, 2, 3, 8, 15, 50}
afterwards exactly when `p` is, and the stored format is one of the seven codes
afterwards exactly when `c` is. -/
theorem setters_store_argument (st : Settings) (p : Int) (c : Char) :
    (setPrecision p st).1.precision = p ∧
    (setFormat c st).1.format = c ∧
    precisionOk (setPrecision p st).1.precision = precisionOk p ∧
    formatOk (setFormat c st).1.format = formatOk c := by
  rw [setPrecision_settings, setFormat_settings]
  exact ⟨rfl, rfl, rfl, rfl⟩

/-- C28: for every state whose four options hold values the menus offer
(angle mode `r` or `d`, one of the seven format codes, a precision in
{-1, 2, 3, 8, 15, 50}, a radix character `C`, `.` or `,`), each of the eighteen
handlers leaves the four options inside these sets. -/
theorem handlers_keep_domains (st : Settings) (h : inDomains st = true) :
    inDomains (radian st).1 = true ∧ inDomains (degree st).1 = true ∧
    inDomains (digitsAuto st).1 = true ∧ inDomains (digits2 st).1 = true ∧
    inDomains (digits3 st).1 = true ∧ inDomains (digits8 st).1 = true ∧
    inDomains (digits15 st).1 = true ∧ inDomains (digits50 st).1 = true ∧
    inDomains (formatGeneral st).settings = true ∧
    inDomains (formatFixed st).settings = true ∧
    inDomains (formatEngineering st).settings = true ∧
    inDomains (formatScientific st).settings = true ∧
    inDomains (formatBinary st).settings = true ∧
    inDomains (formatOctal st).settings = true ∧
    inDomains (formatHexadec st).settings = true ∧
    inDomains (radixCharAutoActivated st).1 = true ∧
    inDomains (radixCharDotActivated st).1 = true ∧
    inDomains (radixCharCommaActivated st).1 = true := by
  refine ⟨?_, ?_, ?_, ?_, ?_, ?_, ?_, ?_, ?_, ?_, ?_, ?_, ?_, ?_, ?_, ?_, ?_, ?_⟩
  · rw [radian_settings]; exact inDomains_angleMode st 'r' h (by decide)
  · rw [degree_settings]; exact inDomains_angleMode st 'd' h (by decide)
  · rw [digitsAuto, setPrecision_settings]; exact inDomains_precision st (-1) h (by decide)
  · rw [digits2, setPrecision_settings]; exact inDomains_precision st 2 h (by decide)
  · rw [digits3, setPrecision_settings]; exact inDomains_precision st 3 h (by decide)
  · rw [digits8, setPrecision_settings]; exact inDomains_precision st 8 h (by decide)
  · rw [digits15, setPrecision_settings]; exact inDomains_precision st 15 h (by decide)
  · rw [digits50, setPrecision_settings]; exact inDomains_precision st 50 h (by decide)
  · show inDomains (setFormat 'g' st).1 = true
    rw [setFormat_settings]; exact inDomains_format st 'g' h (by decide)
  · show inDomains (setFormat 'f' st).1 = true
    rw [setFormat_settings]; exact inDomains_format st 'f' h (by decide)
  · show inDomains (setFormat 'n' st).1 = true
    rw [setFormat_settings]; exact inDomains_format st 'n' h (by decide)
  · show inDomains (setFormat 'e' st).1 = true
    rw [setFormat_settings]; exact inDomains_format st 'e' h (by decide)
  · show inDomains (setFormat 'b' st).1 = true
    rw [setFormat_settings]; exact inDomains_format st 'b' h (by decide)
  · show inDomains (setFormat 'o' st).1 = true
    rw [setFormat_settings]; exact inDomains_format st 'o' h (by decide)
  · show inDomains (setFormat 'h' st).1 = true
    rw [setFormat_settings]; exact inDomains_format st 'h' h (by decide)
  · exact inDomains_radixChar st 'C' h (by decide)
  · exact inDomains_radixChar st '.' h (by decide)
  · exact inDomains_radixChar st ',' h (by decide)

/-- The default options (angle mode `r`, format `g`, precision -1, radix
character `C`). -/
theorem handlers_keep_domains_witness :
    inDomains ({} : Settings) = true ∧
    inDomains (degree {}).1 = true ∧
    inDomains (digits15 {}).1 = true ∧
    inDomains (formatHexadec {}).settings = true ∧
    inDomains (radixCharCommaActivated {}).1 = true :=
  ⟨by decide,
    (handlers_keep_domains {} (by decide)).2.1,
    (handlers_keep_domains {} (by decide)).2.2.2.2.2.2.1,
    (handlers_keep_domains {} (by decide)).2.2.2.2.2.2.2.2.2.2.2.2.2.2.1,
    (handlers_keep_domains {} (by decide)).2.2.2.2.2.2.2.2.2.2.2.2.2.2.2.2.2⟩

/-- C29: for every state and every argument, setFormat changes no field of the
settings record other than the format, setPrecision none other than the
precision, setRadixChar none other than the radix character, and radian and
degree none other than the angle mode; and every notification a setter emits is
of its own kind and carries the requested value. -/
theorem setters_frame (st : Settings) (c : Char) (p : Int) :
    ((setFormat c st).1 = { st with format := c } ∧
      ∀ sig ∈ (setFormat c st).2, sig = Signal.formatChanged c) ∧
    ((setPrecision p st).1 = { st with precision := p } ∧
      ∀ sig ∈ (setPrecision p st).2, sig = Signal.precisionChanged p) ∧
    ((setRadixChar c st).1 = { st with radixChar := c } ∧
      ∀ sig ∈ (setRadixChar c st).2, sig = Signal.radixCharChanged c) ∧
    ((radian st).1 = { st with angleMode := 'r' } ∧
      ∀ sig ∈ (radian st).2, sig = Signal.angleModeChanged 'r') ∧
    ((degree st).1 = { st with angleMode := 'd' } ∧
      ∀ sig ∈ (degree st).2, sig = Signal.angleModeChanged 'd') := by
  refine ⟨⟨setFormat_settings c st, ?_⟩, ⟨setPrecision_settings p st, ?_⟩,
    ⟨setRadixChar_settings c st, ?_⟩, ⟨radian_settings st, ?_⟩, ⟨degree_settings st, ?_⟩⟩
  · intro sig hs
    by_cases h : st.format = c
    · simp [setFormat, h] at hs
    · simpa [setFormat, h] using hs
  · intro sig hs
    by_cases h : st.precision = p
    · simp [setPrecision, h] at hs
    · simpa [setPrecision, h] using hs
  · intro sig hs
    by_cases h : st.radixChar = c
    · simp [setRadixChar, h] at hs
    · simpa [setRadixChar, h] using hs
  · intro sig hs
    by_cases h : st.angleMode = 'r'
    · simp [radian, h] at hs
    · simpa [radian, h] using hs
  · intro sig hs
    by_cases h : st.angleMode = 'd'
    · simp [degree, h] at hs
    · simpa [degree, h] using hs

/-- C24: for each of the four docks (history, functions, variables, constants)
and every state, restoreDocks hides the dock, marks it floating, moves and
resizes it to the stored left, top, width and height of that dock and schedules
exactly one deferred show for it when the settings mark that dock as shown and
as floating and the live dock does not float; otherwise the dock is left as it
was and no show is scheduled for it. The condition of a dock reads the settings
and the live state of that dock only, and restoreDocks changes nothing but the
docks. -/
theorem restoreDocks_condition (s : State V) :
    (((s.settings.showHistory && s.settings.historyDockFloating && !s.docks.history.floating) = true →
        (restoreDocks s).1.docks.history =
          { floating := true, visible := false, x := s.settings.historyDockLeft,
            y := s.settings.historyDockTop, width := s.settings.historyDockWidth,
            height := s.settings.historyDockHeight } ∧
        (restoreDocks s).2.count DockId.history = 1) ∧
      ((s.settings.showHistory && s.settings.historyDockFloating && !s.docks.history.floating) = false →
        (restoreDocks s).1.docks.history = s.docks.history ∧
        (restoreDocks s).2.count DockId.history = 0)) ∧
    (((s.settings.showFunctions && s.settings.functionsDockFloating && !s.docks.functions.floating) = true →
        (restoreDocks s).1.docks.functions =
          { floating := true, visible := false, x := s.settings.functionsDockLeft,
            y := s.settings.functionsDockTop, width := s.settings.functionsDockWidth,
            height := s.settings.functionsDockHeight } ∧
        (restoreDocks s).2.count DockId.functions = 1) ∧
      ((s.settings.showFunctions && s.settings.functionsDockFloating && !s.docks.functions.floating) = false →
        (restoreDocks s).1.docks.functions = s.docks.functions ∧
        (restoreDocks s).2.count DockId.functions = 0)) ∧
    (((s.settings.showVariables && s.settings.variablesDockFloating && !s.docks.variables_.floating) = true →
        (restoreDocks s).1.docks.variables_ =
          { floating := true, visible := false, x := s.settings.variablesDockLeft,
            y := s.settings.variablesDockTop, width := s.settings.variablesDockWidth,
            height := s.settings.variablesDockHeight } ∧
        (restoreDocks s).2.count DockId.variables_ = 1) ∧
      ((s.settings.showVariables && s.settings.variablesDockFloating && !s.docks.variables_.floating) = false →
        (restoreDocks s).1.docks.variables_ = s.docks.variables_ ∧
        (restoreDocks s).2.count DockId.variables_ = 0)) ∧
    (((s.settings.showConstants && s.settings.constantsDockFloating && !s.docks.constants.floating) = true →
        (restoreDocks s).1.docks.constants =
          { floating := true, visible := false, x := s.settings.constantsDockLeft,
            y := s.settings.constantsDockTop, width := s.settings.constantsDockWidth,
            height := s.settings.constantsDockHeight } ∧
        (restoreDocks s).2.count DockId.constants = 1) ∧
      ((s.settings.showConstants && s.settings.constantsDockFloating && !s.docks.constants.floating) = false →
        (restoreDocks s).1.docks.constants = s.docks.constants ∧
        (restoreDocks s).2.count DockId.constants = 0)) ∧
    (restoreDocks s).1 = { s with docks := (restoreDocks s).1.docks } := by
  rw [restoreDocks_eq s]
  generalize (s.settings.showHistory && s.settings.historyDockFloating
      && !s.docks.history.floating) = b1
  generalize (s.settings.showFunctions && s.settings.functionsDockFloating
      && !s.docks.functions.floating) = b2
  generalize (s.settings.showVariables && s.settings.variablesDockFloating
      && !s.docks.variables_.floating) = b3
  generalize (s.settings.showConstants && s.settings.constantsDockFloating
      && !s.docks.constants.floating) = b4
  cases b1 <;> cases b2 <;> cases b3 <;> cases b4 <;> simp [floatAt]

/-- A state whose settings mark the history dock as shown and floating while the
live dock does not float (restored), the functions dock as shown but not
floating (left alone), and the constants dock as shown and floating while the
live dock floats already (left alone). -/
theorem restoreDocks_condition_witness :
    ((dockState.settings.showHistory && dockState.settings.historyDockFloating
        && !dockState.docks.history.floating) = true ∧
      (restoreDocks dockState).1.docks.history =
        { floating := true, visible := false, x := 10, y := 20, width := 300, height := 200 } ∧
      (restoreDocks dockState).2.count DockId.history = 1) ∧
    ((dockState.settings.showFunctions && dockState.settings.functionsDockFloating
        && !dockState.docks.functions.floating) = false ∧
      (restoreDocks dockState).1.docks.functions = dockState.docks.functions ∧
      (restoreDocks dockState).2.count DockId.functions = 0) ∧
    ((dockState.settings.showConstants && dockState.settings.constantsDockFloating
        && !dockState.docks.constants.floating) = false ∧
      (restoreDocks dockState).1.docks.constants = dockState.docks.constants ∧
      (restoreDocks dockState).2.count DockId.constants = 0) ∧
    (restoreDocks dockState).2 = [DockId.history] :=
  ⟨⟨by decide, (restoreDocks_condition dockState).1.1 (by decide)⟩,
    ⟨by decide, (restoreDocks_condition dockState).2.1.2 (by decide)⟩,
    ⟨by decide, (restoreDocks_condition dockState).2.2.2.1.2 (by decide)⟩,
    by decide⟩

/-- C30: for every settings record and every live state of the docks, a second
run of restoreDocks right after a first run returns the state the first run
left (no floating flag, visibility, position or size of a dock changes) and
schedules no show, because every dock the first run restored floats now. -/
theorem restoreDocks_idempotent (s : State V) :
    restoreDocks (restoreDocks s).1 = ((restoreDocks s).1, []) :=
  restoreDocks_twice s

/-- C26: for every state whose stored result list and stored expression list
have different lengths, restoreHistory does what clearHistory does and nothing
else: nothing is appended to the calculation log, and the log, the history of
the editor, the history dock and both stored lists end empty. -/
theorem restoreHistory_inconsistent (hm : HMath V) (mem : FreedMemory) (s : State V)
    (h : s.settings.historyResults.length ≠ s.settings.history.length) :
    restoreHistory hm mem s = clearHistory s ∧
    (restoreHistory hm mem s).display = [] ∧
    (restoreHistory hm mem s).editorHistory = [] ∧
    (restoreHistory hm mem s).editorHistoryResults = [] ∧
    (restoreHistory hm mem s).historyDock = [] ∧
    (restoreHistory hm mem s).settings.history = [] ∧
    (restoreHistory hm mem s).settings.historyResults = [] := by
  rw [restoreHistory_mismatch hm mem s h]
  exact ⟨rfl, rfl, rfl, rfl, rfl, rfl, rfl⟩

/-- A stored history of one expression and no result: the log, which held one
calculation, ends empty. -/
theorem restoreHistory_inconsistent_witness :
    brokenHistoryState.settings.historyResults.length
      ≠ brokenHistoryState.settings.history.length ∧
    brokenHistoryState.display = [⟨"7", Outcome.value 7⟩] ∧
    (restoreHistory intMath reusedMemory brokenHistoryState).display = [] ∧
    (restoreHistory intMath reusedMemory brokenHistoryState).editorHistory = [] ∧
    (restoreHistory intMath reusedMemory brokenHistoryState).settings.history = [] :=
  ⟨by decide, by decide,
    (restoreHistory_inconsistent intMath reusedMemory brokenHistoryState (by decide)).2.1,
    (restoreHistory_inconsistent intMath reusedMemory brokenHistoryState (by decide)).2.2.1,
    (restoreHistory_inconsistent intMath reusedMemory brokenHistoryState
      (by decide)).2.2.2.2.2.1⟩

/-- C23 (failing case): what applySettings guarantees about the calculation log,
for every settings record and whatever the reads through the stale pointer of
restoreHistory find. The run breaks off, in restoreVariables, exactly when the
variables are restored and a stored variable entry has no second part. When the
run reaches its end: with save-session disabled the log is empty; with
save-session enabled and stored lists of equal length the log is the log from
before (empty at startup) followed by one entry for each stored pair, in stored
order and with the stored expression, but the outcome of an entry is made from
what the two reads through the stale pointer find, not from the stored result
text. Only if both reads find the bytes of the converted result still in place
is each entry the one the claim describes: numeric if the result text is a
number, an error entry otherwise. -/
theorem applySettings_history (hm : HMath V) (mem : FreedMemory) (ev : Evaluation V)
    (w : WindowState) (s : State V) :
    (applySettings hm mem ev w s = none ↔
      (s.settings.saveVariables = true ∧
        ∃ e ∈ s.settings.storedVariables, (splitEq e).length < 2)) ∧
    (∀ r, applySettings hm mem ev w s = some r →
      (s.settings.saveSession = false → r.1.display = []) ∧
      (s.settings.saveSession = true →
        s.settings.historyResults.length = s.settings.history.length →
        r.1.display = s.display
          ++ ((List.zip s.settings.history s.settings.historyResults).enumFrom 0).map
            (fun ip => restoredEntry hm mem ip.1 ip.2) ∧
        r.1.display.map (fun c => c.expression)
          = s.display.map (fun c => c.expression) ++ s.settings.history) ∧
      (s.settings.saveSession = true →
        s.settings.historyResults.length = s.settings.history.length →
        (∀ i text, mem.atNumber i text = text ∧ mem.atError i text = toAscii text) →
        r.1.display = s.display
          ++ (List.zip s.settings.history s.settings.historyResults).map
            (intendedEntry hm))) := by
  refine ⟨applySettings_none hm mem ev w s, ?_⟩
  intro r hr
  have hd := applySettings_some_display hm mem ev w s r hr
  refine ⟨?_, ?_, ?_⟩
  · intro hs
    rw [hd]
    simp [hs, clearHistory, Display.clear]
  · intro hs hl
    rw [hd]
    simp only [hs, if_true]
    exact ⟨by rw [restoreHistory_match hm mem s hl], restoreHistory_expressions hm mem s hl⟩
  · intro hs hl hk
    rw [hd]
    simp only [hs, if_true]
    rw [restoreHistory_match hm mem s hl]
    have hfun : (fun ip : Nat × String × String => restoredEntry hm mem ip.1 ip.2)
        = (fun ip => intendedEntry hm ip.2) := by
      funext ip
      exact restoredEntry_kept hm mem hk ip.1 ip.2
    simp only [hfun, enumFrom_map_snd (intendedEntry hm)]

/-- A startup with save-session enabled and a stored history of the expressions
`1+1` and `1/0` with the results `2` and `division by zero`. When the reads
through the stale pointer find the storage reused, the log holds two error
entries with an empty text, not the numeric entry and the error entry of the
stored results; when they find the bytes still in place, the log is the one the
claim describes. A stored variable entry without an equals sign makes the run
break off. -/
theorem applySettings_history_witness :
    historyState.settings.saveSession = true ∧
    historyState.display = [] ∧
    (∃ r, applySettings intMath reusedMemory idleEvaluation plainWindow historyState = some r ∧
      r.1.display = [⟨"1+1", Outcome.error ""⟩, ⟨"1/0", Outcome.error ""⟩] ∧
      r.1.display ≠ (List.zip historyState.settings.history
        historyState.settings.historyResults).map (intendedEntry intMath)) ∧
    (∃ r, applySettings intMath keptMemory idleEvaluation plainWindow historyState = some r ∧
      r.1.display = [⟨"1+1", Outcome.value 2⟩, ⟨"1/0", Outcome.error "division by zero"⟩]) ∧
    applySettings intMath keptMemory idleEvaluation plainWindow malformedVariableState = none :=
  ⟨by decide, by decide,
    ⟨restoreDocks { historyState with
        display := [⟨"1+1", Outcome.error ""⟩, ⟨"1/0", Outcome.error ""⟩] },
      by decide, by decide, by decide⟩,
    ⟨restoreDocks { historyState with
        display := [⟨"1+1", Outcome.value 2⟩, ⟨"1/0", Outcome.error "division by zero"⟩] },
      by decide, by decide⟩,
    (applySettings_history intMath keptMemory idleEvaluation plainWindow
      malformedVariableState).1.mpr ⟨by decide, "x", by decide, by decide⟩⟩

/-- C27 (as stated, refuted): a table with the one binding named `%1f`, whose
name and whose rendered value `5` contain no equals sign. The name brings a
place marker of its own into the format string, the second `arg` fills that
marker and not `%2`: the stored entry is `5f=%2`, which splits into `5f` and
`%2` and not into the name and the rendered value, and restoreVariables assigns
the not-a-number value (0 in this engine) to the name `5f`. -/
theorem saveSettings_marker_name :
    markerNameState.evaluator = [⟨"%1f", 5⟩] ∧
    '=' ∉ ("%1f" : String).data ∧
    intMath.formatScientific 5 intMath.DECPRECISION = "5" ∧
    (saveSettings intMath markerNameState).settings.storedVariables = ["5f=%2"] ∧
    (saveSettings intMath markerNameState).settings.storedVariables.map splitEq
      = [["5f", "%2"]] ∧
    (restoreVariables intMath idleEvaluation
        { saveSettings intMath markerNameState with evaluator := [] }).map
      (fun t => t.evaluator) = some [⟨"5f", 0⟩] := by
  decide

/-- C27 (amended): for every variable table, every entry saveSettings stores
has a second part when split on the equals sign, so restoreVariables, run on
any state that holds these stored entries, never reads past the end of the
split list and runs to its end. If moreover no name contains an equals sign or
a percent sign and no rendered value contains an equals sign, each stored entry
splits into exactly the name and the rendered value, and restoreVariables
evaluates each entry and assigns to each stored name the number built from its
rendered value, in stored order. -/
theorem stored_variables_restore (hm : HMath V) (ev : Evaluation V) (s t : State V)
    (hsave : s.settings.saveVariables = true)
    (ht : t.settings.storedVariables = (saveSettings hm s).settings.storedVariables) :
    (∀ e ∈ (saveSettings hm s).settings.storedVariables, 2 ≤ (splitEq e).length) ∧
    (∃ t2, restoreVariables hm ev t = some t2) ∧
    ((∀ v ∈ s.evaluator, '=' ∉ v.name.data ∧ '%' ∉ v.name.data ∧
        '=' ∉ (hm.formatScientific v.value hm.DECPRECISION).data) →
      (saveSettings hm s).settings.storedVariables.map splitEq =
        s.evaluator.map (fun v => [v.name, hm.formatScientific v.value hm.DECPRECISION]) ∧
      restoreVariables hm ev t =
        some { t with
          evaluator := s.evaluator.foldl (fun tbl v =>
            Evaluator.set
              (ev.eval (v.name ++ "=" ++ hm.formatScientific v.value hm.DECPRECISION) tbl)
              v.name (hm.number (hm.formatScientific v.value hm.DECPRECISION))) t.evaluator
          variablesDock := s.evaluator.foldl (fun tbl v =>
            Evaluator.set
              (ev.eval (v.name ++ "=" ++ hm.formatScientific v.value hm.DECPRECISION) tbl)
              v.name (hm.number (hm.formatScientific v.value hm.DECPRECISION)))
            t.evaluator }) := by
  have hparts : ∀ e ∈ (saveSettings hm s).settings.storedVariables,
      2 ≤ (splitEq e).length := by
    intro e he
    rw [saveSettings_storedVariables hm s hsave] at he
    obtain ⟨v, _, hv⟩ := List.mem_map.mp he
    rw [← hv]
    exact stored_entry_parts _ _
  refine ⟨hparts, restoreVariables_some hm ev t (by rw [ht]; exact hparts), ?_⟩
  intro hclean
  have hplain := saveSettings_storedVariables_plain hm s hsave (fun v hv => (hclean v hv).2.1)
  have hsplit : ∀ v ∈ s.evaluator,
      splitEq (v.name ++ "=" ++ hm.formatScientific v.value hm.DECPRECISION)
        = [v.name, hm.formatScientific v.value hm.DECPRECISION] :=
    fun v hv => splitEq_entry _ _ (hclean v hv).1 (hclean v hv).2.2
  constructor
  · rw [hplain, List.map_map]
    apply List.map_congr_left
    intro v hv
    exact hsplit v hv
  · apply restoreVariables_of_entries
    rw [ht, hplain]
    exact restoreEntriesOfVariables_fold hm ev
      (fun v => v.name ++ "=" ++ hm.formatScientific v.value hm.DECPRECISION)
      (fun v => hm.formatScientific v.value hm.DECPRECISION) s.evaluator hsplit t.evaluator

/-- The table with `pi`, `phi` and `x`: the stored entries split into the names
and the rendered values, and restoreVariables, started on an empty table, assigns
the three bindings in stored order. -/
theorem stored_variables_restore_witness :
    savingState.settings.saveVariables = true ∧
    (saveSettings intMath savingState).settings.storedVariables.map splitEq
      = [["pi", "314"], ["phi", "161"], ["x", "1"]] ∧
    (restoreVariables intMath idleEvaluation
        { saveSettings intMath savingState with evaluator := [] }).map
      (fun t => t.evaluator) = some [⟨"pi", 314⟩, ⟨"phi", 161⟩, ⟨"x", 1⟩] ∧
    (∃ t2, restoreVariables intMath idleEvaluation
        { saveSettings intMath savingState with evaluator := [] } = some t2) :=
  ⟨by decide, by decide, by decide,
    (stored_variables_restore intMath idleEvaluation savingState
      { saveSettings intMath savingState with evaluator := [] } (by decide) (by decide)).2.1⟩

/-- C25 (as stated, refuted): a table with exactly one binding named `pi`,
exactly one named `phi` and one binding whose name holds a line feed.
saveSession writes the count 1 and the one pair of that binding, but the name
takes two lines of the file: loadSession reads the pair of the lines `a` and `b`
as the variable section, which is not the pair written, assigns nothing (`b` is
not a number), reports no error and leaves the value line unread. -/
theorem saveSession_name_with_line_feed :
    (splitNameState.evaluator.filter (fun v => decide (v.name = "pi"))).length = 1 ∧
    (splitNameState.evaluator.filter (fun v => decide (v.name = "phi"))).length = 1 ∧
    saveSession intMath splitNameState = "0.10\n1\n1+1\n2\n1\na\nb\n1\n" ∧
    (nonReserved splitNameState.evaluator).map (fun v => (v.name, intMath.format v.value))
      = [("a\nb", "1")] ∧
    textLines (saveSession intMath splitNameState)
      = ["0.10", "1", "1+1", "2", "1", "a", "b", "1"] ∧
    (loadSession intMath (FileSelection.opened (textLines (saveSession intMath splitNameState)))
      StandardButton.No splitNameState).critical = none ∧
    (loadSession intMath (FileSelection.opened (textLines (saveSession intMath splitNameState)))
      StandardButton.No splitNameState).stream = ["1"] ∧
    (loadSession intMath (FileSelection.opened (textLines (saveSession intMath splitNameState)))
      StandardButton.No splitNameState).state.evaluator = [⟨"pi", 314⟩, ⟨"phi", 161⟩] := by
  decide

/-- C25 (amended): for every variable table that contains exactly one binding
named `pi` and exactly one named `phi`, the count saveSession writes (table size
minus 2) is non-negative and equals the number of name/value pairs written
after it, one pair for each binding not named `pi` or `phi`, in table order. If
moreover every name and every rendered value written is a single line and the
table size fits the 32-bit integer of the count, loadSession, on a file with a
well-formed calculation section followed by this variable section, reads
exactly those pairs as the variable section: it reports no error, leaves no
line unread and assigns, in order, the pairs whose value is a number. -/
theorem saveSession_count_under_invariant (hm : HMath V) (s live : State V) (cnt : String)
    (calcs : List (String × String)) (but : StandardButton)
    (hpi : (s.evaluator.filter (fun v => decide (v.name = "pi"))).length = 1)
    (hphi : (s.evaluator.filter (fun v => decide (v.name = "phi"))).length = 1) :
    saveSession hm s = savedCalculations hm s.display ++ savedVariables hm s.evaluator ∧
    savedVariables hm s.evaluator =
      toString ((s.evaluator.length : Int) - 2) ++ "\n" ++ variableSection hm s.evaluator ∧
    0 ≤ (s.evaluator.length : Int) - 2 ∧
    (s.evaluator.length : Int) - 2 =
      ((((nonReserved s.evaluator).map (fun v => (v.name, hm.format v.value))).length : Nat)
        : Int) ∧
    (variableSection hm s.evaluator).data =
      lineChars (pairLines ((nonReserved s.evaluator).map (fun v => (v.name, hm.format v.value)))) ∧
    ((∀ t ∈ variableLines hm s.evaluator, cleanLine t = true) →
      s.evaluator.length ≤ 2147483647 →
      but ≠ StandardButton.Cancel →
      toInt (some cnt) = some ((calcs.length : Nat) : Int) →
      loadSession hm
          (FileSelection.opened
            ("0.10" :: cnt :: (pairLines calcs ++ textLines (savedVariables hm s.evaluator))))
          but live =
        ⟨{ startState but live with
            display := (startState but live).display ++ calcs.map (decodeCalculation hm)
            evaluator := assignAll (startState but live).evaluator
              (((nonReserved s.evaluator).map (fun v => (v.name, hm.format v.value))).filterMap
                (decodeBinding hm)) },
          [], true, none⟩) := by
  have hres : (Evaluator.clearVariables s.evaluator).length = 2 := by
    rw [clearVariables_length, hpi, hphi]
  have hcount := count_under_invariant s.evaluator hres
  refine ⟨saveSession_eq hm s, rfl, ?_, ?_, ?_, ?_⟩
  · rw [hcount]; omega
  · rw [hcount, List.length_map]
  · rw [variableSection_data, variableLines_pairs]
  · intro hclean hsize hb hc
    exact loadSession_savedVariables hm s.evaluator cnt calcs live but hb hres hclean hsize hc

/-- The table with `pi`, `phi` and `x`: the count written is 1, and loadSession,
merging into a state without variables, reads the one pair of `x`. -/
theorem saveSession_count_under_invariant_witness :
    (liveState.evaluator.filter (fun v => decide (v.name = "pi"))).length = 1 ∧
    (liveState.evaluator.filter (fun v => decide (v.name = "phi"))).length = 1 ∧
    savedVariables intMath liveState.evaluator = "1\nx\n1\n" ∧
    (loadSession intMath
        (FileSelection.opened
          ("0.10" :: "1" :: (pairLines [("1+1", "2")]
            ++ textLines (savedVariables intMath liveState.evaluator))))
        StandardButton.Yes emptySession).stream = [] ∧
    loadSession intMath
        (FileSelection.opened
          ("0.10" :: "1" :: (pairLines [("1+1", "2")]
            ++ textLines (savedVariables intMath liveState.evaluator))))
        StandardButton.Yes emptySession =
      ⟨{ startState StandardButton.Yes emptySession with
          display := (startState StandardButton.Yes emptySession).display
            ++ [("1+1", "2")].map (decodeCalculation intMath)
          evaluator := assignAll (startState StandardButton.Yes emptySession).evaluator
            (((nonReserved liveState.evaluator).map
              (fun v => (v.name, intMath.format v.value))).filterMap
                (decodeBinding intMath)) },
        [], true, none⟩ :=
  ⟨by decide, by decide, by decide, by decide,
    (saveSession_count_under_invariant intMath liveState emptySession "1" [("1+1", "2")]
      StandardButton.Yes (by decide) (by decide)).2.2.2.2.2 (by decide) (by decide)
      (by decide) (by decide)⟩

end Claims

end SpeedCrunch
